import Mathlib

/-!
# Dumper-7 `CollisionManager`: a shallow embedding and its verified properties

Source: `src/Dumper/CollisionManager.cpp`.

* `NameInfo` is the bit-packed collision record.  The header that declares the
  bit-fields is not part of the sources, so the two widths the code names
  (`OwnTypeBitCount`, `PerCountBitCount`) and the width of `CollisionData` are
  parameters, collected in `BitLayout`.
* `CollisionManager` is the state of the class: the scope store `NameInfos`, the
  `TranslationMap`, the interned name pool `MemberNames` and `ReservedNames`.
* `std::vector::push_back` is list append, a reverse iterator is a search in the
  reversed list, `std::unordered_map` is a partial function on keys, and
  `operator[]` on a map creates an empty entry when the key is absent.
* A failed `assert` is the result `none`.
-/

namespace Dumper

/-! ## Data model -/

/-- Modelled from the spec: the enumeration `ECollisionType` (declared in the header
`CollisionManager.h`, which is not among the sources).  Five ordinals, used both as a
category tag and as a counter-slot index. -/
inductive ECollisionType where
  | MemberName
  | SuperMemberName
  | FunctionName
  | SuperFunctionName
  | ParameterName
deriving DecidableEq, Repr

/-- The ordinal of a collision type, `static_cast<uint8>(CurrentType)`. -/
def ECollisionType.toNat : ECollisionType → Nat
  | .MemberName => 0
  | .SuperMemberName => 1
  | .FunctionName => 2
  | .SuperFunctionName => 3
  | .ParameterName => 4

/-- The constants of the missing header, taken as parameters: the width of the `OwnType`
bit-field, the width of each of the five counter bit-fields, and the width of the integer
`CollisionData` that overlays them. -/
structure BitLayout where
  OwnTypeBitCount : Nat
  PerCountBitCount : Nat
  CollisionDataBits : Nat
deriving DecidableEq, Repr

/-- A layout the code can be compiled with: `OwnType` can hold every ordinal of
`ECollisionType`, a counter has at least one bit, and the six fields fit `CollisionData`. -/
def BitLayout.ok (B : BitLayout) : Prop :=
  3 ≤ B.OwnTypeBitCount ∧ 1 ≤ B.PerCountBitCount ∧
    B.OwnTypeBitCount + 5 * B.PerCountBitCount ≤ B.CollisionDataBits

instance (B : BitLayout) : Decidable B.ok := by
  unfold BitLayout.ok; infer_instance

/-- The largest value a counter bit-field can hold. -/
def BitLayout.maxCount (B : BitLayout) : Nat := 2 ^ B.PerCountBitCount - 1

/-- The collision record: the interned name and the packed `CollisionData`. -/
structure NameInfo where
  Name : Nat
  CollisionData : Nat
deriving DecidableEq, Repr

/-- Modelled from the spec: the bit-field `OwnType`, the low `OwnTypeBitCount` bits of
`CollisionData` (the union is declared in the missing header; the position is the one
`InitCollisionData` computes with). -/
def NameInfo.OwnType (B : BitLayout) (i : NameInfo) : Nat :=
  i.CollisionData % 2 ^ B.OwnTypeBitCount

/-- Modelled from the spec: the counter bit-field of slot `slot`, `PerCountBitCount` bits
starting at bit `OwnTypeBitCount + slot * PerCountBitCount` (the shift `InitCollisionData`
uses to increment it). -/
def NameInfo.CollisionCount (B : BitLayout) (i : NameInfo) (slot : Nat) : Nat :=
  i.CollisionData / 2 ^ (B.OwnTypeBitCount + slot * B.PerCountBitCount) % 2 ^ B.PerCountBitCount

/-- Bit-field `MemberNameCollisionCount` (slot 0). -/
def NameInfo.MemberNameCollisionCount (B : BitLayout) (i : NameInfo) : Nat :=
  i.CollisionCount B ECollisionType.MemberName.toNat

/-- Bit-field `SuperMemberNameCollisionCount` (slot 1). -/
def NameInfo.SuperMemberNameCollisionCount (B : BitLayout) (i : NameInfo) : Nat :=
  i.CollisionCount B ECollisionType.SuperMemberName.toNat

/-- Bit-field `FunctionNameCollisionCount` (slot 2). -/
def NameInfo.FunctionNameCollisionCount (B : BitLayout) (i : NameInfo) : Nat :=
  i.CollisionCount B ECollisionType.FunctionName.toNat

/-- Bit-field `SuperFuncNameCollisionCount` (slot 3). -/
def NameInfo.SuperFuncNameCollisionCount (B : BitLayout) (i : NameInfo) : Nat :=
  i.CollisionCount B ECollisionType.SuperFunctionName.toNat

/-- Bit-field `ParamNameCollisionCount` (slot 4). -/
def NameInfo.ParamNameCollisionCount (B : BitLayout) (i : NameInfo) : Nat :=
  i.CollisionCount B ECollisionType.ParameterName.toNat

/-- Assignment `OwnType = v` to the bit-field: the low bits are replaced by `v`
truncated to the field, the other bits are kept. -/
def NameInfo.setOwnType (B : BitLayout) (i : NameInfo) (v : Nat) : NameInfo :=
  { i with CollisionData :=
      i.CollisionData / 2 ^ B.OwnTypeBitCount * 2 ^ B.OwnTypeBitCount + v % 2 ^ B.OwnTypeBitCount }

/-- Constructor `NameInfo::NameInfo(NameIdx, CurrentType)` (lines 4-9). -/
def NameInfo.new (B : BitLayout) (NameIdx : Nat) (CurrentType : ECollisionType) : NameInfo :=
  NameInfo.setOwnType B { Name := NameIdx, CollisionData := 0 } CurrentType.toNat

/-- The method `NameInfo::InitCollisionData` (lines 11-20).  `1 << ShiftCount` is
`2 ^ ShiftCount`, and the sum is reduced to the width of `CollisionData`. -/
def NameInfo.InitCollisionData (B : BitLayout) (self Existing : NameInfo)
    (CurrentType : ECollisionType) (bIsSuper : Bool) : NameInfo :=
  let s1 : NameInfo := { self with CollisionData := Existing.CollisionData }
  let s2 : NameInfo := s1.setOwnType B CurrentType.toNat
  let ShiftCount : Nat :=
    B.OwnTypeBitCount + (Existing.OwnType B + bIsSuper.toNat) * B.PerCountBitCount
  let IncrementForCollisionCount : Nat := 2 ^ ShiftCount
  { s2 with CollisionData :=
      (s2.CollisionData + IncrementForCollisionCount) % 2 ^ B.CollisionDataBits }

/-- The method `NameInfo::HasCollisions` (lines 22-40). -/
def NameInfo.HasCollisions (B : BitLayout) (i : NameInfo) : Bool :=
  if i.OwnType B = ECollisionType.MemberName.toNat then
    decide (i.SuperMemberNameCollisionCount B > 0) || decide (i.MemberNameCollisionCount B > 0)
  else if i.OwnType B = ECollisionType.FunctionName.toNat then
    decide (i.MemberNameCollisionCount B > 0) || decide (i.SuperMemberNameCollisionCount B > 0)
      || decide (i.FunctionNameCollisionCount B > 0)
  else if i.OwnType B = ECollisionType.ParameterName.toNat then
    decide (i.MemberNameCollisionCount B > 0) || decide (i.SuperMemberNameCollisionCount B > 0)
      || decide (i.FunctionNameCollisionCount B > 0) || decide (i.SuperFuncNameCollisionCount B > 0)
      || decide (i.ParamNameCollisionCount B > 0)
  else
    false

/-! ## The reflected objects (external collaborators) -/

/-- What the code reads of a `UEProperty`: its valid name and its address (the key that
`GetKeyForCollisionInfo` returns for a property). -/
structure UEProperty where
  ValidName : String
  Address : Nat
deriving DecidableEq, Repr

/-- What the code reads of a `UEFunction`: object index, valid name, the two parts of its
`FName`, and its parameters. -/
structure UEFunction where
  Index : Nat
  ValidName : String
  CompIdx : Nat
  Number : Nat
  Properties : List UEProperty
deriving DecidableEq, Repr

/-- What the code reads of a struct itself, its ancestor apart. -/
structure UEStructData where
  Index : Nat
  ValidName : String
  Properties : List UEProperty
  Functions : List UEFunction
deriving DecidableEq, Repr

/-- A `UEStruct` with its chain of ancestors: `GetSuper()` is null for `root` and the
direct ancestor for `derived`.  The chain is finite and acyclic by construction. -/
inductive UEStruct where
  | root (d : UEStructData)
  | derived (d : UEStructData) (Super : UEStruct)
deriving DecidableEq, Repr

/-- The data of the struct itself. -/
def UEStruct.data : UEStruct → UEStructData
  | .root d => d
  | .derived d _ => d

/-- Accessor `UEStruct::GetSuper`. -/
def UEStruct.GetSuper : UEStruct → Option UEStruct
  | .root _ => none
  | .derived _ Super => some Super

/-- Accessor `UEStruct::GetIndex`. -/
def UEStruct.GetIndex (s : UEStruct) : Nat := s.data.Index

/-- Accessor `UEStruct::GetValidName`. -/
def UEStruct.GetValidName (s : UEStruct) : String := s.data.ValidName

/-- Accessor `UEStruct::GetProperties`. -/
def UEStruct.GetProperties (s : UEStruct) : List UEProperty := s.data.Properties

/-- Accessor `UEStruct::GetFunctions`. -/
def UEStruct.GetFunctions (s : UEStruct) : List UEFunction := s.data.Functions

/-! ## The interned name pool (external collaborator) -/

/-- Modelled from the spec: `HashStringTable::FindOrAdd` of the interned name pool (its
implementation is not among the sources).  The pool deduplicates raw strings into stable
integer identities; the result is the pool, the identity, and whether the string was newly
inserted. -/
def HashStringTable.FindOrAdd (t : List String) (s : String) : List String × (Nat × Bool) :=
  if s ∈ t then (t, (t.indexOf s, false)) else (t ++ [s], (t.length, true))

/-- Modelled from the spec: `GetStringEntry(Idx).GetWideName()`, the raw text of an interned
name. -/
def HashStringTable.GetStringEntry (t : List String) (Idx : Nat) : String :=
  t.getD Idx ""

/-- Decimal rendering `std::to_wstring` of a non-negative value. -/
def to_wstring (n : Nat) : String := Nat.repr n

/-! ## The manager -/

/-- A name container, `std::vector<NameInfo>`. -/
abbrev NameContainer := List NameInfo

/-- The scope store, `std::unordered_map<int32, NameContainer>`. -/
abbrev NameInfoMap := Nat → Option NameContainer

/-- The state of `CollisionManager`. -/
structure CollisionManager where
  NameInfos : NameInfoMap
  TranslationMap : Nat → Option Nat
  MemberNames : List String
  ReservedNames : NameContainer

/-- The manager before anything was added. -/
def CollisionManager.empty : CollisionManager :=
  { NameInfos := fun _ => none, TranslationMap := fun _ => none,
    MemberNames := [], ReservedNames := [] }

/-- The container stored at a key (empty when the key is absent). -/
def NameInfoMap.at (m : NameInfoMap) (k : Nat) : NameContainer := (m k).getD []

/-- Store a container at a key. -/
def NameInfoMap.set (m : NameInfoMap) (k : Nat) (c : NameContainer) : NameInfoMap :=
  fun k' => if k' = k then some c else m k'

/-- The map after `NameInfos[k]`: `operator[]` creates an empty container for an absent key. -/
def NameInfoMap.touch (m : NameInfoMap) (k : Nat) : NameInfoMap :=
  m.set k (m.at k)

/-- The map after `push_back` / `emplace_back` on the container at a key. -/
def NameInfoMap.push_back (m : NameInfoMap) (k : Nat) (r : NameInfo) : NameInfoMap :=
  m.set k (m.at k ++ [r])

/-- The reverse-iterator loop of lines 93-104: the most recently added record of
`SearchNames` whose name is `NameIdx`. -/
def findExisting (SearchNames : NameContainer) (NameIdx : Nat) : Option NameInfo :=
  SearchNames.reverse.find? (fun ExistingName => decide (ExistingName.Name = NameIdx))

/-- The lambda `AddCollidingName` (lines 86-107).  `OutTargetNames` is the key of the
target container, `none` for a null pointer (the assert of line 88 fails). The result is
the scope store after the call and the returned flag. -/
def AddCollidingName (B : BitLayout) (m : NameInfoMap) (SearchNames : NameContainer)
    (OutTargetNames : Option Nat) (NameIdx : Nat) (CurrentType : ECollisionType)
    (bIsSuper : Bool) : Option (NameInfoMap × Bool) :=
  match OutTargetNames with
  | none => none
  | some tgt =>
    let NewInfo := NameInfo.new B NameIdx CurrentType
    match findExisting SearchNames NameIdx with
    | some ExistingName =>
      some (m.push_back tgt (NewInfo.InitCollisionData B ExistingName CurrentType bIsSuper), true)
    | none => some (m, false)

/-- The value `Container->size() - 1` for the container behind a pointer. -/
def lastIndex (m : NameInfoMap) (k : Nat) : Nat := (m.at k).length - 1

/-- The loop over the ancestors (lines 151-157), entered with a non-null `Current`. -/
def AddNameToContainer.superLoop (B : BitLayout) (TargetNameContainer : Option Nat)
    (NameIdx : Nat) (CurrentType : ECollisionType) :
    NameInfoMap → UEStruct → Option (NameInfoMap × Bool)
  | m, .root d =>
    let m1 := m.touch d.Index
    AddCollidingName B m1 (m1.at d.Index) TargetNameContainer NameIdx CurrentType true
  | m, .derived d Super =>
    let m1 := m.touch d.Index
    match AddCollidingName B m1 (m1.at d.Index) TargetNameContainer NameIdx CurrentType true with
    | none => none
    | some (m2, true) => some (m2, true)
    | some (m2, false) =>
      AddNameToContainer.superLoop B TargetNameContainer NameIdx CurrentType m2 Super

/-- Lines 144-176 of `AddNameToContainer`: the search of the struct, its ancestors and the
reserved names, and the fallback that adds a record without collisions. -/
def AddNameToContainer.searchScopes (B : BitLayout) (ReservedNames : NameContainer)
    (m : NameInfoMap) (StructNames : Nat) (Struct : UEStruct) (NameIdx : Nat)
    (CurrentType : ECollisionType) (bShouldCheckReservedNames : Bool)
    (FuncParamNames : Option Nat) : Option (NameInfoMap × Nat) :=
  let bIsParameter : Bool := decide (CurrentType = ECollisionType.ParameterName)
  let TargetNameContainer : Option Nat := if bIsParameter then FuncParamNames else some StructNames
  match AddCollidingName B m (m.at StructNames) TargetNameContainer NameIdx CurrentType false with
  | none => none
  | some (m1, true) => TargetNameContainer.map (fun t => (m1, lastIndex m1 t))
  | some (m1, false) =>
    let supers : Option (NameInfoMap × Bool) :=
      match Struct.GetSuper with
      | none => some (m1, false)
      | some Current =>
        AddNameToContainer.superLoop B TargetNameContainer NameIdx CurrentType m1 Current
    match supers with
    | none => none
    | some (m2, true) => TargetNameContainer.map (fun t => (m2, lastIndex m2 t))
    | some (m2, false) =>
      let reserved : Option (NameInfoMap × Bool) :=
        if bShouldCheckReservedNames then
          AddCollidingName B m2 ReservedNames TargetNameContainer NameIdx CurrentType false
        else some (m2, false)
      match reserved with
      | none => none
      | some (m3, true) => TargetNameContainer.map (fun t => (m3, lastIndex m3 t))
      | some (m3, false) =>
        match bIsParameter, FuncParamNames with
        | true, some f =>
          let m4 := m3.push_back f (NameInfo.new B NameIdx CurrentType)
          some (m4, lastIndex m4 f)
        | _, _ =>
          let m4 := m3.push_back StructNames (NameInfo.new B NameIdx CurrentType)
          some (m4, lastIndex m4 StructNames)

/-- Lines 122-142 of `AddNameToContainer`, for a non-null `Func`: the function's own
container and, for it, the reserved names.  The result `Sum.inl` is a return from
`AddNameToContainer`, `Sum.inr` continues at line 144. -/
def AddNameToContainer.searchFunc (B : BitLayout) (ReservedNames : NameContainer)
    (m : NameInfoMap) (Func : UEFunction) (NameIdx : Nat) (bWasInserted : Bool)
    (CurrentType : ECollisionType) (bShouldCheckReservedNames : Bool) :
    Option (Sum (NameInfoMap × Nat) NameInfoMap) :=
  let bIsParameter : Bool := decide (CurrentType = ECollisionType.ParameterName)
  let m1 := m.touch Func.Index
  let FuncParamNames : Nat := Func.Index
  if bWasInserted && bIsParameter then
    let m2 := m1.push_back FuncParamNames (NameInfo.new B NameIdx CurrentType)
    some (Sum.inl (m2, lastIndex m2 FuncParamNames))
  else
    match AddCollidingName B m1 (m1.at FuncParamNames) (some FuncParamNames) NameIdx
        CurrentType false with
    | none => none
    | some (m2, true) => some (Sum.inl (m2, lastIndex m2 FuncParamNames))
    | some (m2, false) =>
      if bShouldCheckReservedNames then
        match AddCollidingName B m2 ReservedNames (some FuncParamNames) NameIdx
            CurrentType false with
        | none => none
        | some (m3, true) => some (Sum.inl (m3, lastIndex m3 FuncParamNames))
        | some (m3, false) => some (Sum.inr m3)
      else some (Sum.inr m2)

/-- The method `CollisionManager::AddNameToContainer` (lines 84-177).  `StructNames` is the
key of the container the reference denotes, `NamePair` the result of `FindOrAdd`, `Func`
is `none` for a null function.  The result is the manager after the call and the returned
position; `none` when an assert fails. -/
def CollisionManager.AddNameToContainer (B : BitLayout) (self : CollisionManager)
    (StructNames : Nat) (Struct : UEStruct) (NamePair : Nat × Bool)
    (CurrentType : ECollisionType) (bShouldCheckReservedNames : Bool)
    (Func : Option UEFunction) : Option (CollisionManager × Nat) :=
  let bIsParameter : Bool := decide (CurrentType = ECollisionType.ParameterName)
  let NameIdx := NamePair.1
  let bWasInserted := NamePair.2
  if bWasInserted && !bIsParameter then
    let m1 := self.NameInfos.push_back StructNames (NameInfo.new B NameIdx CurrentType)
    some ({ self with NameInfos := m1 }, lastIndex m1 StructNames)
  else
    let res : Option (NameInfoMap × Nat) :=
      match Func with
      | none =>
        AddNameToContainer.searchScopes B self.ReservedNames self.NameInfos StructNames Struct
          NameIdx CurrentType bShouldCheckReservedNames none
      | some F =>
        match AddNameToContainer.searchFunc B self.ReservedNames self.NameInfos F NameIdx
            bWasInserted CurrentType bShouldCheckReservedNames with
        | none => none
        | some (Sum.inl r) => some r
        | some (Sum.inr m1) =>
          AddNameToContainer.searchScopes B self.ReservedNames m1 StructNames Struct
            NameIdx CurrentType bShouldCheckReservedNames (some F.Index)
    res.map (fun r => ({ self with NameInfos := r.1 }, r.2))

/-- The method `CollisionManager::AddReservedName` (lines 179-187). -/
def CollisionManager.AddReservedName (B : BitLayout) (self : CollisionManager)
    (Name : String) (bIsParameterOrLocalVariable : Bool) : CollisionManager :=
  let found := HashStringTable.FindOrAdd self.MemberNames Name
  let NewInfo : NameInfo := { Name := found.2.1, CollisionData := 0 }
  let NewInfo := NewInfo.setOwnType B
    (if bIsParameterOrLocalVariable then ECollisionType.ParameterName
      else ECollisionType.SuperMemberName).toNat
  { self with MemberNames := found.1, ReservedNames := self.ReservedNames ++ [NewInfo] }

/-- Key of a property, `KeyFunctions::GetKeyForCollisionInfo(UEStruct, UEProperty)` (lines
54-68): the value returned is the address of the member. -/
def KeyFunctions.GetKeyForCollisionInfoProperty (_Super : UEStruct) (Member : UEProperty) : Nat :=
  Member.Address

/-- Key of a function, `KeyFunctions::GetKeyForCollisionInfo(UEStruct, UEFunction)` (lines
70-82), on 64-bit unsigned integers. -/
def KeyFunctions.GetKeyForCollisionInfoFunction (_Super : UEStruct) (Member : UEFunction) : Nat :=
  let Key := (Member.CompIdx + Member.Number) % 2 ^ 64
  let Key := (Key * 2 ^ 32) % 2 ^ 64
  Key ||| Member.Index

/-- The call `TranslationMap.emplace(Key, Index)`: nothing is stored when the key is present. -/
def emplace (t : Nat → Option Nat) (Key Index : Nat) : Nat → Option Nat :=
  match t Key with
  | some _ => t
  | none => fun k => if k = Key then some Index else t k

/-- The lambda `AddToContainerAndTranslationMap` (lines 202-210); `ValidName` and `Key` are
`Member.GetValidName()` and `GetKeyForCollisionInfo(Struct, Member)`.  The message written
for a duplicated key is not part of the state. -/
def AddToContainerAndTranslationMap (B : BitLayout) (self : CollisionManager)
    (Struct : UEStruct) (ValidName : String) (Key : Nat) (CollisionType : ECollisionType)
    (bShouldCheckReservedNames : Bool) (Func : Option UEFunction) : Option CollisionManager :=
  let found := HashStringTable.FindOrAdd self.MemberNames ValidName
  let self1 : CollisionManager := { self with MemberNames := found.1 }
  match self1.AddNameToContainer B Struct.GetIndex Struct found.2 CollisionType
      bShouldCheckReservedNames Func with
  | none => none
  | some (self2, Index) =>
    some { self2 with TranslationMap := emplace self2.TranslationMap Key Index }

/-- The loop of lines 212-213 over the data members of the struct. -/
def AddStructToNameContainer.propLoop (B : BitLayout) (Struct : UEStruct)
    (bShouldCheckReservedNames : Bool) :
    CollisionManager → List UEProperty → Option CollisionManager
  | self, [] => some self
  | self, Property :: rest =>
    match AddToContainerAndTranslationMap B self Struct Property.ValidName
        (KeyFunctions.GetKeyForCollisionInfoProperty Struct Property) ECollisionType.MemberName
        bShouldCheckReservedNames none with
    | none => none
    | some self1 => AddStructToNameContainer.propLoop B Struct bShouldCheckReservedNames self1 rest

/-- The loop of lines 219-220 over the parameters of one function. -/
def AddStructToNameContainer.paramLoop (B : BitLayout) (Struct : UEStruct)
    (bShouldCheckReservedNames : Bool) (Func : UEFunction) :
    CollisionManager → List UEProperty → Option CollisionManager
  | self, [] => some self
  | self, Property :: rest =>
    match AddToContainerAndTranslationMap B self Struct Property.ValidName
        (KeyFunctions.GetKeyForCollisionInfoProperty Struct Property) ECollisionType.ParameterName
        bShouldCheckReservedNames (some Func) with
    | none => none
    | some self1 =>
      AddStructToNameContainer.paramLoop B Struct bShouldCheckReservedNames Func self1 rest

/-- The loop of lines 215-221 over the functions of the struct. -/
def AddStructToNameContainer.funcLoop (B : BitLayout) (Struct : UEStruct)
    (bShouldCheckReservedNames : Bool) :
    CollisionManager → List UEFunction → Option CollisionManager
  | self, [] => some self
  | self, Func :: rest =>
    match AddToContainerAndTranslationMap B self Struct Func.ValidName
        (KeyFunctions.GetKeyForCollisionInfoFunction Struct Func) ECollisionType.FunctionName
        bShouldCheckReservedNames none with
    | none => none
    | some self1 =>
      match AddStructToNameContainer.paramLoop B Struct bShouldCheckReservedNames Func self1
          Func.Properties with
      | none => none
      | some self2 =>
        AddStructToNameContainer.funcLoop B Struct bShouldCheckReservedNames self2 rest

/-- Lines 197-221 of `AddStructToNameContainer`: the entry of the struct is created, and
filled unless it already has records. -/
def AddStructToNameContainer.build (B : BitLayout) (self : CollisionManager)
    (Struct : UEStruct) (bShouldCheckReservedNames : Bool) : Option CollisionManager :=
  let self1 : CollisionManager := { self with NameInfos := self.NameInfos.touch Struct.GetIndex }
  if (self1.NameInfos.at Struct.GetIndex).isEmpty then
    match AddStructToNameContainer.propLoop B Struct bShouldCheckReservedNames self1
        Struct.GetProperties with
    | none => none
    | some self2 =>
      AddStructToNameContainer.funcLoop B Struct bShouldCheckReservedNames self2
        Struct.GetFunctions
  else some self1

/-- The method `CollisionManager::AddStructToNameContainer` (lines 189-222). -/
def CollisionManager.AddStructToNameContainer (B : BitLayout) (self : CollisionManager) :
    UEStruct → Bool → Option CollisionManager
  | .root d, bShouldCheckReservedNames =>
    AddStructToNameContainer.build B self (.root d) bShouldCheckReservedNames
  | .derived d Super, bShouldCheckReservedNames =>
    if (self.NameInfos Super.GetIndex).isNone then
      match CollisionManager.AddStructToNameContainer B self Super bShouldCheckReservedNames with
      | none => none
      | some self1 =>
        AddStructToNameContainer.build B self1 (.derived d Super) bShouldCheckReservedNames
    else AddStructToNameContainer.build B self (.derived d Super) bShouldCheckReservedNames

/-- The method `CollisionManager::StringifyName` (lines 224-268). -/
def CollisionManager.StringifyName (B : BitLayout) (self : CollisionManager)
    (Struct : UEStruct) (Info : NameInfo) : String :=
  let Name : String := HashStringTable.GetStringEntry self.MemberNames Info.Name
  if Info.OwnType B = ECollisionType.MemberName.toNat then
    let Name := if Info.SuperMemberNameCollisionCount B > 0
      then Name ++ ("_" ++ Struct.GetValidName) else Name
    let Name := if Info.MemberNameCollisionCount B > 0
      then Name ++ ("_" ++ to_wstring (Info.MemberNameCollisionCount B - 1)) else Name
    Name
  else if Info.OwnType B = ECollisionType.FunctionName.toNat then
    let Name := if Info.MemberNameCollisionCount B > 0 ∨ Info.SuperMemberNameCollisionCount B > 0
      then "Func_" ++ Name else Name
    let Name := if Info.FunctionNameCollisionCount B > 0
      then Name ++ ("_" ++ to_wstring (Info.FunctionNameCollisionCount B - 1)) else Name
    Name
  else if Info.OwnType B = ECollisionType.ParameterName.toNat then
    let Name := if Info.MemberNameCollisionCount B > 0 ∨ Info.SuperMemberNameCollisionCount B > 0
        ∨ Info.FunctionNameCollisionCount B > 0 ∨ Info.SuperFuncNameCollisionCount B > 0
      then "Param_" ++ Name else Name
    let Name := if Info.ParamNameCollisionCount B > 0
      then Name ++ ("_" ++ to_wstring (Info.ParamNameCollisionCount B - 1)) else Name
    Name
  else Name

/-! ## Auxiliary definitions for the statements -/

/-- The counter slot that `InitCollisionData` increments. -/
def NameInfo.slotFor (B : BitLayout) (Existing : NameInfo) (bIsSuper : Bool) : Nat :=
  Existing.OwnType B + bIsSuper.toNat

/-- The struct and its ancestors, nearest first. -/
def UEStruct.chain : UEStruct → List UEStruct
  | .root d => [.root d]
  | .derived d Super => .derived d Super :: Super.chain

/-- The ancestors of a struct, nearest first. -/
def UEStruct.ancestors (s : UEStruct) : List UEStruct :=
  match s.GetSuper with
  | none => []
  | some Super => Super.chain

/-- The record an ancestor search finds: the most recent record named `n` in the table of
the nearest struct of the chain starting at the given struct that has one. -/
def superSearch (m : NameInfoMap) (n : Nat) : UEStruct → Option NameInfo
  | .root d => findExisting (m.at d.Index) n
  | .derived d Super =>
    match findExisting (m.at d.Index) n with
    | some e => some e
    | none => superSearch m n Super

/-- The search of the reserved names, made only when reserved names are checked. -/
def reservedSearch (ReservedNames : NameContainer) (chk : Bool) (n : Nat) : Option NameInfo :=
  if chk then findExisting ReservedNames n else none

/-- The priority search of the registration algorithm, steps 3 to 6 of the specification:
the scope's own table, the ancestors from nearest to furthest (a super hit), then the
reserved names.  The result is the matched record and whether it is a super hit. -/
def scopeSearch (m : NameInfoMap) (ReservedNames : NameContainer) (StructNames : Nat)
    (Struct : UEStruct) (n : Nat) (chk : Bool) : Option (NameInfo × Bool) :=
  match findExisting (m.at StructNames) n with
  | some e => some (e, false)
  | none =>
    match (match Struct.GetSuper with
      | none => none
      | some Super => superSearch m n Super) with
    | some e => some (e, true)
    | none =>
      match reservedSearch ReservedNames chk n with
      | some e => some (e, false)
      | none => none

/-- The priority search of the registration algorithm for an already interned name.  The
outer `none` is a failed assert (a parameter without function); otherwise the result is the
key of the table the new record is appended to and the match, if any. -/
def prioritySearch (self : CollisionManager) (StructNames : Nat) (Struct : UEStruct) (n : Nat)
    (CurrentType : ECollisionType) (chk : Bool) (Func : Option UEFunction) :
    Option (Nat × Option (NameInfo × Bool)) :=
  match Func with
  | none =>
    if CurrentType = ECollisionType.ParameterName then none
    else some (StructNames, scopeSearch self.NameInfos self.ReservedNames StructNames Struct n chk)
  | some F =>
    match findExisting (self.NameInfos.at F.Index) n with
    | some e => some (F.Index, some (e, false))
    | none =>
      match reservedSearch self.ReservedNames chk n with
      | some e => some (F.Index, some (e, false))
      | none =>
        some (if CurrentType = ECollisionType.ParameterName then F.Index else StructNames,
          scopeSearch self.NameInfos self.ReservedNames StructNames Struct n chk)

/-- The record the registration appends for the outcome of the priority search. -/
def recordFor (B : BitLayout) (n : Nat) (CurrentType : ECollisionType) :
    Option (NameInfo × Bool) → NameInfo
  | none => NameInfo.new B n CurrentType
  | some (e, bIsSuper) => (NameInfo.new B n CurrentType).InitCollisionData B e CurrentType bIsSuper

/-- The tables of `m'` are those of `m` with the record `r` appended to the table at `tgt`. -/
def NameInfoMap.PushedAt (m m' : NameInfoMap) (tgt : Nat) (r : NameInfo) : Prop :=
  ∀ k, m'.at k = if k = tgt then m.at tgt ++ [r] else m.at k

/-- The manager `self'` is `self` with the record `r` appended to the table at `tgt`; the
translation map, the name pool and the reserved names are those of `self`. -/
def CollisionManager.Appended (self self' : CollisionManager) (tgt : Nat) (r : NameInfo) : Prop :=
  self.NameInfos.PushedAt self'.NameInfos tgt r ∧ self'.TranslationMap = self.TranslationMap ∧
    self'.MemberNames = self.MemberNames ∧ self'.ReservedNames = self.ReservedNames

/-- The stringifier as the specification words it, on the raw text, the display name of the
owning type, the own kind and the five counts of a record: the text prepended and the texts
appended to the raw text, each present exactly under its condition. -/
def StringifyNameSpec (raw ownerTypeName : String) (ownKind : Nat) (counts : Nat → Nat) : String :=
  let cM := counts ECollisionType.MemberName.toNat
  let cSM := counts ECollisionType.SuperMemberName.toNat
  let cF := counts ECollisionType.FunctionName.toNat
  let cSF := counts ECollisionType.SuperFunctionName.toNat
  let cP := counts ECollisionType.ParameterName.toNat
  if ownKind = ECollisionType.MemberName.toNat then
    (raw ++ (if cSM > 0 then "_" ++ ownerTypeName else ""))
      ++ (if cM > 0 then "_" ++ Nat.repr (cM - 1) else "")
  else if ownKind = ECollisionType.FunctionName.toNat then
    ((if cM > 0 ∨ cSM > 0 then "Func_" else "") ++ raw)
      ++ (if cF > 0 then "_" ++ Nat.repr (cF - 1) else "")
  else if ownKind = ECollisionType.ParameterName.toNat then
    ((if cM > 0 ∨ cSM > 0 ∨ cF > 0 ∨ cSF > 0 then "Param_" else "") ++ raw)
      ++ (if cP > 0 then "_" ++ Nat.repr (cP - 1) else "")
  else raw

/-- The layout of the witnesses: an own type of 7 bits and five counters of 5 bits in a
32-bit integer. -/
def B0 : BitLayout := { OwnTypeBitCount := 7, PerCountBitCount := 5, CollisionDataBits := 32 }

/-! ### Concrete inputs of the witnesses and counterexamples -/

/-- A type `Base` (index 1) with the single data member `Value`. -/
def exBase : UEStruct :=
  .root { Index := 1, ValidName := "Base", Properties := [{ ValidName := "Value", Address := 100 }],
          Functions := [] }

/-- A type `Derived` (index 2) extending `Base`, with the data member `Value` and the function
`Value` (index 3, no parameters). -/
def exDerived : UEStruct :=
  .derived { Index := 2, ValidName := "Derived",
             Properties := [{ ValidName := "Value", Address := 200 }],
             Functions := [{ Index := 3, ValidName := "Value", CompIdx := 7, Number := 0,
                             Properties := [] }] } exBase

/-- A type `Middle` (index 4) extending `Base`, with the data member `Value`. -/
def exMiddle : UEStruct :=
  .derived { Index := 4, ValidName := "Middle",
             Properties := [{ ValidName := "Value", Address := 400 }], Functions := [] } exBase

/-- A type `Leaf` (index 5) extending `Middle`, with the data member `Value`. -/
def exLeaf : UEStruct :=
  .derived { Index := 5, ValidName := "Leaf",
             Properties := [{ ValidName := "Value", Address := 500 }], Functions := [] } exMiddle

/-- The manager after the driver has built `Middle` (and with it `Base`). -/
def exAfterMiddle : CollisionManager :=
  (CollisionManager.empty.AddStructToNameContainer B0 exMiddle true).getD CollisionManager.empty

/-- What one call of the lambda `AddToContainerAndTranslationMap` does to the manager: the
name is interned, the record `r` is appended to the table at `tgt`, and the key is published
with the position of the record.  A newly interned name gets a record without collisions in
the table of the function (parameter) or of the struct; an already interned name gets the
record of the outcome of the priority search. -/
def LambdaStep (B : BitLayout) (self self' : CollisionManager) (Struct : UEStruct)
    (ValidName : String) (Key : Nat) (CollisionType : ECollisionType) (chk : Bool)
    (Func : Option UEFunction) (tgt : Nat) (r : NameInfo) : Prop :=
  self.NameInfos.PushedAt self'.NameInfos tgt r
  ∧ self'.MemberNames = (HashStringTable.FindOrAdd self.MemberNames ValidName).1
  ∧ self'.ReservedNames = self.ReservedNames
  ∧ self'.TranslationMap = emplace self.TranslationMap Key (self.NameInfos.at tgt).length
  ∧ r.Name = (HashStringTable.FindOrAdd self.MemberNames ValidName).2.1
  ∧ r.OwnType B = CollisionType.toNat
  ∧ ((HashStringTable.FindOrAdd self.MemberNames ValidName).2.2 = true →
      r = NameInfo.new B (HashStringTable.FindOrAdd self.MemberNames ValidName).2.1 CollisionType
      ∧ (if CollisionType = ECollisionType.ParameterName then Func.map (fun F => F.Index)
          else some Struct.GetIndex) = some tgt)
  ∧ ((HashStringTable.FindOrAdd self.MemberNames ValidName).2.2 = false →
      ∃ mt, prioritySearch self Struct.GetIndex Struct
          (HashStringTable.FindOrAdd self.MemberNames ValidName).2.1 CollisionType chk Func
          = some (tgt, mt)
        ∧ r = recordFor B (HashStringTable.FindOrAdd self.MemberNames ValidName).2.1
            CollisionType mt)

/-- A record as `AddReservedName` builds it: own kind `ParameterName` for a word of parameter
context and `SuperMemberName` otherwise, every count zero. -/
def NameInfo.IsReserved (B : BitLayout) (e : NameInfo) (bIsParameterOrLocalVariable : Bool) : Prop :=
  e.OwnType B = (if bIsParameterOrLocalVariable then ECollisionType.ParameterName
      else ECollisionType.SuperMemberName).toNat
  ∧ ∀ slot, slot ≤ 4 → e.CollisionCount B slot = 0

instance (B : BitLayout) (e : NameInfo) (p : Bool) : Decidable (e.IsReserved B p) := by
  unfold NameInfo.IsReserved; infer_instance

/-- A function `Run` (index 6) with the single parameter `int`. -/
def exRun : UEFunction :=
  { Index := 6, ValidName := "Run", CompIdx := 9, Number := 0,
    Properties := [{ ValidName := "int", Address := 600 }] }

/-- A type `Runner` (index 7) with the data member `int` and the function `Run`. -/
def exRunner : UEStruct :=
  .root { Index := 7, ValidName := "Runner",
          Properties := [{ ValidName := "int", Address := 700 }], Functions := [exRun] }

/-- The manager in which `int` is reserved as a word of parameter context. -/
def exReservedParam : CollisionManager := CollisionManager.empty.AddReservedName B0 "int" true

/-- The manager in which `int` is reserved as a word that is not of parameter context. -/
def exReservedPlain : CollisionManager := CollisionManager.empty.AddReservedName B0 "int" false

/-! ### Tables built by registrations -/

/-- The record `r` was made from the matched record `e` by a direct (not super) match. -/
def NameInfo.StepFrom (B : BitLayout) (r e : NameInfo) : Prop :=
  ∃ k : ECollisionType, r = (NameInfo.new B r.Name k).InitCollisionData B e k false

/-- A table, most recent record first, in which every record that has an older record of
its name was made from the most recent of them by a direct match. -/
def ChainRev (B : BitLayout) : List NameInfo → Prop
  | [] => True
  | r :: older =>
    (∀ e, older.find? (fun E => decide (E.Name = r.Name)) = some e → r.StepFrom B e)
      ∧ ChainRev B older

/-- A table in which every record that follows a record of its name was made from the most
recent of them by a direct match. -/
def Chain (B : BitLayout) (T : NameContainer) : Prop := ChainRev B T.reverse

/-- The own kind of the record is one of the three kinds a symbol can have. -/
def NameInfo.OwnKindOk (B : BitLayout) (r : NameInfo) : Prop :=
  r.OwnType B = ECollisionType.MemberName.toNat ∨ r.OwnType B = ECollisionType.FunctionName.toNat
    ∨ r.OwnType B = ECollisionType.ParameterName.toNat

/-- The counter of the record's own kind is below the capacity. -/
def NameInfo.BelowCapacity (B : BitLayout) (r : NameInfo) : Prop :=
  r.CollisionCount B (r.OwnType B) < B.maxCount

instance (B : BitLayout) (r : NameInfo) : Decidable (r.BelowCapacity B) := by
  unfold NameInfo.BelowCapacity; infer_instance

/-- The counts of `x` and of a later record `r` of the same name: no count of `r` is smaller,
the two super counts are equal, and the count of the own kind of `x` is larger in `r`. -/
def NameInfo.Precedes (B : BitLayout) (x r : NameInfo) : Prop :=
  (∀ slot, slot ≤ 4 → x.CollisionCount B slot ≤ r.CollisionCount B slot)
  ∧ x.CollisionCount B ECollisionType.SuperMemberName.toNat
      = r.CollisionCount B ECollisionType.SuperMemberName.toNat
  ∧ x.CollisionCount B ECollisionType.SuperFunctionName.toNat
      = r.CollisionCount B ECollisionType.SuperFunctionName.toNat
  ∧ x.CollisionCount B (x.OwnType B) < r.CollisionCount B (x.OwnType B)

/-- The invariant of the tables of a manager: every table is chained, every name in a table
is interned, and every record has one of the three own kinds of a symbol. -/
def CollisionManager.Inv (B : BitLayout) (s : CollisionManager) : Prop :=
  (∀ k, Chain B (s.NameInfos.at k))
  ∧ (∀ k, ∀ r ∈ s.NameInfos.at k, r.Name < s.MemberNames.length)
  ∧ (∀ k, ∀ r ∈ s.NameInfos.at k, r.OwnKindOk B)

/-- The managers reachable from the empty manager by `AddReservedName` and by completed
calls of the per-type driver. -/
inductive Reachable (B : BitLayout) : CollisionManager → Prop
  | empty : Reachable B CollisionManager.empty
  | reserve (s : CollisionManager) (Name : String) (bIsParameterOrLocalVariable : Bool) :
      Reachable B s → Reachable B (s.AddReservedName B Name bIsParameterOrLocalVariable)
  | build (s s' : CollisionManager) (Struct : UEStruct) (bShouldCheckReservedNames : Bool) :
      Reachable B s → s.AddStructToNameContainer B Struct bShouldCheckReservedNames = some s' →
      Reachable B s'

/-- A type `Clash` (index 8) with the data members `A`, `A` and `A_0`. -/
def exClash : UEStruct :=
  .root { Index := 8, ValidName := "Clash",
          Properties := [{ ValidName := "A", Address := 801 }, { ValidName := "A", Address := 802 },
                         { ValidName := "A_0", Address := 803 }],
          Functions := [] }

/-- The manager after the driver has built `Clash`. -/
def exAfterClash : CollisionManager :=
  (CollisionManager.empty.AddStructToNameContainer B0 exClash true).getD CollisionManager.empty

/-! ### Sequences of registrations -/

/-- The arguments of one call of the lambda `AddToContainerAndTranslationMap`. -/
structure Registration where
  ValidName : String
  Key : Nat
  CollisionType : ECollisionType
  chk : Bool
  Func : Option UEFunction

/-- A sequence of calls of the lambda for one struct, as the loops of the driver make them. -/
def registerAll (B : BitLayout) (Struct : UEStruct) :
    CollisionManager → List Registration → Option CollisionManager
  | self, [] => some self
  | self, op :: rest =>
    match AddToContainerAndTranslationMap B self Struct op.ValidName op.Key op.CollisionType
        op.chk op.Func with
    | none => none
    | some self1 => registerAll B Struct self1 rest

/-- A registration as the driver makes it for the struct: a data member or a function
without function scope, or a parameter of a function whose table is not the table of the
struct. -/
def Registration.ofDriver (Struct : UEStruct) (op : Registration) : Prop :=
  (op.Func = none ∧ (op.CollisionType = ECollisionType.MemberName
      ∨ op.CollisionType = ECollisionType.FunctionName))
  ∨ (op.CollisionType = ECollisionType.ParameterName
      ∧ ∃ F, op.Func = some F ∧ F.Index ≠ Struct.GetIndex)

/-- A type `Pair` (index 10) with the data members `Value` and `Value`. -/
def exPair : UEStruct :=
  .root { Index := 10, ValidName := "Pair",
          Properties := [{ ValidName := "Value", Address := 1001 },
                         { ValidName := "Value", Address := 1002 }],
          Functions := [] }

/-- A type `Triple` (index 11) extending `Pair`, with three data members `Value`. -/
def exTriple : UEStruct :=
  .derived { Index := 11, ValidName := "Triple",
             Properties := [{ ValidName := "Value", Address := 1101 },
                            { ValidName := "Value", Address := 1102 },
                            { ValidName := "Value", Address := 1103 }],
             Functions := [] } exPair

/-- The record is a data member, or a function that has counted a data member of its name. -/
def NameInfo.MemberSeen (B : BitLayout) (e : NameInfo) : Prop :=
  e.OwnType B = ECollisionType.MemberName.toNat
    ∨ (e.OwnType B = ECollisionType.FunctionName.toNat ∧ 1 ≤ e.MemberNameCollisionCount B)

/-- The name `w` is interned with identity `idx`, and the most recent record of that name in
the table of the struct is a data member or a function that has counted one. -/
def MemberRegistered (B : BitLayout) (s : CollisionManager) (Struct : UEStruct) (w : String)
    (idx : Nat) : Prop :=
  w ∈ s.MemberNames ∧ s.MemberNames.indexOf w = idx
    ∧ ∃ e, findExisting (s.NameInfos.at Struct.GetIndex) idx = some e ∧ e.MemberSeen B

/-- The manager after the reserved words of a seed list, each with its flag of parameter
context, were added to the empty manager. -/
def seedReserved (B : BitLayout) (ws : List (String × Bool)) : CollisionManager :=
  ws.foldl (fun s p => s.AddReservedName B p.1 p.2) CollisionManager.empty


/-! ### The five-counter record of the specification -/

/-- The five counts of a record, from slot 0 to slot 4. -/
def NameInfo.counts (B : BitLayout) (i : NameInfo) : List Nat :=
  (List.range 5).map (fun slot => i.CollisionCount B slot)

/-- The collision record as the specification describes it: the name, the own kind and five
plain counts. -/
structure CollisionRecord where
  name : Nat
  ownKind : Nat
  counts : List Nat
deriving DecidableEq, Repr

/-- The five-counter record that a packed record stands for. -/
def NameInfo.toRecord (B : BitLayout) (i : NameInfo) : CollisionRecord :=
  { name := i.Name, ownKind := i.OwnType B, counts := i.counts B }

/-- The record update on a match as the specification words it: copy the counts of the
matched record, set the own kind, and increment the count of the slot
`matched.ownKind + (1 if the match came from an ancestor search else 0)`. -/
def CollisionRecord.matchUpdateSpec (name : Nat) (kind : ECollisionType)
    (matched : CollisionRecord) (ancestorHit : Bool) : CollisionRecord :=
  let slot := matched.ownKind + (if ancestorHit then 1 else 0)
  { name := name, ownKind := kind.toNat,
    counts := matched.counts.set slot (matched.counts.getD slot 0 + 1) }

/-! ### A duplicated key -/

/-- A type `Twin` (index 12) whose data members `X` and `Y` have the same address, hence the
same key, followed by a second data member `Y`. -/
def exTwin : UEStruct :=
  .root { Index := 12, ValidName := "Twin",
          Properties := [{ ValidName := "X", Address := 1200 }, { ValidName := "Y", Address := 1200 },
                         { ValidName := "Y", Address := 1201 }],
          Functions := [] }

/-- The manager after the data member `X` of `Twin` was registered and its key published. -/
def exAfterFirst : CollisionManager :=
  (AddToContainerAndTranslationMap B0 CollisionManager.empty exTwin "X" 1200
    ECollisionType.MemberName true none).getD CollisionManager.empty

/-! ### The priority order of the specification -/

/-- The most recently appended record named `n` of a table, as the specification words it:
the last of the records of the table that carry the name. -/
def mostRecentSpec (T : NameContainer) (n : Nat) : Option NameInfo :=
  (T.filter (fun r => decide (r.Name = n))).getLast?

/-- The tables in the priority order of the specification, each with the flag that marks a
match in it as a super hit: for a parameter the table of the owning function and, if reserved
names are checked, the reserved words; the table of the scope's own type; the table of each
ancestor from nearest to furthest (super); if reserved names are checked, the reserved words. -/
def searchOrderSpec (self : CollisionManager) (StructNames : Nat) (Struct : UEStruct)
    (kind : ECollisionType) (checkReserved : Bool) (Func : Option UEFunction) :
    List (NameContainer × Bool) :=
  (match Func with
    | some F =>
      if kind = ECollisionType.ParameterName then
        (self.NameInfos.at F.Index, false)
          :: (if checkReserved then [(self.ReservedNames, false)] else [])
      else []
    | none => [])
  ++ [(self.NameInfos.at StructNames, false)]
  ++ Struct.ancestors.map (fun A => (self.NameInfos.at A.GetIndex, true))
  ++ (if checkReserved then [(self.ReservedNames, false)] else [])

/-- The match of the specification: the most recent record named `n` of the first table of the
list that contains the name, with the flag of that table. -/
def firstMatchSpec (tables : List (NameContainer × Bool)) (n : Nat) : Option (NameInfo × Bool) :=
  tables.findSome? (fun p => (mostRecentSpec p.1 n).map (fun e => (e, p.2)))

/-- The table the new record is appended to, as the specification words it: the table of the
function for a parameter, the table of the scope's own type otherwise. -/
def targetSpec (StructNames : Nat) (kind : ECollisionType) (Func : Option UEFunction) :
    Option Nat :=
  if kind = ECollisionType.ParameterName then Func.map (fun F => F.Index) else some StructNames

/-! ### The driver as a sequence of registrations -/

/-- The registration the driver makes for a data member of the struct (line 213). -/
def Registration.ofMember (Struct : UEStruct) (chk : Bool) (Property : UEProperty) : Registration :=
  { ValidName := Property.ValidName,
    Key := KeyFunctions.GetKeyForCollisionInfoProperty Struct Property,
    CollisionType := ECollisionType.MemberName, chk := chk, Func := none }

/-- The registration the driver makes for a function of the struct (line 217). -/
def Registration.ofFunction (Struct : UEStruct) (chk : Bool) (Func : UEFunction) : Registration :=
  { ValidName := Func.ValidName,
    Key := KeyFunctions.GetKeyForCollisionInfoFunction Struct Func,
    CollisionType := ECollisionType.FunctionName, chk := chk, Func := none }

/-- The registration the driver makes for a parameter of a function (line 220). -/
def Registration.ofParameter (Struct : UEStruct) (chk : Bool) (Func : UEFunction)
    (Property : UEProperty) : Registration :=
  { ValidName := Property.ValidName,
    Key := KeyFunctions.GetKeyForCollisionInfoProperty Struct Property,
    CollisionType := ECollisionType.ParameterName, chk := chk, Func := some Func }

/-- The registrations of the loop over the functions (lines 215-221): each function, followed
by its parameters. -/
def funcRegistrations (Struct : UEStruct) (chk : Bool) : List UEFunction → List Registration
  | [] => []
  | Func :: rest =>
    Registration.ofFunction Struct chk Func
      :: (Func.Properties.map (Registration.ofParameter Struct chk Func)
          ++ funcRegistrations Struct chk rest)

/-- The registrations the driver makes for a struct, in order (lines 212-221): the data
members, then each function followed by its parameters. -/
def registrationsOf (Struct : UEStruct) (chk : Bool) : List Registration :=
  Struct.GetProperties.map (Registration.ofMember Struct chk)
    ++ funcRegistrations Struct chk Struct.GetFunctions

/-- The managers in which the registrations of a sequence are made: the manager before each
call of the lambda. -/
def registerStates (B : BitLayout) (Struct : UEStruct) :
    CollisionManager → List Registration → List CollisionManager
  | _, [] => []
  | self, op :: rest =>
    self :: (match AddToContainerAndTranslationMap B self Struct op.ValidName op.Key
        op.CollisionType op.chk op.Func with
      | none => []
      | some self1 => registerStates B Struct self1 rest)

/-- The moments of lines 197-221 at which a symbol of the struct is registered: the struct,
with the manager before the registration.  There is none when the table already has records. -/
def AddStructToNameContainer.buildMoments (B : BitLayout) (self : CollisionManager)
    (Struct : UEStruct) (bShouldCheckReservedNames : Bool) : List (UEStruct × CollisionManager) :=
  let self1 : CollisionManager := { self with NameInfos := self.NameInfos.touch Struct.GetIndex }
  if (self1.NameInfos.at Struct.GetIndex).isEmpty then
    (registerStates B Struct self1 (registrationsOf Struct bShouldCheckReservedNames)).map
      (fun s => (Struct, s))
  else []

/-- The moments of a call of the per-type driver at which a symbol is registered, in order,
along the recursion of `AddStructToNameContainer`: the struct whose symbol is registered, with
the manager before the registration. -/
def CollisionManager.registrationMoments (B : BitLayout) (self : CollisionManager) :
    UEStruct → Bool → List (UEStruct × CollisionManager)
  | .root d, bShouldCheckReservedNames =>
    AddStructToNameContainer.buildMoments B self (.root d) bShouldCheckReservedNames
  | .derived d Super, bShouldCheckReservedNames =>
    if (self.NameInfos Super.GetIndex).isNone then
      CollisionManager.registrationMoments B self Super bShouldCheckReservedNames
        ++ (match CollisionManager.AddStructToNameContainer B self Super
            bShouldCheckReservedNames with
          | none => []
          | some self1 =>
            AddStructToNameContainer.buildMoments B self1 (.derived d Super)
              bShouldCheckReservedNames)
    else AddStructToNameContainer.buildMoments B self (.derived d Super) bShouldCheckReservedNames

/-! ### Scope identities -/

/-- The keys of `m'` are the keys of `m` and, possibly, keys that satisfy `allowed`. -/
def NameInfoMap.KeysWithin (m m' : NameInfoMap) (allowed : Nat → Prop) : Prop :=
  ∀ k, ((m k).isSome → (m' k).isSome) ∧ ((m' k).isSome → (m k).isSome ∨ allowed k)

/-- The structs of `U` come with their ancestors. -/
def ScopesClosed (U : List UEStruct) : Prop :=
  ∀ X ∈ U, ∀ A ∈ X.ancestors, A ∈ U

/-- The scope identity of a struct of `U` identifies it: two structs of `U` with the same
index are the same struct. -/
def IndexIdentifies (U : List UEStruct) : Prop :=
  ∀ X ∈ U, ∀ Y ∈ U, X.GetIndex = Y.GetIndex → X = Y

/-- The scope identities of the functions of the structs of `U` are not scope identities of
structs of `U`. -/
def FunctionScopesApart (U : List UEStruct) : Prop :=
  ∀ X ∈ U, ∀ F ∈ X.GetFunctions, ∀ Y ∈ U, F.Index ≠ Y.GetIndex

instance (U : List UEStruct) : Decidable (ScopesClosed U) := by
  unfold ScopesClosed; infer_instance

instance (U : List UEStruct) : Decidable (IndexIdentifies U) := by
  unfold IndexIdentifies; infer_instance

instance (U : List UEStruct) : Decidable (FunctionScopesApart U) := by
  unfold FunctionScopesApart; infer_instance

/-- The names of the symbols of a struct that go to its own table: the data members, then
the functions. -/
def UEStruct.symbolNames (X : UEStruct) : List String :=
  X.GetProperties.map (fun P => P.ValidName) ++ X.GetFunctions.map (fun F => F.ValidName)

/-- The raw texts of the records of the table at a key, in the order of the table. -/
def CollisionManager.tableTexts (s : CollisionManager) (k : Nat) : List String :=
  (s.NameInfos.at k).map (fun r => HashStringTable.GetStringEntry s.MemberNames r.Name)

/-- The struct has an entry in the scope store that contains all its data members and
functions: the raw texts of the records of the entry are the names of the data members and of
the functions of the struct, in order. -/
def CollisionManager.Complete (s : CollisionManager) (X : UEStruct) : Prop :=
  (s.NameInfos X.GetIndex).isSome ∧ s.tableTexts X.GetIndex = X.symbolNames

instance (s : CollisionManager) (X : UEStruct) : Decidable (s.Complete X) := by
  unfold CollisionManager.Complete; infer_instance

/-- The managers reachable from the empty manager by `AddReservedName` and by completed calls
of the per-type driver for structs of `U`. -/
inductive ReachableIn (B : BitLayout) (U : List UEStruct) : CollisionManager → Prop
  | empty : ReachableIn B U CollisionManager.empty
  | reserve (s : CollisionManager) (Name : String) (bIsParameterOrLocalVariable : Bool) :
      ReachableIn B U s → ReachableIn B U (s.AddReservedName B Name bIsParameterOrLocalVariable)
  | build (s s' : CollisionManager) (Struct : UEStruct) (bShouldCheckReservedNames : Bool) :
      ReachableIn B U s → Struct ∈ U →
      s.AddStructToNameContainer B Struct bShouldCheckReservedNames = some s' →
      ReachableIn B U s'

/-- The managers at any moment of a run: reachable from the empty manager by
`AddReservedName`, by the creation of the entry of a struct of `U` (line 197) and by single
calls of the lambda `AddToContainerAndTranslationMap` as the loops of the driver make them for
a struct of `U`. -/
inductive Registering (B : BitLayout) (U : List UEStruct) : CollisionManager → Prop
  | empty : Registering B U CollisionManager.empty
  | reserve (s : CollisionManager) (Name : String) (bIsParameterOrLocalVariable : Bool) :
      Registering B U s → Registering B U (s.AddReservedName B Name bIsParameterOrLocalVariable)
  | enter (s : CollisionManager) (Struct : UEStruct) :
      Registering B U s → Struct ∈ U →
      Registering B U { s with NameInfos := s.NameInfos.touch Struct.GetIndex }
  | register (s s' : CollisionManager) (Struct : UEStruct) (chk : Bool) (op : Registration) :
      Registering B U s → Struct ∈ U → op ∈ registrationsOf Struct chk →
      AddToContainerAndTranslationMap B s Struct op.ValidName op.Key op.CollisionType op.chk
        op.Func = some s' →
      Registering B U s'

/-- Every reserved word is interned. -/
def CollisionManager.ReservedInterned (s : CollisionManager) : Prop :=
  ∀ r ∈ s.ReservedNames, r.Name < s.MemberNames.length

/-- The own kinds by scope: every record of the table of a struct of `U` is a data member or a
function, every record of the table of a function of a struct of `U` is a parameter, and every
reserved word has the kind `AddReservedName` gives. -/
def CollisionManager.KindsByScope (B : BitLayout) (U : List UEStruct) (s : CollisionManager) : Prop :=
  (∀ X ∈ U, ∀ r ∈ s.NameInfos.at X.GetIndex,
      r.OwnType B = ECollisionType.MemberName.toNat ∨ r.OwnType B = ECollisionType.FunctionName.toNat)
  ∧ (∀ X ∈ U, ∀ F ∈ X.GetFunctions, ∀ r ∈ s.NameInfos.at F.Index,
      r.OwnType B = ECollisionType.ParameterName.toNat)
  ∧ (∀ r ∈ s.ReservedNames,
      r.OwnType B = ECollisionType.SuperMemberName.toNat
        ∨ r.OwnType B = ECollisionType.ParameterName.toNat)

/-- The manager after `int` was reserved as a word of parameter context and the driver has
built `Runner`. -/
def exAfterRunner : CollisionManager :=
  (exReservedParam.AddStructToNameContainer B0 exRunner true).getD CollisionManager.empty

/-- The entries of the structs of `U` in the scope store are entries of built structs: a
struct of `U` that has an entry is complete, and its ancestors have entries. -/
def CollisionManager.Built (U : List UEStruct) (s : CollisionManager) : Prop :=
  ∀ X ∈ U, (s.NameInfos X.GetIndex).isSome = true →
    s.Complete X ∧ ∀ A ∈ X.ancestors, (s.NameInfos A.GetIndex).isSome = true

/-- The names of the registrations of a sequence that go to the table of the struct: those of
the data members and of the functions. -/
def ownTableNames (ops : List Registration) : List String :=
  (ops.filter (fun op => decide (op.CollisionType ≠ ECollisionType.ParameterName))).map
    (fun op => op.ValidName)


/-! ## Arithmetic of bit-fields -/

theorem fld_mod (x p w W : Nat) (h : p + w ≤ W) :
    x % 2 ^ W / 2 ^ p % 2 ^ w = x / 2 ^ p % 2 ^ w := by
  have hW : 2 ^ W = 2 ^ p * 2 ^ (W - p) := by
    rw [← pow_add]; congr 1; omega
  rw [hW, Nat.mod_mul_right_div_self]
  exact Nat.mod_mod_of_dvd _ (pow_dvd_pow 2 (by omega))

theorem fld_add_high (x y p w k : Nat) (h : p + w ≤ k) :
    (x + y * 2 ^ k) / 2 ^ p % 2 ^ w = x / 2 ^ p % 2 ^ w := by
  have hk : y * 2 ^ k = (y * 2 ^ (k - p - w) * 2 ^ w) * 2 ^ p := by
    have : 2 ^ k = 2 ^ (k - p - w) * 2 ^ w * 2 ^ p := by
      rw [← pow_add, ← pow_add]; congr 1; omega
    rw [this]; ring
  rw [hk, Nat.add_mul_div_right _ _ (Nat.two_pow_pos _), Nat.add_mul_mod_self_right]

theorem low_add_high (x y p k : Nat) (h : p ≤ k) :
    (x + y * 2 ^ k) % 2 ^ p = x % 2 ^ p := by
  have hk : y * 2 ^ k = (y * 2 ^ (k - p)) * 2 ^ p := by
    have : 2 ^ k = 2 ^ (k - p) * 2 ^ p := by
      rw [← pow_add]; congr 1; omega
    rw [this]; ring
  rw [hk, Nat.add_mul_mod_self_right]

theorem fld_add_same (x k w : Nat) :
    (x + 2 ^ k) / 2 ^ k % 2 ^ w = (x / 2 ^ k % 2 ^ w + 1) % 2 ^ w := by
  rw [Nat.add_div_right _ (Nat.two_pow_pos _)]
  simp [Nat.add_mod]

theorem div_add_low (x k w p : Nat) (h : k + w ≤ p) (hc : x / 2 ^ k % 2 ^ w + 1 < 2 ^ w) :
    (x + 2 ^ k) / 2 ^ p = x / 2 ^ p := by
  obtain ⟨j, rfl⟩ : ∃ j, p = k + j := ⟨p - k, by omega⟩
  rw [pow_add, ← Nat.div_div_eq_div_mul, ← Nat.div_div_eq_div_mul,
    Nat.add_div_right _ (Nat.two_pow_pos _)]
  generalize x / 2 ^ k = c at hc ⊢
  rw [Nat.succ_div]
  have hnd : ¬ 2 ^ j ∣ c + 1 := by
    intro hd
    have hw : 2 ^ w ∣ c + 1 := Nat.dvd_trans (pow_dvd_pow 2 (by omega)) hd
    have h0 : (c + 1) % 2 ^ w = 0 := Nat.mod_eq_zero_of_dvd hw
    have h1 : (c + 1) % 2 ^ w = c % 2 ^ w + 1 := by
      conv_lhs => rw [← Nat.div_add_mod c (2 ^ w)]
      rw [Nat.add_assoc, Nat.mul_add_mod]
      exact Nat.mod_eq_of_lt hc
    omega
  simp [hnd]

theorem div_setLow (d r t p : Nat) (h : t ≤ p) (hr : r < 2 ^ t) :
    (d / 2 ^ t * 2 ^ t + r) / 2 ^ p = d / 2 ^ p := by
  obtain ⟨j, rfl⟩ : ∃ j, p = t + j := ⟨p - t, by omega⟩
  rw [pow_add, ← Nat.div_div_eq_div_mul, ← Nat.div_div_eq_div_mul]
  congr 1
  rw [Nat.add_comm, Nat.add_mul_div_right _ _ (Nat.two_pow_pos _), Nat.div_eq_of_lt hr]
  simp

theorem mod_setLow (d r t : Nat) (hr : r < 2 ^ t) :
    (d / 2 ^ t * 2 ^ t + r) % 2 ^ t = r := by
  rw [Nat.add_comm, Nat.add_mul_mod_self_right, Nat.mod_eq_of_lt hr]


/-! ## The fields of a record after the operations of `NameInfo` -/

theorem ECollisionType.toNat_le (k : ECollisionType) : k.toNat ≤ 4 := by
  cases k <;> decide

theorem ECollisionType.toNat_injective {a b : ECollisionType} (h : a.toNat = b.toNat) : a = b := by
  cases a <;> cases b <;> first | rfl | exact absurd h (by decide)

theorem BitLayout.ok.toNat_lt {B : BitLayout} (hB : B.ok) (k : ECollisionType) :
    k.toNat < 2 ^ B.OwnTypeBitCount := by
  have h1 : 2 ^ 3 ≤ 2 ^ B.OwnTypeBitCount := Nat.pow_le_pow_right (by decide) hB.1
  have h2 := k.toNat_le
  omega

theorem BitLayout.ok.two_le {B : BitLayout} (hB : B.ok) : 2 ≤ 2 ^ B.PerCountBitCount := by
  have h1 : 2 ^ 1 ≤ 2 ^ B.PerCountBitCount := Nat.pow_le_pow_right (by decide) hB.2.1
  simpa using h1

theorem NameInfo.CollisionCount_lt (B : BitLayout) (i : NameInfo) (s : Nat) :
    i.CollisionCount B s < 2 ^ B.PerCountBitCount :=
  Nat.mod_lt _ (Nat.two_pow_pos _)

theorem NameInfo.CollisionCount_le_max (B : BitLayout) (i : NameInfo) (s : Nat) :
    i.CollisionCount B s ≤ B.maxCount := by
  have := i.CollisionCount_lt B s
  unfold BitLayout.maxCount
  omega

@[simp] theorem NameInfo.setOwnType_Name (B : BitLayout) (i : NameInfo) (v : Nat) :
    (i.setOwnType B v).Name = i.Name := rfl

theorem NameInfo.setOwnType_OwnType (B : BitLayout) (i : NameInfo) (v : Nat) :
    (i.setOwnType B v).OwnType B = v % 2 ^ B.OwnTypeBitCount := by
  unfold NameInfo.setOwnType NameInfo.OwnType
  exact mod_setLow _ _ _ (Nat.mod_lt _ (Nat.two_pow_pos _))

theorem NameInfo.setOwnType_CollisionCount (B : BitLayout) (i : NameInfo) (v s : Nat) :
    (i.setOwnType B v).CollisionCount B s = i.CollisionCount B s := by
  unfold NameInfo.setOwnType NameInfo.CollisionCount
  simp only
  rw [div_setLow _ _ _ _ (Nat.le_add_right _ _) (Nat.mod_lt _ (Nat.two_pow_pos _))]

@[simp] theorem NameInfo.new_Name (B : BitLayout) (n : Nat) (k : ECollisionType) :
    (NameInfo.new B n k).Name = n := rfl

theorem NameInfo.new_OwnType {B : BitLayout} (hB : B.ok) (n : Nat) (k : ECollisionType) :
    (NameInfo.new B n k).OwnType B = k.toNat := by
  unfold NameInfo.new
  rw [NameInfo.setOwnType_OwnType, Nat.mod_eq_of_lt (hB.toNat_lt k)]

theorem NameInfo.new_CollisionCount (B : BitLayout) (n : Nat) (k : ECollisionType) (s : Nat) :
    (NameInfo.new B n k).CollisionCount B s = 0 := by
  unfold NameInfo.new
  rw [NameInfo.setOwnType_CollisionCount]
  simp [NameInfo.CollisionCount]

theorem NameInfo.new_HasCollisions (B : BitLayout) (n : Nat) (k : ECollisionType) :
    (NameInfo.new B n k).HasCollisions B = false := by
  simp [NameInfo.HasCollisions, NameInfo.MemberNameCollisionCount,
    NameInfo.SuperMemberNameCollisionCount, NameInfo.FunctionNameCollisionCount,
    NameInfo.SuperFuncNameCollisionCount, NameInfo.ParamNameCollisionCount,
    NameInfo.new_CollisionCount]

@[simp] theorem NameInfo.InitCollisionData_Name (B : BitLayout) (self e : NameInfo)
    (k : ECollisionType) (b : Bool) : (self.InitCollisionData B e k b).Name = self.Name := rfl

theorem NameInfo.InitCollisionData_OwnType {B : BitLayout} (hB : B.ok) (self e : NameInfo)
    (k : ECollisionType) (b : Bool) : (self.InitCollisionData B e k b).OwnType B = k.toNat := by
  unfold NameInfo.InitCollisionData NameInfo.OwnType
  simp only
  rw [Nat.mod_mod_of_dvd _ (pow_dvd_pow 2 (by have := hB.2.2; omega))]
  have h := low_add_high
    (NameInfo.setOwnType B { Name := self.Name, CollisionData := e.CollisionData } k.toNat).CollisionData
    1 B.OwnTypeBitCount
    (B.OwnTypeBitCount + (e.CollisionData % 2 ^ B.OwnTypeBitCount + b.toNat) * B.PerCountBitCount)
    (Nat.le_add_right _ _)
  rw [Nat.one_mul] at h
  rw [h]
  have h2 := NameInfo.setOwnType_OwnType B { Name := self.Name, CollisionData := e.CollisionData }
    k.toNat
  unfold NameInfo.OwnType at h2
  rw [h2, Nat.mod_eq_of_lt (hB.toNat_lt k)]

/-- A counter below the incremented slot keeps its value. -/
theorem NameInfo.InitCollisionData_count_below {B : BitLayout} (hB : B.ok) (self e : NameInfo)
    (k : ECollisionType) (b : Bool) (t : Nat) (ht : t ≤ 4) (hlt : t < e.slotFor B b) :
    (self.InitCollisionData B e k b).CollisionCount B t = e.CollisionCount B t := by
  have hset := NameInfo.setOwnType_CollisionCount B
    { Name := self.Name, CollisionData := e.CollisionData } k.toNat t
  unfold NameInfo.slotFor NameInfo.OwnType at hlt
  unfold NameInfo.InitCollisionData NameInfo.CollisionCount NameInfo.OwnType at *
  simp only at hset ⊢
  have hfit : B.OwnTypeBitCount + t * B.PerCountBitCount + B.PerCountBitCount
      ≤ B.CollisionDataBits := by
    have := hB.2.2
    have : (t + 1) * B.PerCountBitCount ≤ 5 * B.PerCountBitCount :=
      Nat.mul_le_mul_right _ (by omega)
    have : (t + 1) * B.PerCountBitCount = t * B.PerCountBitCount + B.PerCountBitCount := by ring
    omega
  rw [fld_mod _ _ _ _ hfit]
  have hle : B.OwnTypeBitCount + t * B.PerCountBitCount + B.PerCountBitCount ≤
      B.OwnTypeBitCount + (e.CollisionData % 2 ^ B.OwnTypeBitCount + b.toNat) * B.PerCountBitCount := by
    have : (t + 1) * B.PerCountBitCount ≤
        (e.CollisionData % 2 ^ B.OwnTypeBitCount + b.toNat) * B.PerCountBitCount :=
      Nat.mul_le_mul_right _ (by omega)
    have : (t + 1) * B.PerCountBitCount = t * B.PerCountBitCount + B.PerCountBitCount := by ring
    omega
  have h := fld_add_high
    (NameInfo.setOwnType B { Name := self.Name, CollisionData := e.CollisionData } k.toNat).CollisionData
    1 _ _ _ hle
  rw [Nat.one_mul] at h
  rw [h, hset]

/-- The incremented counter is the old value plus one, reduced to the width of the field. -/
theorem NameInfo.InitCollisionData_count_slot {B : BitLayout} (hB : B.ok) (self e : NameInfo)
    (k : ECollisionType) (b : Bool) (hs : e.slotFor B b ≤ 4) :
    (self.InitCollisionData B e k b).CollisionCount B (e.slotFor B b) =
      (e.CollisionCount B (e.slotFor B b) + 1) % 2 ^ B.PerCountBitCount := by
  have hset := NameInfo.setOwnType_CollisionCount B
    { Name := self.Name, CollisionData := e.CollisionData } k.toNat (e.slotFor B b)
  unfold NameInfo.slotFor NameInfo.OwnType at *
  unfold NameInfo.InitCollisionData NameInfo.CollisionCount NameInfo.OwnType at *
  simp only at hset ⊢
  generalize e.CollisionData % 2 ^ B.OwnTypeBitCount + b.toNat = s at *
  have hfit : B.OwnTypeBitCount + s * B.PerCountBitCount + B.PerCountBitCount
      ≤ B.CollisionDataBits := by
    have := hB.2.2
    have : (s + 1) * B.PerCountBitCount ≤ 5 * B.PerCountBitCount :=
      Nat.mul_le_mul_right _ (by omega)
    have : (s + 1) * B.PerCountBitCount = s * B.PerCountBitCount + B.PerCountBitCount := by ring
    omega
  rw [fld_mod _ _ _ _ hfit, fld_add_same, hset]

/-- A counter above the incremented slot keeps its value when the increment does not wrap. -/
theorem NameInfo.InitCollisionData_count_above {B : BitLayout} (hB : B.ok) (self e : NameInfo)
    (k : ECollisionType) (b : Bool) (t : Nat) (ht : t ≤ 4) (hlt : e.slotFor B b < t)
    (hc : e.CollisionCount B (e.slotFor B b) < B.maxCount) :
    (self.InitCollisionData B e k b).CollisionCount B t = e.CollisionCount B t := by
  have hset := NameInfo.setOwnType_CollisionCount B
    { Name := self.Name, CollisionData := e.CollisionData } k.toNat
  unfold BitLayout.maxCount at hc
  unfold NameInfo.slotFor NameInfo.OwnType at *
  unfold NameInfo.InitCollisionData NameInfo.CollisionCount NameInfo.OwnType at *
  simp only at hset ⊢
  generalize e.CollisionData % 2 ^ B.OwnTypeBitCount + b.toNat = s at *
  have hfit : B.OwnTypeBitCount + t * B.PerCountBitCount + B.PerCountBitCount
      ≤ B.CollisionDataBits := by
    have := hB.2.2
    have : (t + 1) * B.PerCountBitCount ≤ 5 * B.PerCountBitCount :=
      Nat.mul_le_mul_right _ (by omega)
    have : (t + 1) * B.PerCountBitCount = t * B.PerCountBitCount + B.PerCountBitCount := by ring
    omega
  have hle : B.OwnTypeBitCount + s * B.PerCountBitCount + B.PerCountBitCount ≤
      B.OwnTypeBitCount + t * B.PerCountBitCount := by
    have : (s + 1) * B.PerCountBitCount ≤ t * B.PerCountBitCount :=
      Nat.mul_le_mul_right _ (by omega)
    have : (s + 1) * B.PerCountBitCount = s * B.PerCountBitCount + B.PerCountBitCount := by ring
    omega
  rw [fld_mod _ _ _ _ hfit, div_add_low _ _ B.PerCountBitCount _ hle, hset]
  rw [hset s]
  omega

/-- The five counters after an increment that does not wrap: the slot of the matched record
is one larger, the other counters are copied. -/
theorem NameInfo.InitCollisionData_count {B : BitLayout} (hB : B.ok) (self e : NameInfo)
    (k : ECollisionType) (b : Bool) (t : Nat) (ht : t ≤ 4) (hs : e.slotFor B b ≤ 4)
    (hc : e.CollisionCount B (e.slotFor B b) < B.maxCount) :
    (self.InitCollisionData B e k b).CollisionCount B t =
      if t = e.slotFor B b then e.CollisionCount B t + 1 else e.CollisionCount B t := by
  rcases Nat.lt_trichotomy t (e.slotFor B b) with h | h | h
  · rw [if_neg (by omega)]
    exact NameInfo.InitCollisionData_count_below hB self e k b t ht h
  · subst h
    rw [if_pos rfl, NameInfo.InitCollisionData_count_slot hB self e k b hs]
    apply Nat.mod_eq_of_lt
    unfold BitLayout.maxCount at hc
    omega
  · rw [if_neg (by omega)]
    exact NameInfo.InitCollisionData_count_above hB self e k b t ht h hc

/-! ## The scope store -/

theorem NameInfoMap.at_set (m : NameInfoMap) (k : Nat) (c : NameContainer) (k' : Nat) :
    (m.set k c).at k' = if k' = k then c else m.at k' := by
  unfold NameInfoMap.set NameInfoMap.at
  by_cases h : k' = k <;> simp [h]

@[simp] theorem NameInfoMap.at_touch (m : NameInfoMap) (k k' : Nat) :
    (m.touch k).at k' = m.at k' := by
  unfold NameInfoMap.touch
  rw [NameInfoMap.at_set]
  by_cases h : k' = k <;> simp [h]

theorem NameInfoMap.at_push_back (m : NameInfoMap) (k : Nat) (r : NameInfo) (k' : Nat) :
    (m.push_back k r).at k' = if k' = k then m.at k ++ [r] else m.at k' := by
  unfold NameInfoMap.push_back
  rw [NameInfoMap.at_set]

theorem NameInfoMap.pushedAt_push_back (m : NameInfoMap) (k : Nat) (r : NameInfo) :
    m.PushedAt (m.push_back k r) k r := fun k' => m.at_push_back k r k'

theorem NameInfoMap.PushedAt.of_same {m0 m m' : NameInfoMap} {tgt : Nat} {r : NameInfo}
    (h0 : ∀ k, m.at k = m0.at k) (h : m.PushedAt m' tgt r) : m0.PushedAt m' tgt r := by
  intro k
  rw [h k, h0, h0]

theorem NameInfoMap.PushedAt.at_tgt {m m' : NameInfoMap} {tgt : Nat} {r : NameInfo}
    (h : m.PushedAt m' tgt r) : m'.at tgt = m.at tgt ++ [r] := by
  rw [h tgt, if_pos rfl]

theorem NameInfoMap.PushedAt.at_ne {m m' : NameInfoMap} {tgt : Nat} {r : NameInfo}
    (h : m.PushedAt m' tgt r) {k : Nat} (hk : k ≠ tgt) : m'.at k = m.at k := by
  rw [h k, if_neg hk]

theorem NameInfoMap.PushedAt.lastIndex {m m' : NameInfoMap} {tgt : Nat} {r : NameInfo}
    (h : m.PushedAt m' tgt r) : lastIndex m' tgt = (m.at tgt).length := by
  unfold Dumper.lastIndex
  rw [h.at_tgt]
  simp

@[simp] theorem findExisting_nil (n : Nat) : findExisting [] n = none := rfl

theorem findExisting_append_singleton (T : NameContainer) (r : NameInfo) (n : Nat) :
    findExisting (T ++ [r]) n = if r.Name = n then some r else findExisting T n := by
  unfold findExisting
  rw [List.reverse_append, List.reverse_singleton, List.singleton_append, List.find?_cons]
  by_cases h : r.Name = n <;> simp [h]

theorem findExisting_name {T : NameContainer} {n : Nat} {e : NameInfo}
    (h : findExisting T n = some e) : e.Name = n := by
  unfold findExisting at h
  have := List.find?_some h
  simpa using this

theorem findExisting_mem {T : NameContainer} {n : Nat} {e : NameInfo}
    (h : findExisting T n = some e) : e ∈ T := by
  unfold findExisting at h
  have := List.mem_of_find?_eq_some h
  simpa using this

theorem findExisting_eq_none {T : NameContainer} {n : Nat} :
    findExisting T n = none ↔ ∀ r ∈ T, r.Name ≠ n := by
  unfold findExisting
  rw [List.find?_eq_none]
  simp

theorem findExisting_isSome_of_mem {T : NameContainer} {n : Nat} {r : NameInfo}
    (hr : r ∈ T) (hn : r.Name = n) : ∃ e, findExisting T n = some e := by
  cases h : findExisting T n with
  | none => exact absurd hn (findExisting_eq_none.1 h r hr)
  | some e => exact ⟨e, rfl⟩

theorem superSearch_congr {m m' : NameInfoMap} (h : ∀ k, m'.at k = m.at k) (n : Nat)
    (S : UEStruct) : superSearch m' n S = superSearch m n S := by
  induction S with
  | root d => simp [superSearch, h]
  | derived d Super ih => simp [superSearch, h, ih]

/-! ## The registration, characterised by the priority search -/

theorem AddCollidingName_some (B : BitLayout) (m : NameInfoMap) (S : NameContainer)
    (tgt n : Nat) (k : ECollisionType) (b : Bool) :
    AddCollidingName B m S (some tgt) n k b =
      match findExisting S n with
      | some e => some (m.push_back tgt ((NameInfo.new B n k).InitCollisionData B e k b), true)
      | none => some (m, false) := rfl

/-- The loop over the ancestors finds what `superSearch` finds. -/
theorem superLoop_spec (B : BitLayout) (tgt n : Nat) (k : ECollisionType) (Current : UEStruct) :
    ∀ m : NameInfoMap,
      match superSearch m n Current with
      | some e => ∃ m', AddNameToContainer.superLoop B (some tgt) n k m Current = some (m', true)
          ∧ m.PushedAt m' tgt ((NameInfo.new B n k).InitCollisionData B e k true)
      | none => ∃ m', AddNameToContainer.superLoop B (some tgt) n k m Current = some (m', false)
          ∧ ∀ k', m'.at k' = m.at k' := by
  induction Current with
  | root d =>
    intro m
    simp only [superSearch, AddNameToContainer.superLoop, AddCollidingName_some,
      NameInfoMap.at_touch]
    cases h : findExisting (m.at d.Index) n with
    | none => exact ⟨_, rfl, fun k' => NameInfoMap.at_touch m d.Index k'⟩
    | some e =>
      exact ⟨_, rfl, NameInfoMap.PushedAt.of_same (fun k' => NameInfoMap.at_touch m d.Index k')
        (NameInfoMap.pushedAt_push_back _ _ _)⟩
  | derived d Super ih =>
    intro m
    simp only [superSearch, AddNameToContainer.superLoop, AddCollidingName_some,
      NameInfoMap.at_touch]
    cases h : findExisting (m.at d.Index) n with
    | some e =>
      exact ⟨_, rfl, NameInfoMap.PushedAt.of_same (fun k' => NameInfoMap.at_touch m d.Index k')
        (NameInfoMap.pushedAt_push_back _ _ _)⟩
    | none =>
      simp only
      have ih' := ih (m.touch d.Index)
      rw [superSearch_congr (fun k' => NameInfoMap.at_touch m d.Index k')] at ih'
      cases h2 : superSearch m n Super with
      | none =>
        rw [h2] at ih'
        obtain ⟨m', h3, h4⟩ := ih'
        exact ⟨m', h3, fun k' => by rw [h4, NameInfoMap.at_touch]⟩
      | some e =>
        rw [h2] at ih'
        obtain ⟨m', h3, h4⟩ := ih'
        exact ⟨m', h3, NameInfoMap.PushedAt.of_same
          (fun k' => NameInfoMap.at_touch m d.Index k') h4⟩

theorem scopeSearch_congr {m m' : NameInfoMap} (h : ∀ k, m'.at k = m.at k)
    (R : NameContainer) (SN : Nat) (S : UEStruct) (n : Nat) (chk : Bool) :
    scopeSearch m' R SN S n chk = scopeSearch m R SN S n chk := by
  unfold scopeSearch
  rw [h]
  cases S with
  | root d => rfl
  | derived d Super => simp only [UEStruct.GetSuper, superSearch_congr h]

/-- Lines 144-176 append the record of the outcome of `scopeSearch` to the target. -/
theorem searchScopes_spec (B : BitLayout) (R : NameContainer) (m : NameInfoMap) (SN : Nat)
    (S : UEStruct) (n : Nat) (k : ECollisionType) (chk : Bool) (FuncParamNames : Option Nat)
    (tgt : Nat)
    (htgt : (if decide (k = ECollisionType.ParameterName) then FuncParamNames else some SN)
      = some tgt) :
    ∃ m', AddNameToContainer.searchScopes B R m SN S n k chk FuncParamNames
        = some (m', (m.at tgt).length)
      ∧ m.PushedAt m' tgt (recordFor B n k (scopeSearch m R SN S n chk)) := by
  unfold AddNameToContainer.searchScopes scopeSearch
  simp only [htgt, AddCollidingName_some]
  cases h1 : findExisting (m.at SN) n with
  | some e =>
    refine ⟨_, ?_, NameInfoMap.pushedAt_push_back m tgt _⟩
    simp [(NameInfoMap.pushedAt_push_back m tgt _).lastIndex, recordFor]
  | none =>
    simp only
    have hsup : ∀ (o : Option NameInfo),
        (match S.GetSuper with
          | none => none
          | some Super => superSearch m n Super) = o →
        match o with
        | some e => ∃ m', (match S.GetSuper with
              | none => some (m, false)
              | some Current => AddNameToContainer.superLoop B (some tgt) n k m Current)
              = some (m', true)
            ∧ m.PushedAt m' tgt ((NameInfo.new B n k).InitCollisionData B e k true)
        | none => ∃ m', (match S.GetSuper with
              | none => some (m, false)
              | some Current => AddNameToContainer.superLoop B (some tgt) n k m Current)
              = some (m', false)
            ∧ ∀ k', m'.at k' = m.at k' := by
      intro o ho
      cases hS : S.GetSuper with
      | none =>
        rw [hS] at ho
        subst ho
        exact ⟨m, rfl, fun _ => rfl⟩
      | some Super =>
        rw [hS] at ho
        subst ho
        exact superLoop_spec B tgt n k Super m
    cases h2 : (match S.GetSuper with
        | none => none
        | some Super => superSearch m n Super) with
    | some e =>
      obtain ⟨m', hm', hp⟩ := hsup _ h2
      refine ⟨m', ?_, hp⟩
      rw [hm']
      simp [hp.lastIndex]
    | none =>
      obtain ⟨m', hm', hsame⟩ := hsup _ h2
      rw [hm']
      simp only
      cases chk with
      | false =>
        simp only [reservedSearch, Bool.false_eq_true, if_false]
        by_cases hk : k = ECollisionType.ParameterName
        · simp only [hk, decide_True, if_true] at htgt
          subst htgt
          simp only [hk, decide_True]
          refine ⟨_, ?_, NameInfoMap.PushedAt.of_same hsame (NameInfoMap.pushedAt_push_back m' tgt _)⟩
          simp [(NameInfoMap.pushedAt_push_back m' tgt _).lastIndex, hsame, recordFor]
        · simp only [hk, decide_False, Bool.false_eq_true, if_false, Option.some.injEq] at htgt
          subst htgt
          simp only [hk, decide_False]
          refine ⟨_, ?_, NameInfoMap.PushedAt.of_same hsame (NameInfoMap.pushedAt_push_back m' SN _)⟩
          simp [(NameInfoMap.pushedAt_push_back m' SN _).lastIndex, hsame, recordFor]
      | true =>
        simp only [reservedSearch, if_true, AddCollidingName_some]
        cases h3 : findExisting R n with
        | some e =>
          refine ⟨_, ?_, NameInfoMap.PushedAt.of_same hsame (NameInfoMap.pushedAt_push_back m' tgt _)⟩
          simp [(NameInfoMap.pushedAt_push_back m' tgt _).lastIndex, hsame, recordFor]
        | none =>
          by_cases hk : k = ECollisionType.ParameterName
          · simp only [hk, decide_True, if_true] at htgt
            subst htgt
            simp only [hk, decide_True]
            refine ⟨_, ?_, NameInfoMap.PushedAt.of_same hsame
              (NameInfoMap.pushedAt_push_back m' tgt _)⟩
            simp [(NameInfoMap.pushedAt_push_back m' tgt _).lastIndex, hsame, recordFor]
          · simp only [hk, decide_False, Bool.false_eq_true, if_false, Option.some.injEq] at htgt
            subst htgt
            simp only [hk, decide_False]
            refine ⟨_, ?_, NameInfoMap.PushedAt.of_same hsame
              (NameInfoMap.pushedAt_push_back m' SN _)⟩
            simp [(NameInfoMap.pushedAt_push_back m' SN _).lastIndex, hsame, recordFor]

/-- For an already interned name, `AddNameToContainer` appends the record of the outcome of
the priority search to the table the search names, and returns the position of the record;
it fails exactly when the search fails. -/
theorem AddNameToContainer_spec (B : BitLayout) (self : CollisionManager) (SN : Nat)
    (S : UEStruct) (n : Nat) (k : ECollisionType) (chk : Bool) (Func : Option UEFunction) :
    match prioritySearch self SN S n k chk Func with
    | none => self.AddNameToContainer B SN S (n, false) k chk Func = none
    | some (tgt, mt) =>
      ∃ self', self.AddNameToContainer B SN S (n, false) k chk Func
          = some (self', (self.NameInfos.at tgt).length)
        ∧ self.Appended self' tgt (recordFor B n k mt) := by
  unfold CollisionManager.AddNameToContainer prioritySearch
  simp only [Bool.false_and, Bool.false_eq_true, if_false]
  cases Func with
  | none =>
    simp only
    by_cases hk : k = ECollisionType.ParameterName
    · simp [hk, AddNameToContainer.searchScopes, AddCollidingName]
    · simp only [hk, if_false]
      obtain ⟨m', h1, h2⟩ := searchScopes_spec B self.ReservedNames self.NameInfos SN S n k chk
        none SN (by simp [hk])
      exact ⟨{ self with NameInfos := m' }, by rw [h1]; rfl, h2, rfl, rfl, rfl⟩
  | some F =>
    simp only [AddNameToContainer.searchFunc, Bool.false_and, Bool.false_eq_true, if_false,
      AddCollidingName_some, NameInfoMap.at_touch]
    have ht : ∀ k', (self.NameInfos.touch F.Index).at k' = self.NameInfos.at k' :=
      fun k' => NameInfoMap.at_touch _ _ _
    cases h1 : findExisting (self.NameInfos.at F.Index) n with
    | some e =>
      have hp := NameInfoMap.PushedAt.of_same ht (NameInfoMap.pushedAt_push_back
        (self.NameInfos.touch F.Index) F.Index
        ((NameInfo.new B n k).InitCollisionData B e k false))
      exact ⟨⟨(self.NameInfos.touch F.Index).push_back F.Index
        ((NameInfo.new B n k).InitCollisionData B e k false), self.TranslationMap,
        self.MemberNames, self.ReservedNames⟩, by simp [hp.lastIndex], hp, rfl, rfl, rfl⟩
    | none =>
      simp only
      cases chk with
      | true =>
        simp only [reservedSearch, if_true, AddCollidingName_some]
        cases h2 : findExisting self.ReservedNames n with
        | some e =>
          have hp := NameInfoMap.PushedAt.of_same ht (NameInfoMap.pushedAt_push_back
            (self.NameInfos.touch F.Index) F.Index
            ((NameInfo.new B n k).InitCollisionData B e k false))
          exact ⟨⟨(self.NameInfos.touch F.Index).push_back F.Index
        ((NameInfo.new B n k).InitCollisionData B e k false), self.TranslationMap,
        self.MemberNames, self.ReservedNames⟩, by simp [hp.lastIndex], hp, rfl, rfl, rfl⟩
        | none =>
          simp only
          obtain ⟨m', h3, h4⟩ := searchScopes_spec B self.ReservedNames
            (self.NameInfos.touch F.Index) SN S n k true (some F.Index)
            (if k = ECollisionType.ParameterName then F.Index else SN)
            (by by_cases hk : k = ECollisionType.ParameterName <;> simp [hk])
          rw [h3, scopeSearch_congr ht] at *
          refine ⟨{ self with NameInfos := m' }, ?_, NameInfoMap.PushedAt.of_same ht h4,
            rfl, rfl, rfl⟩
          simp [ht]
      | false =>
        simp only [reservedSearch, Bool.false_eq_true, if_false]
        obtain ⟨m', h3, h4⟩ := searchScopes_spec B self.ReservedNames
          (self.NameInfos.touch F.Index) SN S n k false (some F.Index)
          (if k = ECollisionType.ParameterName then F.Index else SN)
          (by by_cases hk : k = ECollisionType.ParameterName <;> simp [hk])
        rw [h3, scopeSearch_congr ht] at *
        refine ⟨{ self with NameInfos := m' }, ?_, NameInfoMap.PushedAt.of_same ht h4,
          rfl, rfl, rfl⟩
        simp [ht]

/-- The key of the table a newly interned name is added to. -/
theorem AddNameToContainer_inserted (B : BitLayout) (self : CollisionManager) (SN : Nat)
    (S : UEStruct) (n : Nat) (k : ECollisionType) (chk : Bool) (Func : Option UEFunction)
    (tgt : Nat)
    (htgt : (if k = ECollisionType.ParameterName then Func.map (fun F => F.Index) else some SN)
      = some tgt) :
    ∃ self', self.AddNameToContainer B SN S (n, true) k chk Func
        = some (self', (self.NameInfos.at tgt).length)
      ∧ self.Appended self' tgt (NameInfo.new B n k) := by
  unfold CollisionManager.AddNameToContainer
  by_cases hk : k = ECollisionType.ParameterName
  · subst hk
    cases Func with
    | none => simp at htgt
    | some F =>
      simp only [if_true, Option.map_some', Option.some.injEq] at htgt
      subst htgt
      have ht : ∀ k', (self.NameInfos.touch F.Index).at k' = self.NameInfos.at k' :=
        fun k' => NameInfoMap.at_touch _ _ _
      have hp := NameInfoMap.PushedAt.of_same ht (NameInfoMap.pushedAt_push_back
        (self.NameInfos.touch F.Index) F.Index (NameInfo.new B n ECollisionType.ParameterName))
      refine ⟨⟨(self.NameInfos.touch F.Index).push_back F.Index
        (NameInfo.new B n ECollisionType.ParameterName), self.TranslationMap,
        self.MemberNames, self.ReservedNames⟩, ?_, hp, rfl, rfl, rfl⟩
      simp [AddNameToContainer.searchFunc, hp.lastIndex]
  · simp only [hk, if_false, Option.some.injEq] at htgt
    subst htgt
    have hp := NameInfoMap.pushedAt_push_back self.NameInfos SN (NameInfo.new B n k)
    refine ⟨⟨self.NameInfos.push_back SN (NameInfo.new B n k), self.TranslationMap,
      self.MemberNames, self.ReservedNames⟩, ?_, hp, rfl, rfl, rfl⟩
    simp [hk, hp.lastIndex]

/-! ## The name pool and the lambda of the driver -/

theorem FindOrAdd_of_mem {t : List String} {s : String} (h : s ∈ t) :
    HashStringTable.FindOrAdd t s = (t, (t.indexOf s, false)) := by
  simp [HashStringTable.FindOrAdd, h]

theorem FindOrAdd_of_not_mem {t : List String} {s : String} (h : s ∉ t) :
    HashStringTable.FindOrAdd t s = (t ++ [s], (t.length, true)) := by
  simp [HashStringTable.FindOrAdd, h]

theorem GetStringEntry_indexOf {t : List String} {s : String} (h : s ∈ t) :
    HashStringTable.GetStringEntry t (t.indexOf s) = s := by
  unfold HashStringTable.GetStringEntry
  have hlt : t.indexOf s < t.length := List.indexOf_lt_length.2 h
  rw [List.getD_eq_getElem _ _ hlt]
  exact List.indexOf_get hlt

theorem GetStringEntry_append {t : List String} (ext : List String) {i : Nat} (h : i < t.length) :
    HashStringTable.GetStringEntry (t ++ ext) i = HashStringTable.GetStringEntry t i := by
  unfold HashStringTable.GetStringEntry
  rw [List.getD_eq_getElem _ _ h, List.getD_eq_getElem _ _ (by simp; omega),
    List.getElem_append_left h]

theorem FindOrAdd_mem (t : List String) (s : String) :
    s ∈ (HashStringTable.FindOrAdd t s).1 := by
  by_cases h : s ∈ t
  · rw [FindOrAdd_of_mem h]; exact h
  · rw [FindOrAdd_of_not_mem h]; simp

theorem FindOrAdd_index (t : List String) (s : String) :
    (HashStringTable.FindOrAdd t s).2.1 = (HashStringTable.FindOrAdd t s).1.indexOf s := by
  by_cases h : s ∈ t
  · rw [FindOrAdd_of_mem h]
  · rw [FindOrAdd_of_not_mem h]
    simp only
    rw [List.indexOf_append_of_not_mem h]
    simp

theorem FindOrAdd_extends (t : List String) (s : String) :
    ∃ ext, (HashStringTable.FindOrAdd t s).1 = t ++ ext := by
  by_cases h : s ∈ t
  · rw [FindOrAdd_of_mem h]; exact ⟨[], by simp⟩
  · rw [FindOrAdd_of_not_mem h]; exact ⟨[s], rfl⟩

theorem indexOf_append_of_mem' {t : List String} {s : String} (ext : List String) (h : s ∈ t) :
    (t ++ ext).indexOf s = t.indexOf s :=
  List.indexOf_append_of_mem h

theorem indexOf_inj_of_mem {t : List String} {a b : String} (ha : a ∈ t) (hb : b ∈ t)
    (h : t.indexOf a = t.indexOf b) : a = b := by
  have h1 := GetStringEntry_indexOf ha
  have h2 := GetStringEntry_indexOf hb
  rw [h] at h1
  exact h1.symm.trans h2

theorem recordFor_Name (B : BitLayout) (n : Nat) (k : ECollisionType)
    (mt : Option (NameInfo × Bool)) : (recordFor B n k mt).Name = n := by
  cases mt with
  | none => rfl
  | some p => rfl

theorem recordFor_OwnType {B : BitLayout} (hB : B.ok) (n : Nat) (k : ECollisionType)
    (mt : Option (NameInfo × Bool)) : (recordFor B n k mt).OwnType B = k.toNat := by
  cases mt with
  | none => exact NameInfo.new_OwnType hB n k
  | some p => exact NameInfo.InitCollisionData_OwnType hB _ _ _ _

theorem prioritySearch_isSome (self : CollisionManager) (SN : Nat) (S : UEStruct) (n : Nat)
    (k : ECollisionType) (chk : Bool) (Func : Option UEFunction)
    (hF : k = ECollisionType.ParameterName → Func ≠ none) :
    ∃ tgt mt, prioritySearch self SN S n k chk Func = some (tgt, mt) := by
  unfold prioritySearch
  cases Func with
  | none =>
    have hk : k ≠ ECollisionType.ParameterName := fun hk => hF hk rfl
    exact ⟨SN, scopeSearch self.NameInfos self.ReservedNames SN S n chk, by simp [hk]⟩
  | some F =>
    simp only
    cases findExisting (self.NameInfos.at F.Index) n with
    | some e => exact ⟨_, _, rfl⟩
    | none =>
      cases reservedSearch self.ReservedNames chk n with
      | some e => exact ⟨_, _, rfl⟩
      | none => exact ⟨_, _, rfl⟩

/-- One call of the lambda of the driver returns, and does what `LambdaStep` says, when a
parameter comes with its function. -/
theorem lambda_spec (B : BitLayout) (hB : B.ok) (self : CollisionManager) (S : UEStruct)
    (w : String) (key : Nat) (k : ECollisionType) (chk : Bool) (Func : Option UEFunction)
    (hF : k = ECollisionType.ParameterName → Func ≠ none) :
    ∃ self' tgt r, AddToContainerAndTranslationMap B self S w key k chk Func = some self'
      ∧ LambdaStep B self self' S w key k chk Func tgt r := by
  unfold AddToContainerAndTranslationMap LambdaStep
  generalize hfound : HashStringTable.FindOrAdd self.MemberNames w = found
  obtain ⟨pool, n, ins⟩ := found
  simp only
  cases ins with
  | true =>
    have htgt : ∃ tgt, (if k = ECollisionType.ParameterName
        then Func.map (fun F => F.Index) else some S.GetIndex) = some tgt := by
      by_cases hk : k = ECollisionType.ParameterName
      · cases Func with
        | none => exact absurd rfl (hF hk)
        | some F => exact ⟨F.Index, by simp [hk]⟩
      · exact ⟨S.GetIndex, by simp [hk]⟩
    obtain ⟨tgt, htgt⟩ := htgt
    obtain ⟨self', h1, h2, h3, h4, h5⟩ := AddNameToContainer_inserted B
      ⟨self.NameInfos, self.TranslationMap, pool, self.ReservedNames⟩ S.GetIndex S n k chk
      Func tgt htgt
    refine ⟨⟨self'.NameInfos, emplace self'.TranslationMap key (self.NameInfos.at tgt).length,
      self'.MemberNames, self'.ReservedNames⟩, tgt, NameInfo.new B n k, by rw [h1], h2, h4, h5,
      ?_, rfl, NameInfo.new_OwnType hB n k, fun _ => ⟨rfl, htgt⟩, fun h => absurd h (by simp)⟩
    simp only [h3]
  | false =>
    obtain ⟨tgt, mt, hps⟩ := prioritySearch_isSome
      ⟨self.NameInfos, self.TranslationMap, pool, self.ReservedNames⟩ S.GetIndex S n k chk
      Func hF
    have hspec := AddNameToContainer_spec B
      ⟨self.NameInfos, self.TranslationMap, pool, self.ReservedNames⟩ S.GetIndex S n k chk Func
    rw [hps] at hspec
    obtain ⟨self', h1, h2, h3, h4, h5⟩ := hspec
    refine ⟨⟨self'.NameInfos, emplace self'.TranslationMap key (self.NameInfos.at tgt).length,
      self'.MemberNames, self'.ReservedNames⟩, tgt, recordFor B n k mt, by rw [h1], h2, h4, h5,
      ?_, recordFor_Name B n k mt, recordFor_OwnType hB n k mt, fun h => absurd h (by simp),
      fun _ => ⟨mt, hps, rfl⟩⟩
    simp only [h3]

/-! ## Claims about a single record -/

/-- C9 (as stated, refuted): with 5-bit counters, a member record whose `MemberName` counter
holds the maximum 31 is matched directly.  The counter of the new record does not hold the
maximum any more (it is 0), and the neighbouring `SuperMemberName` counter differs from the
matched record's (it went from 0 to 1). -/
theorem C9_counter_wraps :
    (NameInfo.mk 0 3968).MemberNameCollisionCount B0 = B0.maxCount
    ∧ ¬ (((NameInfo.new B0 0 ECollisionType.MemberName).InitCollisionData B0 (NameInfo.mk 0 3968)
        ECollisionType.MemberName false).MemberNameCollisionCount B0 = B0.maxCount)
    ∧ ¬ (((NameInfo.new B0 0 ECollisionType.MemberName).InitCollisionData B0 (NameInfo.mk 0 3968)
        ECollisionType.MemberName false).SuperMemberNameCollisionCount B0
          = (NameInfo.mk 0 3968).SuperMemberNameCollisionCount B0) := by
  decide

/-- C9 (amended): when the counter a match increments already holds the largest value of
its bit-field, the counter does not saturate: in the new record it is zero. The own kind is
the kind of the new symbol, and every counter of a lower slot has the value of the matched
record. -/
theorem C9_increment_at_capacity (B : BitLayout) (hB : B.ok) (self Existing : NameInfo)
    (CurrentType : ECollisionType) (bIsSuper : Bool)
    (hslot : Existing.slotFor B bIsSuper ≤ 4)
    (hmax : Existing.CollisionCount B (Existing.slotFor B bIsSuper) = B.maxCount) :
    (self.InitCollisionData B Existing CurrentType bIsSuper).CollisionCount B
        (Existing.slotFor B bIsSuper) = 0
    ∧ (self.InitCollisionData B Existing CurrentType bIsSuper).OwnType B = CurrentType.toNat
    ∧ ∀ t, t < Existing.slotFor B bIsSuper →
        (self.InitCollisionData B Existing CurrentType bIsSuper).CollisionCount B t
          = Existing.CollisionCount B t := by
  refine ⟨?_, NameInfo.InitCollisionData_OwnType hB _ _ _ _, ?_⟩
  · rw [NameInfo.InitCollisionData_count_slot hB _ _ _ _ hslot, hmax]
    unfold BitLayout.maxCount
    have := hB.two_le
    rw [Nat.sub_add_cancel (by omega), Nat.mod_self]
  · intro t ht
    exact NameInfo.InitCollisionData_count_below hB _ _ _ _ t (by omega) ht

/-- C9 (amended), at a concrete record: `B0`, a member record with `MemberName` count 31. -/
theorem C9_increment_at_capacity_witness :
    B0.ok ∧ (NameInfo.mk 0 3968).slotFor B0 false ≤ 4
    ∧ ((NameInfo.new B0 0 ECollisionType.MemberName).InitCollisionData B0 (NameInfo.mk 0 3968)
        ECollisionType.MemberName false).CollisionCount B0
          ((NameInfo.mk 0 3968).slotFor B0 false) = 0 :=
  ⟨by decide, by decide,
    (C9_increment_at_capacity B0 (by decide) (NameInfo.new B0 0 ECollisionType.MemberName)
      (NameInfo.mk 0 3968) ECollisionType.MemberName false (by decide) (by decide)).1⟩

/-- C10: `StringifyName` is the stringifier of the specification, applied to the raw text of
the record's name, the display name of the owning type, the own kind and the five counts. -/
theorem C10_StringifyName_refines_spec (B : BitLayout) (self : CollisionManager)
    (Struct : UEStruct) (Info : NameInfo) :
    self.StringifyName B Struct Info =
      StringifyNameSpec (HashStringTable.GetStringEntry self.MemberNames Info.Name)
        Struct.GetValidName (Info.OwnType B) (Info.CollisionCount B) := by
  unfold CollisionManager.StringifyName StringifyNameSpec to_wstring
    NameInfo.MemberNameCollisionCount NameInfo.SuperMemberNameCollisionCount
    NameInfo.FunctionNameCollisionCount NameInfo.SuperFuncNameCollisionCount
    NameInfo.ParamNameCollisionCount
  simp only
  split_ifs <;> simp [String.append_assoc]

/-! ## Claims about a single registration -/

theorem UEStruct.chain_head (S : UEStruct) : ∃ rest, S.chain = S :: rest := by
  cases S with
  | root d => exact ⟨[], rfl⟩
  | derived d Super => exact ⟨Super.chain, rfl⟩

theorem superSearch_eq_none {m : NameInfoMap} {n : Nat} {S : UEStruct} :
    superSearch m n S = none ↔ ∀ A ∈ S.chain, findExisting (m.at A.GetIndex) n = none := by
  induction S with
  | root d =>
    simp [superSearch, UEStruct.chain, UEStruct.GetIndex, UEStruct.data]
  | derived d Super ih =>
    simp only [superSearch, UEStruct.chain, List.mem_cons, forall_eq_or_imp]
    cases h : findExisting (m.at d.Index) n with
    | some e => simp [UEStruct.GetIndex, UEStruct.data, h]
    | none => simp [UEStruct.GetIndex, UEStruct.data, h, ih]

theorem superSearch_of_split {m : NameInfoMap} {n : Nat} {e : NameInfo} (S : UEStruct) :
    ∀ (before after : List UEStruct) (A : UEStruct), S.chain = before ++ A :: after →
      (∀ X ∈ before, findExisting (m.at X.GetIndex) n = none) →
      findExisting (m.at A.GetIndex) n = some e → superSearch m n S = some e := by
  induction S with
  | root d =>
    intro before after A hsplit hbefore hA
    cases before with
    | nil =>
      simp only [UEStruct.chain, List.nil_append, List.cons.injEq] at hsplit
      rw [← hsplit.1] at hA
      simpa [superSearch, UEStruct.GetIndex, UEStruct.data] using hA
    | cons X rest =>
      simp [UEStruct.chain] at hsplit
  | derived d Super ih =>
    intro before after A hsplit hbefore hA
    cases before with
    | nil =>
      simp only [UEStruct.chain, List.nil_append, List.cons.injEq] at hsplit
      rw [← hsplit.1] at hA
      simp only [UEStruct.GetIndex, UEStruct.data] at hA
      simp [superSearch, hA]
    | cons X rest =>
      simp only [UEStruct.chain, List.cons_append, List.cons.injEq] at hsplit
      have hX := hbefore X (List.mem_cons_self _ _)
      rw [← hsplit.1] at hX
      simp only [UEStruct.GetIndex, UEStruct.data] at hX
      simp only [superSearch, hX]
      exact ih rest after A hsplit.2 (fun Y hY => hbefore Y (List.mem_cons_of_mem _ hY)) hA

theorem scopeSearch_eq_none {m : NameInfoMap} {R : NameContainer} {SN : Nat} {S : UEStruct}
    {n : Nat} {chk : Bool}
    (hown : findExisting (m.at SN) n = none)
    (hanc : ∀ A ∈ S.ancestors, findExisting (m.at A.GetIndex) n = none)
    (hres : chk = true → findExisting R n = none) :
    scopeSearch m R SN S n chk = none := by
  unfold scopeSearch
  rw [hown]
  have h2 : (match S.GetSuper with
      | none => none
      | some Super => superSearch m n Super) = none := by
    unfold UEStruct.ancestors at hanc
    cases hS : S.GetSuper with
    | none => rfl
    | some Super =>
      rw [hS] at hanc
      exact superSearch_eq_none.2 hanc
  rw [h2]
  cases chk with
  | false => rfl
  | true => simp [reservedSearch, hres rfl]

/-- C8: a registration in which no searched table contains the name (the table of the
function when one is given, the table of the scope, the tables of all ancestors, and the
reserved names when they are checked) returns, and the record it appends has the kind of the
symbol as own kind, every count zero, and no collisions.  The record goes to the table of the
function for a parameter and to the table of the scope otherwise, at the returned position. -/
theorem C8_no_match_gives_clean_record (B : BitLayout) (hB : B.ok) (self : CollisionManager)
    (StructNames : Nat) (Struct : UEStruct) (NamePair : Nat × Bool)
    (CurrentType : ECollisionType) (chk : Bool) (Func : Option UEFunction)
    (hFunc : CurrentType = ECollisionType.ParameterName → Func ≠ none)
    (hfn : ∀ F, Func = some F → findExisting (self.NameInfos.at F.Index) NamePair.1 = none)
    (hown : findExisting (self.NameInfos.at StructNames) NamePair.1 = none)
    (hanc : ∀ A ∈ Struct.ancestors, findExisting (self.NameInfos.at A.GetIndex) NamePair.1 = none)
    (hres : chk = true → findExisting self.ReservedNames NamePair.1 = none) :
    ∃ self' tgt r,
      self.AddNameToContainer B StructNames Struct NamePair CurrentType chk Func
        = some (self', (self.NameInfos.at tgt).length)
      ∧ self.Appended self' tgt r
      ∧ (if CurrentType = ECollisionType.ParameterName then Func.map (fun F => F.Index)
          else some StructNames) = some tgt
      ∧ r.Name = NamePair.1
      ∧ r.OwnType B = CurrentType.toNat
      ∧ (∀ slot, r.CollisionCount B slot = 0)
      ∧ r.HasCollisions B = false := by
  obtain ⟨n, ins⟩ := NamePair
  simp only at hfn hown hanc hres
  have htgt : ∃ tgt, (if CurrentType = ECollisionType.ParameterName
      then Func.map (fun F => F.Index) else some StructNames) = some tgt := by
    by_cases hk : CurrentType = ECollisionType.ParameterName
    · cases Func with
      | none => exact absurd rfl (hFunc hk)
      | some F => exact ⟨F.Index, by simp [hk]⟩
    · exact ⟨StructNames, by simp [hk]⟩
  obtain ⟨tgt, htgt⟩ := htgt
  have hfresh : (NameInfo.new B n CurrentType).Name = n
      ∧ (NameInfo.new B n CurrentType).OwnType B = CurrentType.toNat
      ∧ (∀ slot, (NameInfo.new B n CurrentType).CollisionCount B slot = 0)
      ∧ (NameInfo.new B n CurrentType).HasCollisions B = false :=
    ⟨rfl, NameInfo.new_OwnType hB _ _, NameInfo.new_CollisionCount B _ _,
      NameInfo.new_HasCollisions B _ _⟩
  cases ins with
  | true =>
    obtain ⟨self', h1, h2⟩ := AddNameToContainer_inserted B self StructNames Struct n
      CurrentType chk Func tgt htgt
    exact ⟨self', tgt, _, h1, h2, htgt, hfresh⟩
  | false =>
    have hscope : scopeSearch self.NameInfos self.ReservedNames StructNames Struct n chk = none :=
      scopeSearch_eq_none hown hanc hres
    have hspec := AddNameToContainer_spec B self StructNames Struct n CurrentType chk Func
    have hps : prioritySearch self StructNames Struct n CurrentType chk Func
        = some (tgt, none) := by
      unfold prioritySearch
      cases Func with
      | none =>
        have hk : CurrentType ≠ ECollisionType.ParameterName := fun hk => hFunc hk rfl
        simp only [hk, if_false, Option.some.injEq] at htgt ⊢
        rw [hscope, htgt]
      | some F =>
        simp only [hfn F rfl, hscope]
        have hr : reservedSearch self.ReservedNames chk n = none := by
          cases chk with
          | false => rfl
          | true => simp [reservedSearch, hres rfl]
        rw [hr]
        by_cases hk : CurrentType = ECollisionType.ParameterName
        · simp only [hk, if_true, Option.map_some', Option.some.injEq] at htgt ⊢
          rw [htgt]
        · simp only [hk, if_false, Option.some.injEq] at htgt ⊢
          rw [htgt]
    rw [hps] at hspec
    obtain ⟨self', h1, h2⟩ := hspec
    exact ⟨self', tgt, _, h1, h2, htgt, hfresh⟩

/-- C8, at a concrete registration: the member `Value` of `Base` in the empty manager. -/
theorem C8_no_match_gives_clean_record_witness :
    ∃ self' tgt r,
      CollisionManager.empty.AddNameToContainer B0 1 exBase (0, false)
          ECollisionType.MemberName true none
        = some (self', (CollisionManager.empty.NameInfos.at tgt).length)
      ∧ CollisionManager.empty.Appended self' tgt r
      ∧ (if ECollisionType.MemberName = ECollisionType.ParameterName
          then (none : Option UEFunction).map (fun F => F.Index) else some 1) = some tgt
      ∧ r.Name = (0, false).1
      ∧ r.OwnType B0 = ECollisionType.MemberName.toNat
      ∧ (∀ slot, r.CollisionCount B0 slot = 0)
      ∧ r.HasCollisions B0 = false :=
  C8_no_match_gives_clean_record B0 (by decide) CollisionManager.empty 1 exBase (0, false)
    ECollisionType.MemberName true none (by decide) (by simp) (by rfl)
    (by intro A hA; simp [UEStruct.ancestors, exBase, UEStruct.GetSuper] at hA) (by intro _; rfl)

/-- C5 (as stated, refuted): `Base`, `Middle` and `Leaf` each declare the data member `Value`.
The driver builds the three tables with one member record each; the record of `Leaf`, whose
name is present in the tables of its ancestors and not in its own, has the
`SuperMemberName` count 2, not 1. -/
theorem C5_deeper_chain_counts_two :
    (CollisionManager.empty.AddStructToNameContainer B0 exLeaf true).map
        (fun s => ((s.NameInfos.at 1).map (fun r => (r.Name, r.OwnType B0,
                      r.SuperMemberNameCollisionCount B0)),
                   (s.NameInfos.at 4).map (fun r => (r.Name, r.OwnType B0,
                      r.SuperMemberNameCollisionCount B0)),
                   (s.NameInfos.at 5).map (fun r => (r.Name, r.OwnType B0,
                      r.SuperMemberNameCollisionCount B0))))
      = some ([(0, 0, 0)], [(0, 0, 1)], [(0, 0, 2)]) := by
  decide

/-- C5 (amended): a data member is registered in a derived type; its name is already
interned, absent from the type's own table, and the nearest ancestor whose table has the name
has, as its most recent record of that name, a data member record `e` whose
`SuperMemberName` count `c` is below the capacity.  Then the registration returns and appends
to the own table a record with own kind `MemberName` and `SuperMemberName` count `c + 1`
(1 exactly when the matched record has no super-member collision of its own); the other
four counts are those of `e`. -/
theorem C5_ancestor_member_match (B : BitLayout) (hB : B.ok) (self : CollisionManager)
    (StructNames : Nat) (Struct : UEStruct) (n : Nat) (chk : Bool)
    (before after : List UEStruct) (A : UEStruct) (e : NameInfo) (c : Nat)
    (hsplit : Struct.ancestors = before ++ A :: after)
    (hbefore : ∀ X ∈ before, findExisting (self.NameInfos.at X.GetIndex) n = none)
    (hA : findExisting (self.NameInfos.at A.GetIndex) n = some e)
    (hown : findExisting (self.NameInfos.at StructNames) n = none)
    (hkind : e.OwnType B = ECollisionType.MemberName.toNat)
    (hc : e.SuperMemberNameCollisionCount B = c) (hcap : c < B.maxCount) :
    ∃ self' r,
      self.AddNameToContainer B StructNames Struct (n, false) ECollisionType.MemberName chk none
        = some (self', (self.NameInfos.at StructNames).length)
      ∧ self.Appended self' StructNames r
      ∧ r.Name = n
      ∧ r.OwnType B = ECollisionType.MemberName.toNat
      ∧ r.SuperMemberNameCollisionCount B = c + 1
      ∧ ∀ slot, slot ≤ 4 → slot ≠ ECollisionType.SuperMemberName.toNat →
          r.CollisionCount B slot = e.CollisionCount B slot := by
  have hspec := AddNameToContainer_spec B self StructNames Struct n ECollisionType.MemberName
    chk none
  have hps : prioritySearch self StructNames Struct n ECollisionType.MemberName chk none
      = some (StructNames, some (e, true)) := by
    unfold prioritySearch scopeSearch
    simp only [reduceCtorEq, if_false, hown]
    unfold UEStruct.ancestors at hsplit
    cases hS : Struct.GetSuper with
    | none => rw [hS] at hsplit; simp at hsplit
    | some Super =>
      rw [hS] at hsplit
      simp only [superSearch_of_split Super before after A hsplit hbefore hA]
  rw [hps] at hspec
  obtain ⟨self', h1, h2⟩ := hspec
  have hslot : e.slotFor B true = ECollisionType.SuperMemberName.toNat := by
    unfold NameInfo.slotFor
    rw [hkind]
    rfl
  unfold NameInfo.SuperMemberNameCollisionCount at hc ⊢
  have hcap' : e.CollisionCount B (e.slotFor B true) < B.maxCount := by
    rw [hslot, hc]
    exact hcap
  have h4 : e.slotFor B true ≤ 4 := by
    rw [hslot]
    decide
  refine ⟨self', _, h1, h2, rfl, NameInfo.InitCollisionData_OwnType hB _ _ _ _, ?_, ?_⟩
  · unfold recordFor
    rw [NameInfo.InitCollisionData_count hB _ _ _ _ _ (by decide) h4 hcap', hslot,
      if_pos rfl, hc]
  · intro slot hs hne
    unfold recordFor
    rw [NameInfo.InitCollisionData_count hB _ _ _ _ _ hs h4 hcap', hslot, if_neg hne]

/-- C5 (amended), at a concrete registration: `Value` of `Leaf` after `Base` and `Middle` are
built; the matched record of `Middle` has `SuperMemberName` count 1. -/
theorem C5_ancestor_member_match_witness :
    ∃ self' r,
      exAfterMiddle.AddNameToContainer B0 5 exLeaf (0, false) ECollisionType.MemberName true none
        = some (self', (exAfterMiddle.NameInfos.at 5).length)
      ∧ exAfterMiddle.Appended self' 5 r
      ∧ r.Name = 0
      ∧ r.OwnType B0 = ECollisionType.MemberName.toNat
      ∧ r.SuperMemberNameCollisionCount B0 = 1 + 1
      ∧ ∀ slot, slot ≤ 4 → slot ≠ ECollisionType.SuperMemberName.toNat →
          r.CollisionCount B0 slot = (NameInfo.mk 0 4096).CollisionCount B0 slot :=
  C5_ancestor_member_match B0 (by decide) exAfterMiddle 5 exLeaf 0 true [] [exBase] exMiddle
    (NameInfo.mk 0 4096) 1 (by rfl) (by intro X hX; cases hX) (by decide) (by decide)
    (by decide) (by decide) (by decide)

/-! ## Claims about reserved names -/

theorem BitLayout.ok.maxCount_pos {B : BitLayout} (hB : B.ok) : 0 < B.maxCount := by
  have := hB.two_le
  unfold BitLayout.maxCount
  omega

/-- The counts of a record made from a matched record without collisions: one in the slot of
the match, zero elsewhere. -/
theorem NameInfo.InitCollisionData_of_zero {B : BitLayout} (hB : B.ok) (self e : NameInfo)
    (k : ECollisionType) (b : Bool) (hz : ∀ slot, slot ≤ 4 → e.CollisionCount B slot = 0)
    (hs : e.slotFor B b ≤ 4) (t : Nat) (ht : t ≤ 4) :
    (self.InitCollisionData B e k b).CollisionCount B t = if t = e.slotFor B b then 1 else 0 := by
  rw [NameInfo.InitCollisionData_count hB self e k b t ht hs
    (by rw [hz _ hs]; exact hB.maxCount_pos)]
  simp [hz t ht]

theorem AddReservedName_entry {B : BitLayout} (hB : B.ok) (self : CollisionManager) (w : String)
    (p : Bool) :
    ∃ e, (self.AddReservedName B w p).ReservedNames = self.ReservedNames ++ [e]
      ∧ e.IsReserved B p
      ∧ e.Name = (self.AddReservedName B w p).MemberNames.indexOf w
      ∧ w ∈ (self.AddReservedName B w p).MemberNames := by
  refine ⟨_, rfl, ⟨?_, ?_⟩, ?_, ?_⟩
  · rw [NameInfo.setOwnType_OwnType]
    exact Nat.mod_eq_of_lt (hB.toNat_lt _)
  · intro slot _
    rw [NameInfo.setOwnType_CollisionCount]
    simp [NameInfo.CollisionCount]
  · exact FindOrAdd_index _ _
  · exact FindOrAdd_mem _ _

theorem to_wstring_zero : to_wstring 0 = "0" := by decide

/-- C3 (as stated, refuted): `int` is reserved as a word of parameter context and the driver
builds `Runner`, whose function `Run` has the parameter `int`, with reserved names checked.
The stringified name of the parameter is `int_0`; it does not begin with `Param_`. -/
theorem C3_parameter_context_word_gets_suffix :
    ((exReservedParam.AddStructToNameContainer B0 exRunner true).map
        (fun s => (s.NameInfos.at 6).map (fun r => s.StringifyName B0 exRunner r)))
      = some ["int_0"] := by
  decide

/-- C3 (amended): a parameter is registered with reserved names checked; its name is interned,
not yet in the table of its function, and the most recent reserved record of that name is `e`.
The registration returns and appends one record to the table of the function.  When `e` was
seeded as a word that is not of parameter context the stringified name is `Param_` followed by
the raw name; when it was seeded as a word of parameter context the stringified name is the
raw name followed by `_0`. -/
theorem C3_parameter_matching_reserved_word (B : BitLayout) (hB : B.ok)
    (self : CollisionManager) (Struct : UEStruct) (w : String) (Key : Nat) (F : UEFunction)
    (e : NameInfo) (bIsParameterOrLocalVariable : Bool)
    (hw : w ∈ self.MemberNames)
    (hfn : findExisting (self.NameInfos.at F.Index) (self.MemberNames.indexOf w) = none)
    (hres : findExisting self.ReservedNames (self.MemberNames.indexOf w) = some e)
    (he : e.IsReserved B bIsParameterOrLocalVariable) :
    ∃ self' r,
      AddToContainerAndTranslationMap B self Struct w Key ECollisionType.ParameterName true
        (some F) = some self'
      ∧ self'.NameInfos.at F.Index = self.NameInfos.at F.Index ++ [r]
      ∧ self'.StringifyName B Struct r =
          if bIsParameterOrLocalVariable then w ++ "_0" else "Param_" ++ w := by
  obtain ⟨self', tgt, r, h1, hpush, hpool, -, -, hname, hown, -, hmatch⟩ :=
    lambda_spec B hB self Struct w Key ECollisionType.ParameterName true (some F) (by simp)
  rw [FindOrAdd_of_mem hw] at hpool hname hmatch
  simp only at hpool hname hmatch
  obtain ⟨mt, hps, hr⟩ := hmatch trivial
  have hps' : prioritySearch self Struct.GetIndex Struct (self.MemberNames.indexOf w)
      ECollisionType.ParameterName true (some F) = some (F.Index, some (e, false)) := by
    simp [prioritySearch, hfn, reservedSearch, hres]
  rw [hps'] at hps
  simp only [Option.some.injEq, Prod.mk.injEq] at hps
  obtain ⟨htgt, hmt⟩ := hps
  subst htgt hmt
  refine ⟨self', r, h1, hpush.at_tgt, ?_⟩
  have hraw : HashStringTable.GetStringEntry self'.MemberNames r.Name = w := by
    rw [hpool, hname]
    exact GetStringEntry_indexOf hw
  have hslot : e.slotFor B false = e.OwnType B := by simp [NameInfo.slotFor]
  have hcnt : ∀ t, t ≤ 4 → r.CollisionCount B t = if t = e.OwnType B then 1 else 0 := by
    intro t ht
    rw [hr]
    unfold recordFor
    rw [NameInfo.InitCollisionData_of_zero hB _ e _ false he.2
      (by rw [hslot, he.1]; exact ECollisionType.toNat_le _) t ht, hslot]
  have h0 := hcnt 0 (by decide)
  have h1' := hcnt 1 (by decide)
  have h2 := hcnt 2 (by decide)
  have h3 := hcnt 3 (by decide)
  have h4 := hcnt 4 (by decide)
  rw [he.1] at h0 h1' h2 h3 h4
  unfold CollisionManager.StringifyName
  rw [hraw, hown]
  cases bIsParameterOrLocalVariable with
  | false =>
    simp [ECollisionType.toNat, NameInfo.MemberNameCollisionCount,
      NameInfo.SuperMemberNameCollisionCount, NameInfo.FunctionNameCollisionCount,
      NameInfo.SuperFuncNameCollisionCount, NameInfo.ParamNameCollisionCount] at h0 h1' h2 h3 h4 ⊢
    simp [h0, h1', h2, h3, h4]
  | true =>
    simp [ECollisionType.toNat, NameInfo.MemberNameCollisionCount,
      NameInfo.SuperMemberNameCollisionCount, NameInfo.FunctionNameCollisionCount,
      NameInfo.SuperFuncNameCollisionCount, NameInfo.ParamNameCollisionCount] at h0 h1' h2 h3 h4 ⊢
    simp [h0, h1', h2, h3, h4, to_wstring_zero]

/-- C3 (amended), at a concrete registration: `int` is reserved as a word that is not of
parameter context, and the parameter `int` of `Run` is registered. -/
theorem C3_parameter_matching_reserved_word_witness :
    ∃ self' r,
      AddToContainerAndTranslationMap B0 exReservedPlain exRunner "int" 600
        ECollisionType.ParameterName true (some exRun) = some self'
      ∧ self'.NameInfos.at exRun.Index = exReservedPlain.NameInfos.at exRun.Index ++ [r]
      ∧ self'.StringifyName B0 exRunner r = if false then "int" ++ "_0" else "Param_" ++ "int" :=
  C3_parameter_matching_reserved_word B0 (by decide) exReservedPlain exRunner "int" 600 exRun
    (NameInfo.mk 0 1) false (by decide) (by decide) (by decide) (by decide)

/-- C4 (as stated, refuted): `int` is reserved as a word of parameter context and the driver
builds `Runner`, which has the data member `int`, with reserved names checked.  The record of
the member has no collisions and its final name is the reserved word itself. -/
theorem C4_member_keeps_parameter_context_word :
    ((exReservedParam.AddStructToNameContainer B0 exRunner true).map
        (fun s => (s.NameInfos.at 7).map
          (fun r => (s.StringifyName B0 exRunner r, r.HasCollisions B0))))
      = some [("int", false), ("Run", false)] := by
  decide

theorem String.ne_of_length_ne {a b : String} (h : a.length ≠ b.length) : a ≠ b :=
  fun hab => h (congrArg String.length hab)

/-- C4 (amended): a data member, function or parameter is registered with reserved names
checked; its name is interned and is first found among the reserved names, the most recent
reserved record of that name being `e` (no table searched before has the name: the table of
the function when one is given, else the table of the struct and the tables of its
ancestors).  The registration returns and appends one record.  When `e` was seeded as a word
that is not of parameter context, or the symbol is a parameter, the record has collisions
and the final name differs from the reserved word.  When `e` was seeded as a word of
parameter context and the symbol is a data member or a function, the record has no
collisions and the final name is the reserved word. -/
theorem C4_symbol_matching_reserved_word (B : BitLayout) (hB : B.ok)
    (self : CollisionManager) (Struct : UEStruct) (w : String) (Key : Nat)
    (CollisionType : ECollisionType) (Func : Option UEFunction)
    (e : NameInfo) (bIsParameterOrLocalVariable : Bool)
    (hkind : CollisionType = ECollisionType.MemberName
      ∨ CollisionType = ECollisionType.FunctionName
      ∨ CollisionType = ECollisionType.ParameterName)
    (hF : CollisionType = ECollisionType.ParameterName → Func ≠ none)
    (hw : w ∈ self.MemberNames)
    (hfn : ∀ F, Func = some F →
      findExisting (self.NameInfos.at F.Index) (self.MemberNames.indexOf w) = none)
    (hown : Func = none →
      findExisting (self.NameInfos.at Struct.GetIndex) (self.MemberNames.indexOf w) = none)
    (hanc : Func = none → ∀ A ∈ Struct.ancestors,
      findExisting (self.NameInfos.at A.GetIndex) (self.MemberNames.indexOf w) = none)
    (hres : findExisting self.ReservedNames (self.MemberNames.indexOf w) = some e)
    (he : e.IsReserved B bIsParameterOrLocalVariable) :
    ∃ self' tgt r,
      AddToContainerAndTranslationMap B self Struct w Key CollisionType true Func = some self'
      ∧ self'.NameInfos.at tgt = self.NameInfos.at tgt ++ [r]
      ∧ ((bIsParameterOrLocalVariable = false ∨ CollisionType = ECollisionType.ParameterName) →
          r.HasCollisions B = true ∧ self'.StringifyName B Struct r ≠ w)
      ∧ ((bIsParameterOrLocalVariable = true ∧ CollisionType ≠ ECollisionType.ParameterName) →
          r.HasCollisions B = false ∧ self'.StringifyName B Struct r = w) := by
  obtain ⟨self', tgt, r, h1, hpush, hpool, -, -, hname, hownk, -, hmatch⟩ :=
    lambda_spec B hB self Struct w Key CollisionType true Func hF
  rw [FindOrAdd_of_mem hw] at hpool hname hmatch
  simp only at hpool hname hmatch
  obtain ⟨mt, hps, hr⟩ := hmatch trivial
  have hmt : mt = some (e, false) := by
    cases Func with
    | none =>
      have hk : CollisionType ≠ ECollisionType.ParameterName := fun hk => hF hk rfl
      have hsup : (match Struct.GetSuper with
          | none => none
          | some Super => superSearch self.NameInfos (self.MemberNames.indexOf w) Super)
          = none := by
        have hanc' := hanc rfl
        unfold UEStruct.ancestors at hanc'
        cases hS : Struct.GetSuper with
        | none => rfl
        | some Super =>
          rw [hS] at hanc'
          exact superSearch_eq_none.2 hanc'
      simp only [prioritySearch, hk, if_false, scopeSearch, hown rfl, hsup, reservedSearch,
        if_true, hres, Option.some.injEq, Prod.mk.injEq] at hps
      exact hps.2.symm
    | some F =>
      simp only [prioritySearch, hfn F rfl, reservedSearch, if_true, hres, Option.some.injEq,
        Prod.mk.injEq] at hps
      exact hps.2.symm
  subst hmt
  refine ⟨self', tgt, r, h1, hpush.at_tgt, ?_⟩
  have hraw : HashStringTable.GetStringEntry self'.MemberNames r.Name = w := by
    rw [hpool, hname]
    exact GetStringEntry_indexOf hw
  have hslot : e.slotFor B false = e.OwnType B := by simp [NameInfo.slotFor]
  have hcnt : ∀ t, t ≤ 4 → r.CollisionCount B t = if t = e.OwnType B then 1 else 0 := by
    intro t ht
    rw [hr]
    unfold recordFor
    rw [NameInfo.InitCollisionData_of_zero hB _ e _ false he.2
      (by rw [hslot, he.1]; exact ECollisionType.toNat_le _) t ht, hslot]
  have h0 := hcnt 0 (by decide)
  have h1' := hcnt 1 (by decide)
  have h2 := hcnt 2 (by decide)
  have h3 := hcnt 3 (by decide)
  have h4 := hcnt 4 (by decide)
  rw [he.1] at h0 h1' h2 h3 h4
  unfold CollisionManager.StringifyName NameInfo.HasCollisions
  rw [hraw, hownk]
  cases bIsParameterOrLocalVariable <;>
    rcases hkind with hk | hk | hk <;> subst hk <;>
    simp [ECollisionType.toNat, NameInfo.MemberNameCollisionCount,
      NameInfo.SuperMemberNameCollisionCount, NameInfo.FunctionNameCollisionCount,
      NameInfo.SuperFuncNameCollisionCount, NameInfo.ParamNameCollisionCount]
      at h0 h1' h2 h3 h4 ⊢ <;>
    simp [h0, h1', h2, h3, h4] <;>
    apply String.ne_of_length_ne <;>
    simp [String.length_append, show "_".length = 1 from rfl,
      show "Func_".length = 5 from rfl, show "Param_".length = 6 from rfl,
      show (to_wstring 0).length = 1 from rfl]

/-- C4 (amended), at a concrete registration: `int` is reserved as a word that is not of
parameter context, and the data member `int` of `Runner` is registered. -/
theorem C4_symbol_matching_reserved_word_witness :
    ∃ self' tgt r,
      AddToContainerAndTranslationMap B0 exReservedPlain exRunner "int" 700
        ECollisionType.MemberName true none = some self'
      ∧ self'.NameInfos.at tgt = exReservedPlain.NameInfos.at tgt ++ [r]
      ∧ ((false = false ∨ ECollisionType.MemberName = ECollisionType.ParameterName) →
          r.HasCollisions B0 = true ∧ self'.StringifyName B0 exRunner r ≠ "int")
      ∧ ((false = true ∧ ECollisionType.MemberName ≠ ECollisionType.ParameterName) →
          r.HasCollisions B0 = false ∧ self'.StringifyName B0 exRunner r = "int") :=
  C4_symbol_matching_reserved_word B0 (by decide) exReservedPlain exRunner "int" 700
    ECollisionType.MemberName none (NameInfo.mk 0 1) false (Or.inl rfl) (by decide) (by decide)
    (by simp) (fun _ => by decide) (fun _ A hA => by cases hA) (by decide) (by decide)

/-! ## Decimal rendering and strings -/

theorem toDigitsCore_append (b : Nat) : ∀ (fuel n : Nat) (ds : List Char),
    Nat.toDigitsCore b fuel n ds = Nat.toDigitsCore b fuel n [] ++ ds := by
  intro fuel
  induction fuel with
  | zero => intro n ds; simp [Nat.toDigitsCore]
  | succ fuel ih =>
    intro n ds
    simp only [Nat.toDigitsCore]
    by_cases h : n / b = 0
    · simp [h]
    · simp only [h, if_false]
      rw [ih (n / b) (Nat.digitChar (n % b) :: ds), ih (n / b) [Nat.digitChar (n % b)]]
      simp

theorem toDigitsCore_fuel (b : Nat) (hb : 2 ≤ b) : ∀ (fuel fuel' n : Nat), n < fuel → n < fuel' →
    Nat.toDigitsCore b fuel n [] = Nat.toDigitsCore b fuel' n [] := by
  intro fuel
  induction fuel with
  | zero => intro fuel' n h; omega
  | succ fuel ih =>
    intro fuel' n h h'
    cases fuel' with
    | zero => omega
    | succ fuel' =>
      simp only [Nat.toDigitsCore]
      by_cases hz : n / b = 0
      · simp [hz]
      · simp only [hz, if_false]
        have hpos : 0 < n := by
          rcases Nat.eq_zero_or_pos n with h0 | h0
          · subst h0; simp at hz
          · exact h0
        have hlt : n / b < n := Nat.div_lt_self hpos hb
        rw [toDigitsCore_append b fuel, toDigitsCore_append b fuel',
          ih fuel' (n / b) (by omega) (by omega)]

theorem toDigits_rec (n : Nat) :
    Nat.toDigits 10 n =
      if n < 10 then [Nat.digitChar n] else Nat.toDigits 10 (n / 10) ++ [Nat.digitChar (n % 10)] := by
  have key : Nat.toDigitsCore 10 (n + 1) n [] =
      if n / 10 = 0 then [Nat.digitChar (n % 10)]
      else Nat.toDigitsCore 10 n (n / 10) [Nat.digitChar (n % 10)] := by
    simp only [Nat.toDigitsCore]
  unfold Nat.toDigits
  rw [key]
  by_cases h : n < 10
  · have h1 : n / 10 = 0 := Nat.div_eq_of_lt h
    have h2 : n % 10 = n := Nat.mod_eq_of_lt h
    simp [h, h1, h2]
  · have h1 : n / 10 ≠ 0 := by omega
    simp only [h1, if_false, h]
    rw [toDigitsCore_append 10 n, toDigitsCore_fuel 10 (by decide) n (n / 10 + 1) (n / 10)
      (by omega) (by omega)]

theorem digitChar_inj : ∀ a, a < 10 → ∀ b, b < 10 → Nat.digitChar a = Nat.digitChar b → a = b := by
  decide

theorem digitChar_not_alpha : ∀ a, a < 10 → (Nat.digitChar a).isAlpha = false := by
  decide

theorem toDigits_ne_nil (n : Nat) : Nat.toDigits 10 n ≠ [] := by
  rw [toDigits_rec]
  split_ifs <;> simp

theorem toDigits_not_alpha (n : Nat) : ∀ c ∈ Nat.toDigits 10 n, c.isAlpha = false := by
  induction n using Nat.strong_induction_on with
  | _ n ih =>
    rw [toDigits_rec]
    by_cases h : n < 10
    · simp only [h, if_true, List.mem_singleton]
      intro c hc
      rw [hc]
      exact digitChar_not_alpha n h
    · simp only [h, if_false, List.mem_append, List.mem_singleton]
      intro c hc
      rcases hc with hc | hc
      · exact ih (n / 10) (by omega) c hc
      · rw [hc]
        exact digitChar_not_alpha (n % 10) (Nat.mod_lt _ (by decide))

theorem toDigits_inj : ∀ n m, Nat.toDigits 10 n = Nat.toDigits 10 m → n = m := by
  intro n
  induction n using Nat.strong_induction_on with
  | _ n ih =>
    intro m h
    rw [toDigits_rec n, toDigits_rec m] at h
    by_cases hn : n < 10 <;> by_cases hm : m < 10
    · simp only [hn, hm, if_true, List.cons.injEq, and_true] at h
      exact digitChar_inj n hn m hm h
    · simp only [hn, hm, if_true, if_false] at h
      have hl := congrArg List.length h
      have hne := toDigits_ne_nil (m / 10)
      have : 0 < (Nat.toDigits 10 (m / 10)).length := List.length_pos.2 hne
      simp only [List.length_append, List.length_singleton, List.length_cons,
        List.length_nil] at hl
      omega
    · simp only [hn, hm, if_true, if_false] at h
      have hl := congrArg List.length h
      have hne := toDigits_ne_nil (n / 10)
      have : 0 < (Nat.toDigits 10 (n / 10)).length := List.length_pos.2 hne
      simp only [List.length_append, List.length_singleton, List.length_cons,
        List.length_nil] at hl
      omega
    · simp only [hn, hm, if_false] at h
      have h2 := List.append_inj' h rfl
      have h3 : n / 10 = m / 10 := ih (n / 10) (by omega) (m / 10) h2.1
      have h4 : n % 10 = m % 10 :=
        digitChar_inj _ (Nat.mod_lt _ (by decide)) _ (Nat.mod_lt _ (by decide))
          (by simpa using h2.2)
      omega

theorem to_wstring_data (n : Nat) : (to_wstring n).data = Nat.toDigits 10 n := rfl

theorem to_wstring_inj {n m : Nat} (h : to_wstring n = to_wstring m) : n = m :=
  toDigits_inj n m (by rw [← to_wstring_data, ← to_wstring_data, h])

theorem String.append_left_cancel' {a b c : String} (h : a ++ b = a ++ c) : b = c := by
  have h1 := congrArg String.data h
  simp only [String.data_append] at h1
  exact String.ext (List.append_cancel_left h1)

/-- The number of letters of a string. -/
theorem letters_append (a b : String) :
    (a ++ b).data.countP Char.isAlpha = a.data.countP Char.isAlpha + b.data.countP Char.isAlpha := by
  rw [String.data_append, List.countP_append]

theorem letters_to_wstring (n : Nat) : (to_wstring n).data.countP Char.isAlpha = 0 := by
  rw [to_wstring_data, List.countP_eq_zero]
  intro c hc
  simp [toDigits_not_alpha n c hc]

theorem letters_underscore : List.countP Char.isAlpha ['_'] = 0 := by decide

/-- Two texts built on the same base with the decimal suffixes of different counts differ. -/
theorem suffix_ne (base : String) (cx cr : Nat) (h : cx < cr) :
    (if cx > 0 then base ++ ("_" ++ to_wstring (cx - 1)) else base) ≠
      (if cr > 0 then base ++ ("_" ++ to_wstring (cr - 1)) else base) := by
  have hr : cr > 0 := by omega
  rw [if_pos hr]
  by_cases hx : cx > 0
  · rw [if_pos hx]
    intro heq
    have h1 := String.append_left_cancel' (String.append_left_cancel' heq)
    have := to_wstring_inj h1
    omega
  · rw [if_neg hx]
    apply String.ne_of_length_ne
    simp [String.length_append, show "_".length = 1 from rfl]

/-- A text with a prefix that has a letter differs from the text without it, whatever
decimal suffixes the two carry. -/
theorem lettered_ne (pre raw : String) (cx cr : Nat)
    (hpre : 0 < pre.data.countP Char.isAlpha) :
    (if cx > 0 then raw ++ ("_" ++ to_wstring (cx - 1)) else raw) ≠
      (if cr > 0 then (pre ++ raw) ++ ("_" ++ to_wstring (cr - 1)) else pre ++ raw) := by
  intro heq
  have h1 := congrArg (fun s : String => s.data.countP Char.isAlpha) heq
  simp only at h1
  split_ifs at h1 <;>
    simp only [letters_append, letters_to_wstring, letters_underscore,
      show "_".data = ['_'] from rfl] at h1 <;>
    omega

/-! ## Tables in which every record continues the most recent record of its name -/

theorem NameInfo.OwnKindOk.le {B : BitLayout} {r : NameInfo} (h : r.OwnKindOk B) :
    r.OwnType B ≤ 4 := by
  rcases h with h | h | h <;> rw [h] <;> decide

theorem NameInfo.StepFrom.precedes {B : BitLayout} (hB : B.ok) {r e : NameInfo}
    (hk : e.OwnKindOk B) (hcap : e.BelowCapacity B) (h : r.StepFrom B e) : e.Precedes B r := by
  obtain ⟨k, hr⟩ := h
  have hslot : e.slotFor B false = e.OwnType B := by simp [NameInfo.slotFor]
  have hcnt : ∀ t, t ≤ 4 → r.CollisionCount B t =
      if t = e.OwnType B then e.CollisionCount B t + 1 else e.CollisionCount B t := by
    intro t ht
    rw [hr, NameInfo.InitCollisionData_count hB _ e k false t ht (by rw [hslot]; exact hk.le)
      (by rw [hslot]; exact hcap), hslot]
  refine ⟨?_, ?_, ?_, ?_⟩
  · intro slot hs
    rw [hcnt slot hs]
    split_ifs <;> omega
  · rw [hcnt _ (by decide), if_neg]
    rcases hk with h | h | h <;> rw [h] <;> decide
  · rw [hcnt _ (by decide), if_neg]
    rcases hk with h | h | h <;> rw [h] <;> decide
  · rw [hcnt _ hk.le, if_pos rfl]
    omega

theorem NameInfo.Precedes.trans {B : BitLayout} {x e r : NameInfo} (hx : x.OwnKindOk B)
    (h1 : x.Precedes B e) (h2 : e.Precedes B r) : x.Precedes B r := by
  refine ⟨fun slot hs => Nat.le_trans (h1.1 slot hs) (h2.1 slot hs), h1.2.1.trans h2.2.1,
    h1.2.2.1.trans h2.2.2.1, ?_⟩
  exact Nat.lt_of_lt_of_le h1.2.2.2 (h2.1 _ hx.le)

theorem ChainRev.suffix {B : BitLayout} : ∀ (before l : List NameInfo),
    ChainRev B (before ++ l) → ChainRev B l := by
  intro before
  induction before with
  | nil => intro l h; exact h
  | cons a before ih => intro l h; exact ih l h.2

/-- In a chained table, most recent record first, the head is preceded by every older record
of its name. -/
theorem ChainRev.head_precedes {B : BitLayout} (hB : B.ok) :
    ∀ (N : Nat) (r : NameInfo) (older : List NameInfo), older.length ≤ N →
      ChainRev B (r :: older) → (∀ x ∈ older, x.OwnKindOk B) → (∀ x ∈ older, x.BelowCapacity B) →
      ∀ x ∈ older, x.Name = r.Name → x.Precedes B r := by
  intro N
  induction N with
  | zero =>
    intro r older hlen _ _ _ x hx
    have : older = [] := List.length_eq_zero.1 (by omega)
    subst this
    cases hx
  | succ N ih =>
    intro r older hlen hchain hkind hcap x hx hname
    obtain ⟨e, he⟩ : ∃ e, older.find? (fun E => decide (E.Name = r.Name)) = some e := by
      cases hf : older.find? (fun E => decide (E.Name = r.Name)) with
      | some e => exact ⟨e, rfl⟩
      | none =>
        rw [List.find?_eq_none] at hf
        exact absurd hname (by simpa using hf x hx)
    have hstep := hchain.1 e he
    obtain ⟨hpe, before, rest, hsplit, hbefore⟩ := List.find?_eq_some.1 he
    have hen : e.Name = r.Name := by simpa using hpe
    have hemem : e ∈ older := by rw [hsplit]; simp
    have her : e.Precedes B r := hstep.precedes hB (hkind e hemem) (hcap e hemem)
    have hxmem : x ∈ before ++ e :: rest := hsplit ▸ hx
    rcases List.mem_append.1 hxmem with hxb | hxe
    · exact absurd hname (by simpa using hbefore x hxb)
    · rcases List.mem_cons.1 hxe with hxe | hxr
      · rw [hxe]; exact her
      · have hrestmem : ∀ y ∈ rest, y ∈ older := by
          intro y hy
          rw [hsplit]
          simp [hy]
        have hlen' : rest.length ≤ N := by
          have := congrArg List.length hsplit
          simp at this
          omega
        have hchain' : ChainRev B (e :: rest) := ChainRev.suffix before (e :: rest)
          (hsplit ▸ hchain.2)
        have hxe' := ih e rest hlen' hchain' (fun y hy => hkind y (hrestmem y hy))
          (fun y hy => hcap y (hrestmem y hy)) x hxr (hname.trans hen.symm)
        exact hxe'.trans (hkind x hx) her

/-- In a chained table below capacity, any record is preceded by every older record of its
name. -/
theorem ChainRev.pairwise_rev {B : BitLayout} (hB : B.ok) : ∀ (l : List NameInfo),
    ChainRev B l → (∀ x ∈ l, x.OwnKindOk B) → (∀ x ∈ l, x.BelowCapacity B) →
    l.Pairwise (fun newer older => older.Name = newer.Name → older.Precedes B newer) := by
  intro l
  induction l with
  | nil => intro _ _ _; exact List.Pairwise.nil
  | cons r older ih =>
    intro hchain hkind hcap
    refine List.Pairwise.cons ?_ (ih hchain.2 (fun x hx => hkind x (List.mem_cons_of_mem _ hx))
      (fun x hx => hcap x (List.mem_cons_of_mem _ hx)))
    intro x hx hname
    exact ChainRev.head_precedes hB older.length r older (Nat.le_refl _) hchain
      (fun y hy => hkind y (List.mem_cons_of_mem _ hy))
      (fun y hy => hcap y (List.mem_cons_of_mem _ hy)) x hx hname

theorem Chain.pairwise {B : BitLayout} (hB : B.ok) {T : NameContainer} (hchain : Chain B T)
    (hkind : ∀ x ∈ T, x.OwnKindOk B) (hcap : ∀ x ∈ T, x.BelowCapacity B) :
    T.Pairwise (fun older newer => older.Name = newer.Name → older.Precedes B newer) := by
  have h := ChainRev.pairwise_rev hB T.reverse hchain (fun x hx => hkind x (List.mem_reverse.1 hx))
    (fun x hx => hcap x (List.mem_reverse.1 hx))
  rw [List.pairwise_reverse] at h
  exact h

theorem Chain.nil (B : BitLayout) : Chain B [] := trivial

theorem Chain.append_singleton {B : BitLayout} {T : NameContainer} {r : NameInfo}
    (hT : Chain B T) (hr : ∀ e, findExisting T r.Name = some e → r.StepFrom B e) :
    Chain B (T ++ [r]) := by
  unfold Chain
  rw [List.reverse_append, List.reverse_singleton, List.singleton_append]
  exact ⟨hr, hT⟩

/-! ## Final names of records of one name and kind -/

theorem letters_Func : 0 < ("Func_" : String).data.countP Char.isAlpha := by decide

theorem letters_Param : 0 < ("Param_" : String).data.countP Char.isAlpha := by decide

/-- Two records of the same name and own kind, one preceding the other, have different
final names. -/
theorem StringifyName_ne_of_precedes (B : BitLayout) (s : CollisionManager) (Struct : UEStruct)
    (x r : NameInfo) (hname : x.Name = r.Name) (hkind : x.OwnType B = r.OwnType B)
    (hx : x.OwnKindOk B) (h : x.Precedes B r) :
    s.StringifyName B Struct x ≠ s.StringifyName B Struct r := by
  obtain ⟨hle, hSM, hSF, hlt⟩ := h
  have hM := hle 0 (by decide)
  have hF := hle 2 (by decide)
  unfold CollisionManager.StringifyName NameInfo.MemberNameCollisionCount
    NameInfo.SuperMemberNameCollisionCount NameInfo.FunctionNameCollisionCount
    NameInfo.SuperFuncNameCollisionCount NameInfo.ParamNameCollisionCount
  rw [← hkind, hname]
  simp only [ECollisionType.toNat] at hSM hSF ⊢
  simp only [hSM, hSF]
  generalize HashStringTable.GetStringEntry s.MemberNames r.Name = raw
  rcases hx with hk | hk | hk
  · simp only [hk, ECollisionType.toNat] at hlt ⊢
    simp only [if_true]
    exact suffix_ne _ _ _ hlt
  · simp only [hk, ECollisionType.toNat] at hlt ⊢
    simp only [show (2 : Nat) ≠ 0 from by decide, if_false, if_true]
    by_cases hfx : x.CollisionCount B 0 > 0 ∨ r.CollisionCount B 1 > 0
    · have hfr : r.CollisionCount B 0 > 0 ∨ r.CollisionCount B 1 > 0 := by omega
      rw [if_pos hfx, if_pos hfr]
      exact suffix_ne _ _ _ hlt
    · by_cases hfr : r.CollisionCount B 0 > 0 ∨ r.CollisionCount B 1 > 0
      · rw [if_neg hfx, if_pos hfr]
        exact lettered_ne "Func_" raw _ _ letters_Func
      · rw [if_neg hfx, if_neg hfr]
        exact suffix_ne _ _ _ hlt
  · simp only [hk, ECollisionType.toNat] at hlt ⊢
    simp only [show (4 : Nat) ≠ 0 from by decide, show (4 : Nat) ≠ 2 from by decide, if_false,
      if_true]
    by_cases hfx : x.CollisionCount B 0 > 0 ∨ r.CollisionCount B 1 > 0
        ∨ x.CollisionCount B 2 > 0 ∨ r.CollisionCount B 3 > 0
    · have hfr : r.CollisionCount B 0 > 0 ∨ r.CollisionCount B 1 > 0
          ∨ r.CollisionCount B 2 > 0 ∨ r.CollisionCount B 3 > 0 := by omega
      rw [if_pos hfx, if_pos hfr]
      exact suffix_ne _ _ _ hlt
    · by_cases hfr : r.CollisionCount B 0 > 0 ∨ r.CollisionCount B 1 > 0
          ∨ r.CollisionCount B 2 > 0 ∨ r.CollisionCount B 3 > 0
      · rw [if_neg hfx, if_pos hfr]
        exact lettered_ne "Param_" raw _ _ letters_Param
      · rw [if_neg hfx, if_neg hfr]
        exact suffix_ne _ _ _ hlt

/-! ## The invariant of the driver -/

/-- The priority search looks into the table it names as target before any other table. -/
theorem prioritySearch_target_first {self : CollisionManager} {SN : Nat} {S : UEStruct}
    {n : Nat} {k : ECollisionType} {chk : Bool} {Func : Option UEFunction} {tgt : Nat}
    {mt : Option (NameInfo × Bool)}
    (h : prioritySearch self SN S n k chk Func = some (tgt, mt)) (e : NameInfo)
    (he : findExisting (self.NameInfos.at tgt) n = some e) : mt = some (e, false) := by
  have hscope : ∀ e', findExisting (self.NameInfos.at SN) n = some e' →
      scopeSearch self.NameInfos self.ReservedNames SN S n chk = some (e', false) := by
    intro e' he'
    simp [scopeSearch, he']
  unfold prioritySearch at h
  cases Func with
  | none =>
    by_cases hk : k = ECollisionType.ParameterName
    · simp [hk] at h
    · simp only [hk, if_false, Option.some.injEq, Prod.mk.injEq] at h
      obtain ⟨h1, h2⟩ := h
      subst h1
      rw [← h2]
      exact hscope e he
  | some F =>
    simp only at h
    cases hf : findExisting (self.NameInfos.at F.Index) n with
    | some e' =>
      simp only [hf, Option.some.injEq, Prod.mk.injEq] at h
      obtain ⟨h1, h2⟩ := h
      subst h1
      rw [hf] at he
      rw [← h2, Option.some.inj he]
    | none =>
      simp only [hf] at h
      cases hr : reservedSearch self.ReservedNames chk n with
      | some e' =>
        simp only [hr, Option.some.injEq, Prod.mk.injEq] at h
        obtain ⟨h1, h2⟩ := h
        subst h1
        rw [hf] at he
        exact absurd he (by simp)
      | none =>
        simp only [hr, Option.some.injEq, Prod.mk.injEq] at h
        obtain ⟨h1, h2⟩ := h
        by_cases hk : k = ECollisionType.ParameterName
        · simp only [hk, if_true] at h1
          subst h1
          rw [hf] at he
          exact absurd he (by simp)
        · simp only [hk, if_false] at h1
          subst h1
          rw [← h2]
          exact hscope e he

theorem FindOrAdd_index_lt (t : List String) (s : String) :
    (HashStringTable.FindOrAdd t s).2.1 < (HashStringTable.FindOrAdd t s).1.length := by
  rw [FindOrAdd_index]
  exact List.indexOf_lt_length.2 (FindOrAdd_mem t s)

theorem FindOrAdd_length_le (t : List String) (s : String) :
    t.length ≤ (HashStringTable.FindOrAdd t s).1.length := by
  obtain ⟨ext, h⟩ := FindOrAdd_extends t s
  rw [h]
  simp

theorem FindOrAdd_inserted {t : List String} {s : String}
    (h : (HashStringTable.FindOrAdd t s).2.2 = true) :
    (HashStringTable.FindOrAdd t s).2.1 = t.length := by
  by_cases hm : s ∈ t
  · rw [FindOrAdd_of_mem hm] at h
    simp at h
  · rw [FindOrAdd_of_not_mem hm]

/-- One call of the lambda for a data member, a function or a parameter keeps the invariant. -/
theorem CollisionManager.Inv.lambda {B : BitLayout} {s s' : CollisionManager}
    {S : UEStruct} {w : String} {key : Nat} {k : ECollisionType} {chk : Bool}
    {Func : Option UEFunction} {tgt : Nat} {r : NameInfo} (hinv : s.Inv B)
    (hk : k = ECollisionType.MemberName ∨ k = ECollisionType.FunctionName
      ∨ k = ECollisionType.ParameterName)
    (h : LambdaStep B s s' S w key k chk Func tgt r) : s'.Inv B := by
  obtain ⟨hpush, hpool, -, -, hname, hown, hins, hold⟩ := h
  obtain ⟨hchain, hvalid, hkind⟩ := hinv
  have hrk : r.OwnKindOk B := by
    unfold NameInfo.OwnKindOk
    rw [hown]
    rcases hk with hk | hk | hk <;> simp [hk]
  have hstep : ∀ e, findExisting (s.NameInfos.at tgt) r.Name = some e → r.StepFrom B e := by
    intro e he
    cases hi : (HashStringTable.FindOrAdd s.MemberNames w).2.2 with
    | true =>
      have h1 := hvalid tgt e (findExisting_mem he)
      have h2 := findExisting_name he
      rw [hname, FindOrAdd_inserted hi] at h2
      omega
    | false =>
      obtain ⟨mt, hps, hr⟩ := hold hi
      rw [hname] at he
      have hmt := prioritySearch_target_first hps e he
      subst hmt
      exact ⟨k, by rw [hr]; rfl⟩
  refine ⟨?_, ?_, ?_⟩
  · intro key'
    rw [hpush key']
    by_cases hkey : key' = tgt
    · rw [if_pos hkey]
      exact (hchain tgt).append_singleton hstep
    · rw [if_neg hkey]
      exact hchain key'
  · intro key' x hx
    rw [hpool]
    rw [hpush key'] at hx
    have hle := FindOrAdd_length_le s.MemberNames w
    by_cases hkey : key' = tgt
    · rw [if_pos hkey] at hx
      rcases List.mem_append.1 hx with hx | hx
      · exact Nat.lt_of_lt_of_le (hvalid tgt x hx) hle
      · rw [List.mem_singleton.1 hx, hname]
        exact FindOrAdd_index_lt _ _
    · rw [if_neg hkey] at hx
      exact Nat.lt_of_lt_of_le (hvalid key' x hx) hle
  · intro key' x hx
    rw [hpush key'] at hx
    by_cases hkey : key' = tgt
    · rw [if_pos hkey] at hx
      rcases List.mem_append.1 hx with hx | hx
      · exact hkind tgt x hx
      · rw [List.mem_singleton.1 hx]
        exact hrk
    · rw [if_neg hkey] at hx
      exact hkind key' x hx

theorem CollisionManager.Inv.touch {B : BitLayout} {s : CollisionManager} (hinv : s.Inv B)
    (k : Nat) : CollisionManager.Inv B
      { NameInfos := s.NameInfos.touch k, TranslationMap := s.TranslationMap,
        MemberNames := s.MemberNames, ReservedNames := s.ReservedNames } := by
  obtain ⟨h1, h2, h3⟩ := hinv
  refine ⟨fun k' => ?_, fun k' => ?_, fun k' => ?_⟩
  · simp only [NameInfoMap.at_touch]; exact h1 k'
  · simp only [NameInfoMap.at_touch]; exact h2 k'
  · simp only [NameInfoMap.at_touch]; exact h3 k'

theorem CollisionManager.Inv.empty (B : BitLayout) : CollisionManager.empty.Inv B := by
  refine ⟨fun k => ?_, fun k r hr => ?_, fun k r hr => ?_⟩
  · exact Chain.nil B
  · cases hr
  · cases hr

theorem CollisionManager.Inv.reserve {B : BitLayout} {s : CollisionManager} (hinv : s.Inv B)
    (w : String) (p : Bool) : (s.AddReservedName B w p).Inv B := by
  obtain ⟨h1, h2, h3⟩ := hinv
  refine ⟨h1, fun k r hr => ?_, h3⟩
  exact Nat.lt_of_lt_of_le (h2 k r hr) (FindOrAdd_length_le s.MemberNames w)

theorem propLoop_inv {B : BitLayout} (hB : B.ok) (S : UEStruct) (chk : Bool) :
    ∀ (props : List UEProperty) (s : CollisionManager), s.Inv B →
      ∃ s', AddStructToNameContainer.propLoop B S chk s props = some s' ∧ s'.Inv B := by
  intro props
  induction props with
  | nil => intro s hs; exact ⟨s, rfl, hs⟩
  | cons p rest ih =>
    intro s hs
    obtain ⟨s1, tgt, r, h1, h2⟩ := lambda_spec B hB s S p.ValidName
      (KeyFunctions.GetKeyForCollisionInfoProperty S p) ECollisionType.MemberName chk none
      (by simp)
    obtain ⟨s', h3, h4⟩ := ih s1 (hs.lambda (Or.inl rfl) h2)
    exact ⟨s', by simp only [AddStructToNameContainer.propLoop, h1, h3], h4⟩

theorem paramLoop_inv {B : BitLayout} (hB : B.ok) (S : UEStruct) (chk : Bool) (F : UEFunction) :
    ∀ (props : List UEProperty) (s : CollisionManager), s.Inv B →
      ∃ s', AddStructToNameContainer.paramLoop B S chk F s props = some s' ∧ s'.Inv B := by
  intro props
  induction props with
  | nil => intro s hs; exact ⟨s, rfl, hs⟩
  | cons p rest ih =>
    intro s hs
    obtain ⟨s1, tgt, r, h1, h2⟩ := lambda_spec B hB s S p.ValidName
      (KeyFunctions.GetKeyForCollisionInfoProperty S p) ECollisionType.ParameterName chk
      (some F) (by simp)
    obtain ⟨s', h3, h4⟩ := ih s1 (hs.lambda (Or.inr (Or.inr rfl)) h2)
    exact ⟨s', by simp only [AddStructToNameContainer.paramLoop, h1, h3], h4⟩

theorem funcLoop_inv {B : BitLayout} (hB : B.ok) (S : UEStruct) (chk : Bool) :
    ∀ (funcs : List UEFunction) (s : CollisionManager), s.Inv B →
      ∃ s', AddStructToNameContainer.funcLoop B S chk s funcs = some s' ∧ s'.Inv B := by
  intro funcs
  induction funcs with
  | nil => intro s hs; exact ⟨s, rfl, hs⟩
  | cons F rest ih =>
    intro s hs
    obtain ⟨s1, tgt, r, h1, h2⟩ := lambda_spec B hB s S F.ValidName
      (KeyFunctions.GetKeyForCollisionInfoFunction S F) ECollisionType.FunctionName chk none
      (by simp)
    obtain ⟨s2, h3, h4⟩ := paramLoop_inv hB S chk F F.Properties s1
      (hs.lambda (Or.inr (Or.inl rfl)) h2)
    obtain ⟨s', h5, h6⟩ := ih s2 h4
    exact ⟨s', by simp only [AddStructToNameContainer.funcLoop, h1, h3, h5], h6⟩

theorem build_inv {B : BitLayout} (hB : B.ok) (S : UEStruct) (chk : Bool) (s : CollisionManager)
    (hs : s.Inv B) : ∃ s', AddStructToNameContainer.build B s S chk = some s' ∧ s'.Inv B := by
  unfold AddStructToNameContainer.build
  simp only
  by_cases hempty : ((s.NameInfos.touch S.GetIndex).at S.GetIndex).isEmpty = true
  · rw [if_pos hempty]
    obtain ⟨s1, h1, h2⟩ := propLoop_inv hB S chk S.GetProperties _ (hs.touch S.GetIndex)
    obtain ⟨s', h3, h4⟩ := funcLoop_inv hB S chk S.GetFunctions s1 h2
    exact ⟨s', by simp only [h1, h3], h4⟩
  · rw [if_neg hempty]
    exact ⟨_, rfl, hs.touch S.GetIndex⟩

/-- The per-type driver returns, and keeps the invariant. -/
theorem AddStructToNameContainer_inv {B : BitLayout} (hB : B.ok) (chk : Bool) :
    ∀ (S : UEStruct) (s : CollisionManager), s.Inv B →
      ∃ s', s.AddStructToNameContainer B S chk = some s' ∧ s'.Inv B := by
  intro S
  induction S with
  | root d =>
    intro s hs
    exact build_inv hB (.root d) chk s hs
  | derived d Super ih =>
    intro s hs
    unfold CollisionManager.AddStructToNameContainer
    by_cases hnone : (s.NameInfos Super.GetIndex).isNone = true
    · rw [if_pos hnone]
      obtain ⟨s1, h1, h2⟩ := ih s hs
      obtain ⟨s', h3, h4⟩ := build_inv hB (.derived d Super) chk s1 h2
      exact ⟨s', by simp only [h1, h3], h4⟩
    · rw [if_neg hnone]
      exact build_inv hB (.derived d Super) chk s hs

theorem Reachable.inv {B : BitLayout} (hB : B.ok) {s : CollisionManager} (h : Reachable B s) :
    s.Inv B := by
  induction h with
  | empty => exact CollisionManager.Inv.empty B
  | reserve s w p _ ih => exact ih.reserve w p
  | build s s' S chk _ hb ih =>
    obtain ⟨s'', h1, h2⟩ := AddStructToNameContainer_inv hB chk S s ih
    rw [hb] at h1
    rw [Option.some.inj h1]
    exact h2

/-! ## Claims about the tables the driver builds -/

/-- C1 (as stated, refuted): the driver builds `Clash`, whose data members are `A`, `A` and
`A_0`, with reserved names checked.  The second `A` is renamed `A_0`, the final name of the
third member: two distinct symbols of the table have the same final name. -/
theorem C1_generated_suffix_collides :
    ((CollisionManager.empty.AddStructToNameContainer B0 exClash true).map
        (fun s => (s.NameInfos.at 8).map (fun r => s.StringifyName B0 exClash r)))
      = some ["A", "A_0", "A_0"] := by
  decide

/-- C1 (amended): in every manager reachable by `AddReservedName` and the per-type driver
(with or without reserved-word checking), two distinct records of one table that have the
same raw name and the same own kind (two data members or two functions of one type, two
parameters of one function) have different final names, whatever the owning type, as long as
no record of the table has the counter of its own kind at capacity. -/
theorem C1_same_name_same_kind_distinct (B : BitLayout) (hB : B.ok) (s : CollisionManager)
    (hs : Reachable B s) (k : Nat) (Struct : UEStruct)
    (hcap : ∀ r ∈ s.NameInfos.at k, r.BelowCapacity B)
    (i j : Nat) (x y : NameInfo) (hij : i < j)
    (hx : (s.NameInfos.at k)[i]? = some x) (hy : (s.NameInfos.at k)[j]? = some y)
    (hname : x.Name = y.Name) (hkind : x.OwnType B = y.OwnType B) :
    s.StringifyName B Struct x ≠ s.StringifyName B Struct y := by
  obtain ⟨hchain, -, hkinds⟩ := hs.inv hB
  have hpw := (hchain k).pairwise hB (hkinds k) hcap
  rw [List.pairwise_iff_getElem] at hpw
  obtain ⟨hi, hxi⟩ := List.getElem?_eq_some.1 hx
  obtain ⟨hj, hyj⟩ := List.getElem?_eq_some.1 hy
  have hprec := hpw i j hi hj hij (by rw [hxi, hyj]; exact hname)
  rw [hxi, hyj] at hprec
  exact StringifyName_ne_of_precedes B s Struct x y hname hkind
    (hkinds k x (hxi ▸ List.getElem_mem hi)) hprec

/-- C1 (amended), at a concrete table: the two members `A` of `Clash`. -/
theorem C1_same_name_same_kind_distinct_witness :
    exAfterClash.StringifyName B0 exClash (NameInfo.mk 0 0)
      ≠ exAfterClash.StringifyName B0 exClash (NameInfo.mk 0 128) :=
  C1_same_name_same_kind_distinct B0 (by decide) exAfterClash
    (Reachable.build CollisionManager.empty exAfterClash exClash true Reachable.empty (by rfl))
    8 exClash (by decide) 0 1 (NameInfo.mk 0 0) (NameInfo.mk 0 128) (by decide) (by decide)
    (by decide) (by decide) (by decide)

/-! ## Sequences of registrations in one scope -/

/-- A data member or function registered without function scope goes to the table of the
struct. -/
theorem lambda_spec_type (B : BitLayout) (hB : B.ok) (self : CollisionManager) (S : UEStruct)
    (w : String) (key : Nat) (k : ECollisionType) (chk : Bool)
    (hk : k ≠ ECollisionType.ParameterName) :
    ∃ self' r, AddToContainerAndTranslationMap B self S w key k chk none = some self'
      ∧ LambdaStep B self self' S w key k chk none S.GetIndex r := by
  obtain ⟨self', tgt, r, h1, h2⟩ := lambda_spec B hB self S w key k chk none
    (fun h => absurd h hk)
  have htgt : tgt = S.GetIndex := by
    obtain ⟨-, -, -, -, -, -, hins, hold⟩ := h2
    cases hi : (HashStringTable.FindOrAdd self.MemberNames w).2.2 with
    | true =>
      have := (hins hi).2
      simp only [hk, if_false, Option.some.injEq] at this
      exact this.symm
    | false =>
      obtain ⟨mt, hps, -⟩ := hold hi
      simp only [prioritySearch, hk, if_false, Option.some.injEq, Prod.mk.injEq] at hps
      exact hps.1.symm
  subst htgt
  exact ⟨self', r, h1, h2⟩

/-- A parameter goes to the table of its function. -/
theorem lambda_spec_param (B : BitLayout) (hB : B.ok) (self : CollisionManager) (S : UEStruct)
    (w : String) (key : Nat) (chk : Bool) (F : UEFunction) :
    ∃ self' r, AddToContainerAndTranslationMap B self S w key ECollisionType.ParameterName chk
        (some F) = some self'
      ∧ LambdaStep B self self' S w key ECollisionType.ParameterName chk (some F) F.Index r := by
  obtain ⟨self', tgt, r, h1, h2⟩ := lambda_spec B hB self S w key
    ECollisionType.ParameterName chk (some F) (by simp)
  have htgt : tgt = F.Index := by
    obtain ⟨-, -, -, -, -, -, hins, hold⟩ := h2
    cases hi : (HashStringTable.FindOrAdd self.MemberNames w).2.2 with
    | true =>
      have := (hins hi).2
      simp only [if_true, Option.map_some', Option.some.injEq] at this
      exact this.symm
    | false =>
      obtain ⟨mt, hps, -⟩ := hold hi
      unfold prioritySearch at hps
      simp only at hps
      cases hf : findExisting (self.NameInfos.at F.Index)
          (HashStringTable.FindOrAdd self.MemberNames w).2.1 with
      | some e =>
        simp only [hf, Option.some.injEq, Prod.mk.injEq] at hps
        exact hps.1.symm
      | none =>
        simp only [hf] at hps
        cases hr : reservedSearch self.ReservedNames chk
            (HashStringTable.FindOrAdd self.MemberNames w).2.1 with
        | some e =>
          simp only [hr, Option.some.injEq, Prod.mk.injEq] at hps
          exact hps.1.symm
        | none =>
          simp only [hr, if_true, Option.some.injEq, Prod.mk.injEq] at hps
          exact hps.1.symm
  subst htgt
  exact ⟨self', r, h1, h2⟩

/-- A registration of another name leaves the name `w` interned at its identity, and leaves
the most recent record of that identity in every table. -/
theorem LambdaStep.other_name {B : BitLayout} {s s' : CollisionManager} {S : UEStruct}
    {w' : String} {key : Nat} {k : ECollisionType} {chk : Bool} {Func : Option UEFunction}
    {tgt : Nat} {r : NameInfo} (h : LambdaStep B s s' S w' key k chk Func tgt r)
    {w : String} (hw : w ∈ s.MemberNames) (hne : w' ≠ w) :
    w ∈ s'.MemberNames ∧ s'.MemberNames.indexOf w = s.MemberNames.indexOf w
      ∧ ∀ key', findExisting (s'.NameInfos.at key') (s.MemberNames.indexOf w)
          = findExisting (s.NameInfos.at key') (s.MemberNames.indexOf w) := by
  obtain ⟨hpush, hpool, -, -, hname, -, -, -⟩ := h
  obtain ⟨ext, hext⟩ := FindOrAdd_extends s.MemberNames w'
  have hw' : w ∈ s'.MemberNames := by
    rw [hpool, hext]
    exact List.mem_append_left _ hw
  have hidx : s'.MemberNames.indexOf w = s.MemberNames.indexOf w := by
    rw [hpool, hext]
    exact List.indexOf_append_of_mem hw
  refine ⟨hw', hidx, fun key' => ?_⟩
  rw [hpush key']
  by_cases hkey : key' = tgt
  · rw [if_pos hkey, findExisting_append_singleton, if_neg, hkey]
    intro hr
    rw [hname, FindOrAdd_index, ← hpool, ← hidx] at hr
    exact hne (indexOf_inj_of_mem (by rw [hpool]; exact FindOrAdd_mem _ _) hw' hr)
  · rw [if_neg hkey]

/-- A registration of an interned name whose most recent record in the table of the struct
is `e`, made without function scope: the new record is made from `e` by a direct match and
becomes the most recent record of the name. -/
theorem lambda_same_name (B : BitLayout) (hB : B.ok) (s : CollisionManager) (S : UEStruct)
    (w : String) (key : Nat) (k : ECollisionType) (chk : Bool) (e : NameInfo)
    (hk : k ≠ ECollisionType.ParameterName) (hw : w ∈ s.MemberNames)
    (he : findExisting (s.NameInfos.at S.GetIndex) (s.MemberNames.indexOf w) = some e) :
    ∃ s', AddToContainerAndTranslationMap B s S w key k chk none = some s'
      ∧ s'.MemberNames = s.MemberNames
      ∧ s.NameInfos.PushedAt s'.NameInfos S.GetIndex
          ((NameInfo.new B (s.MemberNames.indexOf w) k).InitCollisionData B e k false) := by
  obtain ⟨s', r, h1, hpush, hpool, -, -, hname, -, -, hold⟩ :=
    lambda_spec_type B hB s S w key k chk hk
  rw [FindOrAdd_of_mem hw] at hpool hname hold
  simp only at hpool hname hold
  obtain ⟨mt, hps, hr⟩ := hold trivial
  have hmt := prioritySearch_target_first hps e he
  subst hmt
  refine ⟨s', h1, hpool, ?_⟩
  rw [hr] at hpush
  exact hpush

theorem registerAll_cons (B : BitLayout) (S : UEStruct) (s : CollisionManager)
    (op : Registration) (rest : List Registration) :
    registerAll B S s (op :: rest) =
      match AddToContainerAndTranslationMap B s S op.ValidName op.Key op.CollisionType
          op.chk op.Func with
      | none => none
      | some s1 => registerAll B S s1 rest := rfl

/-- Registrations of other names leave the name `w` interned at its identity, and leave the
most recent record of that identity in every table. -/
theorem registerAll_other_names (B : BitLayout) (hB : B.ok) (S : UEStruct) (w : String) :
    ∀ (ops : List Registration) (s : CollisionManager), w ∈ s.MemberNames →
      (∀ op ∈ ops, op.ValidName ≠ w
        ∧ (op.CollisionType = ECollisionType.ParameterName → op.Func ≠ none)) →
      ∃ s', registerAll B S s ops = some s' ∧ w ∈ s'.MemberNames
        ∧ s'.MemberNames.indexOf w = s.MemberNames.indexOf w
        ∧ ∀ key', findExisting (s'.NameInfos.at key') (s.MemberNames.indexOf w)
            = findExisting (s.NameInfos.at key') (s.MemberNames.indexOf w) := by
  intro ops
  induction ops with
  | nil => intro s hw _; exact ⟨s, rfl, hw, rfl, fun _ => rfl⟩
  | cons op rest ih =>
    intro s hw hops
    obtain ⟨hne, hF⟩ := hops op (List.mem_cons_self _ _)
    obtain ⟨s1, tgt, r, h1, h2⟩ := lambda_spec B hB s S op.ValidName op.Key op.CollisionType
      op.chk op.Func hF
    obtain ⟨hw1, hidx1, hfind1⟩ := h2.other_name hw hne
    obtain ⟨s', h3, hw', hidx', hfind'⟩ := ih s1 hw1
      (fun op' hop' => hops op' (List.mem_cons_of_mem _ hop'))
    refine ⟨s', by rw [registerAll_cons, h1]; exact h3, hw', hidx'.trans hidx1, fun key' => ?_⟩
    rw [← hidx1, hfind', hidx1, hfind1]

/-- C6 (as stated, refuted): `Pair` declares the data member `Value` twice and `Triple`,
which extends `Pair`, declares it three times.  The first record of `Triple` copies the
`MemberName` count 1 of the matched record of `Pair`, so the `MemberName` counts of the three
records of `Triple` are 1, 2 and 3: the second registration has 2, not 1, and the third has
3, not 2. -/
theorem C6_counts_start_above_zero :
    ((CollisionManager.empty.AddStructToNameContainer B0 exTriple true).map
        (fun s => (s.NameInfos.at 11).map (fun r => r.MemberNameCollisionCount B0)))
      = some [1, 2, 3] := by
  decide

theorem member_step_count {B : BitLayout} (hB : B.ok) (n : Nat) (e : NameInfo)
    (hk : e.OwnType B = ECollisionType.MemberName.toNat)
    (hcap : e.MemberNameCollisionCount B < B.maxCount) (k : ECollisionType) :
    ((NameInfo.new B n k).InitCollisionData B e k false).MemberNameCollisionCount B
      = e.MemberNameCollisionCount B + 1 := by
  have hslot : e.slotFor B false = ECollisionType.MemberName.toNat := by
    simp [NameInfo.slotFor, hk]
  unfold NameInfo.MemberNameCollisionCount at hcap ⊢
  rw [NameInfo.InitCollisionData_count hB _ e k false _ (by decide) (by rw [hslot]; decide)
    (by rw [hslot]; exact hcap), hslot, if_pos rfl]

/-- C6 (amended): a raw name is registered three times as a data member in one type scope,
with registrations of other names in between, from any manager.  The three registrations
return and append one record each to the table of the type.  As long as the capacity of the
counter is not exceeded, the `MemberName` count of the second record is one more than that of
the first and the count of the third is two more; the count of the first is zero, so that
the counts are 0, 1 and 2, when the first registration interned the name or found no match. -/
theorem C6_repeated_member_counts (B : BitLayout) (hB : B.ok) (s0 : CollisionManager)
    (Struct : UEStruct) (w : String) (key1 key2 key3 : Nat) (chk1 chk2 chk3 : Bool)
    (ops1 ops2 : List Registration)
    (hops1 : ∀ op ∈ ops1, op.ValidName ≠ w
      ∧ (op.CollisionType = ECollisionType.ParameterName → op.Func ≠ none))
    (hops2 : ∀ op ∈ ops2, op.ValidName ≠ w
      ∧ (op.CollisionType = ECollisionType.ParameterName → op.Func ≠ none)) :
    ∃ s1 s1' s2 s2' s3 r1 r2 r3,
      AddToContainerAndTranslationMap B s0 Struct w key1 ECollisionType.MemberName chk1 none
        = some s1
      ∧ registerAll B Struct s1 ops1 = some s1'
      ∧ AddToContainerAndTranslationMap B s1' Struct w key2 ECollisionType.MemberName chk2 none
        = some s2
      ∧ registerAll B Struct s2 ops2 = some s2'
      ∧ AddToContainerAndTranslationMap B s2' Struct w key3 ECollisionType.MemberName chk3 none
        = some s3
      ∧ s1.NameInfos.at Struct.GetIndex = s0.NameInfos.at Struct.GetIndex ++ [r1]
      ∧ s2.NameInfos.at Struct.GetIndex = s1'.NameInfos.at Struct.GetIndex ++ [r2]
      ∧ s3.NameInfos.at Struct.GetIndex = s2'.NameInfos.at Struct.GetIndex ++ [r3]
      ∧ (r1.MemberNameCollisionCount B + 2 ≤ B.maxCount →
          r2.MemberNameCollisionCount B = r1.MemberNameCollisionCount B + 1
          ∧ r3.MemberNameCollisionCount B = r1.MemberNameCollisionCount B + 2)
      ∧ ((HashStringTable.FindOrAdd s0.MemberNames w).2.2 = true
          ∨ scopeSearch s0.NameInfos s0.ReservedNames Struct.GetIndex Struct
              (HashStringTable.FindOrAdd s0.MemberNames w).2.1 chk1 = none →
          r1.MemberNameCollisionCount B = 0) := by
  have hkM : ECollisionType.MemberName ≠ ECollisionType.ParameterName := by decide
  -- the first registration
  obtain ⟨s1, r1, h1, hpush1, hpool1, -, -, hname1, hown1, hins1, hold1⟩ :=
    lambda_spec_type B hB s0 Struct w key1 ECollisionType.MemberName chk1 hkM
  have hw1 : w ∈ s1.MemberNames := by rw [hpool1]; exact FindOrAdd_mem _ _
  have hidx1 : r1.Name = s1.MemberNames.indexOf w := by
    rw [hname1, hpool1]; exact FindOrAdd_index _ _
  have hfind1 : findExisting (s1.NameInfos.at Struct.GetIndex) (s1.MemberNames.indexOf w)
      = some r1 := by
    rw [hpush1.at_tgt, findExisting_append_singleton, if_pos hidx1]
  -- other names
  obtain ⟨s1', g1, hw1', hidx1', hsame1⟩ := registerAll_other_names B hB Struct w ops1 s1 hw1
    hops1
  have hfind1' : findExisting (s1'.NameInfos.at Struct.GetIndex) (s1'.MemberNames.indexOf w)
      = some r1 := by
    rw [hidx1', hsame1, hfind1]
  -- the second registration
  obtain ⟨s2, h2, hpool2, hpush2⟩ := lambda_same_name B hB s1' Struct w key2
    ECollisionType.MemberName chk2 r1 hkM hw1' hfind1'
  have hw2 : w ∈ s2.MemberNames := by rw [hpool2]; exact hw1'
  have hfind2 : findExisting (s2.NameInfos.at Struct.GetIndex) (s2.MemberNames.indexOf w)
      = some ((NameInfo.new B (s1'.MemberNames.indexOf w)
          ECollisionType.MemberName).InitCollisionData B r1 ECollisionType.MemberName false) := by
    rw [hpush2.at_tgt, findExisting_append_singleton, if_pos (by rw [hpool2]; rfl)]
  -- other names
  obtain ⟨s2', g2, hw2', hidx2', hsame2⟩ := registerAll_other_names B hB Struct w ops2 s2 hw2
    hops2
  have hfind2' : findExisting (s2'.NameInfos.at Struct.GetIndex) (s2'.MemberNames.indexOf w)
      = some ((NameInfo.new B (s1'.MemberNames.indexOf w)
          ECollisionType.MemberName).InitCollisionData B r1 ECollisionType.MemberName false) := by
    rw [hidx2', hsame2, hfind2]
  -- the third registration
  obtain ⟨s3, h3, hpool3, hpush3⟩ := lambda_same_name B hB s2' Struct w key3
    ECollisionType.MemberName chk3 _ hkM hw2' hfind2'
  refine ⟨s1, s1', s2, s2', s3, r1, _, _, h1, g1, h2, g2, h3, hpush1.at_tgt, hpush2.at_tgt,
    hpush3.at_tgt, ?_, ?_⟩
  · intro hcap
    have hc2 := member_step_count hB (s1'.MemberNames.indexOf w) r1 hown1 (by omega)
      ECollisionType.MemberName
    have hc3 := member_step_count hB (s2'.MemberNames.indexOf w)
      ((NameInfo.new B (s1'.MemberNames.indexOf w)
        ECollisionType.MemberName).InitCollisionData B r1 ECollisionType.MemberName false)
      (NameInfo.InitCollisionData_OwnType hB _ _ _ _) (by omega) ECollisionType.MemberName
    exact ⟨hc2, by rw [hc3, hc2]⟩
  · intro hnone
    have hr1 : r1 = NameInfo.new B (HashStringTable.FindOrAdd s0.MemberNames w).2.1
        ECollisionType.MemberName := by
      cases hi : (HashStringTable.FindOrAdd s0.MemberNames w).2.2 with
      | true => exact (hins1 hi).1
      | false =>
        obtain ⟨mt, hps, hr⟩ := hold1 hi
        rcases hnone with hn | hn
        · rw [hi] at hn; exact absurd hn (by simp)
        · simp only [prioritySearch, hkM, if_false, hn, Option.some.injEq,
            Prod.mk.injEq, true_and] at hps
          rw [hr, ← hps]
          rfl
    rw [hr1]
    exact NameInfo.new_CollisionCount B _ _ _

/-- C6 (amended), at concrete registrations: `Value` three times in `Pair` from the empty
manager, with the member `Other` registered after the first. -/
theorem C6_repeated_member_counts_witness :
    ∃ s1 s1' s2 s2' s3 r1 r2 r3,
      AddToContainerAndTranslationMap B0 CollisionManager.empty exPair "Value" 1001
        ECollisionType.MemberName true none = some s1
      ∧ registerAll B0 exPair s1
          [{ ValidName := "Other", Key := 1009, CollisionType := ECollisionType.MemberName,
             chk := true, Func := none }] = some s1'
      ∧ AddToContainerAndTranslationMap B0 s1' exPair "Value" 1002
        ECollisionType.MemberName true none = some s2
      ∧ registerAll B0 exPair s2 [] = some s2'
      ∧ AddToContainerAndTranslationMap B0 s2' exPair "Value" 1003
        ECollisionType.MemberName true none = some s3
      ∧ s1.NameInfos.at exPair.GetIndex = CollisionManager.empty.NameInfos.at exPair.GetIndex ++ [r1]
      ∧ s2.NameInfos.at exPair.GetIndex = s1'.NameInfos.at exPair.GetIndex ++ [r2]
      ∧ s3.NameInfos.at exPair.GetIndex = s2'.NameInfos.at exPair.GetIndex ++ [r3]
      ∧ (r1.MemberNameCollisionCount B0 + 2 ≤ B0.maxCount →
          r2.MemberNameCollisionCount B0 = r1.MemberNameCollisionCount B0 + 1
          ∧ r3.MemberNameCollisionCount B0 = r1.MemberNameCollisionCount B0 + 2)
      ∧ ((HashStringTable.FindOrAdd CollisionManager.empty.MemberNames "Value").2.2 = true
          ∨ scopeSearch CollisionManager.empty.NameInfos CollisionManager.empty.ReservedNames
              exPair.GetIndex exPair
              (HashStringTable.FindOrAdd CollisionManager.empty.MemberNames "Value").2.1 true
              = none →
          r1.MemberNameCollisionCount B0 = 0) :=
  C6_repeated_member_counts B0 (by decide) CollisionManager.empty exPair "Value" 1001 1002 1003
    true true true
    [{ ValidName := "Other", Key := 1009, CollisionType := ECollisionType.MemberName,
       chk := true, Func := none }] [] (by decide) (by decide)

theorem Registration.ofDriver.func_ok {S : UEStruct} {op : Registration} (h : op.ofDriver S) :
    op.CollisionType = ECollisionType.ParameterName → op.Func ≠ none := by
  intro hk
  rcases h with ⟨_, h | h⟩ | ⟨_, F, hF, _⟩
  · rw [h] at hk; exact absurd hk (by decide)
  · rw [h] at hk; exact absurd hk (by decide)
  · rw [hF]; simp

theorem LambdaStep.mem_mono {B : BitLayout} {s s' : CollisionManager} {S : UEStruct}
    {w : String} {key : Nat} {k : ECollisionType} {chk : Bool} {Func : Option UEFunction}
    {tgt : Nat} {r : NameInfo} (h : LambdaStep B s s' S w key k chk Func tgt r)
    (key' : Nat) (x : NameInfo) (hx : x ∈ s.NameInfos.at key') : x ∈ s'.NameInfos.at key' := by
  rw [h.1 key']
  by_cases hk : key' = tgt
  · rw [if_pos hk, ← hk]; exact List.mem_append_left _ hx
  · rw [if_neg hk]; exact hx

theorem registerAll_mem_mono (B : BitLayout) (hB : B.ok) (S : UEStruct) :
    ∀ (ops : List Registration) (s s' : CollisionManager), (∀ op ∈ ops, op.ofDriver S) →
      registerAll B S s ops = some s' →
      ∀ key' x, x ∈ s.NameInfos.at key' → x ∈ s'.NameInfos.at key' := by
  intro ops
  induction ops with
  | nil =>
    intro s s' _ h key' x hx
    rw [← Option.some.inj h]; exact hx
  | cons op rest ih =>
    intro s s' hops h key' x hx
    obtain ⟨s1, tgt, r, h1, h2⟩ := lambda_spec B hB s S op.ValidName op.Key op.CollisionType
      op.chk op.Func (hops op (List.mem_cons_self _ _)).func_ok
    rw [registerAll_cons, h1] at h
    exact ih s1 s' (fun op' hop' => hops op' (List.mem_cons_of_mem _ hop')) h key' x
      (h2.mem_mono key' x hx)

theorem registerAll_total (B : BitLayout) (hB : B.ok) (S : UEStruct) :
    ∀ (ops : List Registration) (s : CollisionManager), (∀ op ∈ ops, op.ofDriver S) →
      ∃ s', registerAll B S s ops = some s' := by
  intro ops
  induction ops with
  | nil => intro s _; exact ⟨s, rfl⟩
  | cons op rest ih =>
    intro s hops
    obtain ⟨s1, tgt, r, h1, -⟩ := lambda_spec B hB s S op.ValidName op.Key op.CollisionType
      op.chk op.Func (hops op (List.mem_cons_self _ _)).func_ok
    obtain ⟨s', h2⟩ := ih s1 (fun op' hop' => hops op' (List.mem_cons_of_mem _ hop'))
    exact ⟨s', by rw [registerAll_cons, h1]; exact h2⟩

/-- The record made from a record that has seen a data member, for a data member or a
function, has seen a data member. -/
theorem NameInfo.MemberSeen.step {B : BitLayout} (hB : B.ok) {e : NameInfo} (he : e.MemberSeen B)
    (hcap : e.MemberNameCollisionCount B < B.maxCount) (n : Nat) (k : ECollisionType)
    (hk : k = ECollisionType.MemberName ∨ k = ECollisionType.FunctionName) :
    ((NameInfo.new B n k).InitCollisionData B e k false).MemberSeen B
    ∧ (k = ECollisionType.FunctionName →
        1 ≤ ((NameInfo.new B n k).InitCollisionData B e k false).MemberNameCollisionCount B) := by
  have hOT := NameInfo.InitCollisionData_OwnType hB (NameInfo.new B n k) e k false
  have hM : k = ECollisionType.FunctionName →
      1 ≤ ((NameInfo.new B n k).InitCollisionData B e k false).MemberNameCollisionCount B := by
    intro _
    rcases he with he | ⟨he, hm⟩
    · rw [member_step_count hB n e he hcap k]
      omega
    · have hslot : e.slotFor B false = ECollisionType.FunctionName.toNat := by
        simp [NameInfo.slotFor, he]
      unfold NameInfo.MemberNameCollisionCount at hm ⊢
      rw [NameInfo.InitCollisionData_count_below hB _ e k false _ (by decide)
        (by rw [hslot]; decide)]
      exact hm
  refine ⟨?_, hM⟩
  rcases hk with hk | hk
  · exact Or.inl (by rw [hOT, hk])
  · exact Or.inr ⟨by rw [hOT, hk], hM hk⟩

/-- One registration of the driver keeps `MemberRegistered`, when the `MemberName` counters
of the table of the struct are below capacity. -/
theorem MemberRegistered.after_lambda {B : BitLayout} (hB : B.ok) {s s1 : CollisionManager}
    {S : UEStruct} {w : String} {idx : Nat} (hQ : MemberRegistered B s S w idx)
    (op : Registration) (hop : op.ofDriver S)
    (hcap : ∀ x ∈ s.NameInfos.at S.GetIndex, x.MemberNameCollisionCount B < B.maxCount)
    (h : AddToContainerAndTranslationMap B s S op.ValidName op.Key op.CollisionType op.chk
      op.Func = some s1) : MemberRegistered B s1 S w idx := by
  obtain ⟨hw, hidx, e, he, hseen⟩ := hQ
  by_cases hname : op.ValidName = w
  · rcases hop with ⟨hFn, hk⟩ | ⟨hk, F, hF, hFne⟩
    · have hkP : op.CollisionType ≠ ECollisionType.ParameterName := by
        rcases hk with hk | hk <;> rw [hk] <;> decide
      obtain ⟨s', h1, hpool, hpush⟩ := lambda_same_name B hB s S w op.Key op.CollisionType
        op.chk e hkP hw (by rw [hidx]; exact he)
      rw [hname, hFn, h1] at h
      have hs : s' = s1 := Option.some.inj h
      subst hs
      refine ⟨by rw [hpool]; exact hw, by rw [hpool]; exact hidx,
        (NameInfo.new B (s.MemberNames.indexOf w) op.CollisionType).InitCollisionData B e
          op.CollisionType false, ?_,
        (hseen.step hB (hcap e (findExisting_mem he)) (s.MemberNames.indexOf w)
          op.CollisionType hk).1⟩
      rw [hpush.at_tgt, findExisting_append_singleton, if_pos (by rw [← hidx]; rfl)]
    · obtain ⟨s', r, h1, hpush, hpool, -⟩ := lambda_spec_param B hB s S op.ValidName op.Key
        op.chk F
      rw [hk, hF, h1] at h
      have hs : s' = s1 := Option.some.inj h
      subst hs
      rw [hname, FindOrAdd_of_mem hw] at hpool
      refine ⟨by rw [hpool]; exact hw, by rw [hpool]; exact hidx, e, ?_, hseen⟩
      rw [hpush.at_ne (Ne.symm hFne)]
      exact he
  · obtain ⟨s', tgt, r, h1, h2⟩ := lambda_spec B hB s S op.ValidName op.Key op.CollisionType
      op.chk op.Func hop.func_ok
    rw [h1] at h
    have hs : s' = s1 := Option.some.inj h
    subst hs
    obtain ⟨hw', hidx', hfind⟩ := h2.other_name hw hname
    refine ⟨hw', hidx'.trans hidx, e, ?_, hseen⟩
    rw [← hidx, hfind, hidx]
    exact he

theorem MemberRegistered.registerAll {B : BitLayout} (hB : B.ok) (S : UEStruct) (w : String)
    (idx : Nat) : ∀ (ops : List Registration) (s s' : CollisionManager),
      (∀ op ∈ ops, op.ofDriver S) → Dumper.registerAll B S s ops = some s' →
      MemberRegistered B s S w idx →
      (∀ x ∈ s'.NameInfos.at S.GetIndex, x.MemberNameCollisionCount B < B.maxCount) →
      MemberRegistered B s' S w idx := by
  intro ops
  induction ops with
  | nil =>
    intro s s' _ h hQ _
    rw [← Option.some.inj h]; exact hQ
  | cons op rest ih =>
    intro s s' hops h hQ hcap
    have hrest : ∀ op' ∈ rest, op'.ofDriver S :=
      fun op' hop' => hops op' (List.mem_cons_of_mem _ hop')
    obtain ⟨s1, tgt, r, h1, h2⟩ := lambda_spec B hB s S op.ValidName op.Key op.CollisionType
      op.chk op.Func (hops op (List.mem_cons_self _ _)).func_ok
    rw [registerAll_cons, h1] at h
    have hcap0 : ∀ x ∈ s.NameInfos.at S.GetIndex, x.MemberNameCollisionCount B < B.maxCount :=
      fun x hx => hcap x (registerAll_mem_mono B hB S rest s1 s' hrest h _ x
        (h2.mem_mono _ x hx))
    exact ih s1 s' hrest h (hQ.after_lambda hB op (hops op (List.mem_cons_self _ _)) hcap0 h1) hcap

/-- C7: a data member named `w` is registered in a type scope, from any manager; then the
driver makes any registrations for that scope; then `w` is registered as a function in the
same scope.  All registrations return.  When no record of the table of the type has its
`MemberName` counter at capacity, the record of the function has own kind `FunctionName`, a
`MemberName` count of at least 1, and a stringified name that begins with `Func_`. -/
theorem C7_function_named_like_member (B : BitLayout) (hB : B.ok) (s0 : CollisionManager)
    (Struct : UEStruct) (w : String) (keyM keyF : Nat) (chkM chkF : Bool)
    (ops : List Registration) (hops : ∀ op ∈ ops, op.ofDriver Struct) :
    ∃ s1 s2,
      AddToContainerAndTranslationMap B s0 Struct w keyM ECollisionType.MemberName chkM none
        = some s1
      ∧ registerAll B Struct s1 ops = some s2
      ∧ ((∀ x ∈ s2.NameInfos.at Struct.GetIndex, x.MemberNameCollisionCount B < B.maxCount) →
          ∃ s3 r,
            AddToContainerAndTranslationMap B s2 Struct w keyF ECollisionType.FunctionName chkF
              none = some s3
            ∧ s3.NameInfos.at Struct.GetIndex = s2.NameInfos.at Struct.GetIndex ++ [r]
            ∧ r.OwnType B = ECollisionType.FunctionName.toNat
            ∧ 1 ≤ r.MemberNameCollisionCount B
            ∧ ∃ rest, s3.StringifyName B Struct r = "Func_" ++ rest) := by
  obtain ⟨s1, r1, h1, hpush1, hpool1, -, -, hname1, hown1, -, -⟩ :=
    lambda_spec_type B hB s0 Struct w keyM ECollisionType.MemberName chkM (by decide)
  have hw1 : w ∈ s1.MemberNames := by rw [hpool1]; exact FindOrAdd_mem _ _
  have hidx1 : r1.Name = s1.MemberNames.indexOf w := by
    rw [hname1, hpool1]; exact FindOrAdd_index _ _
  have hQ1 : MemberRegistered B s1 Struct w (s1.MemberNames.indexOf w) :=
    ⟨hw1, rfl, r1, by rw [hpush1.at_tgt, findExisting_append_singleton, if_pos hidx1],
      Or.inl hown1⟩
  obtain ⟨s2, h2⟩ := registerAll_total B hB Struct ops s1 hops
  refine ⟨s1, s2, h1, h2, fun hcap => ?_⟩
  obtain ⟨hw2, hidx2, e, he, hseen⟩ := hQ1.registerAll hB Struct w _ ops s1 s2 hops h2 hcap
  obtain ⟨s3, h3, hpool3, hpush3⟩ := lambda_same_name B hB s2 Struct w keyF
    ECollisionType.FunctionName chkF e (by decide) hw2 (by rw [hidx2]; exact he)
  have hstep := hseen.step hB (hcap e (findExisting_mem he)) (s2.MemberNames.indexOf w)
    ECollisionType.FunctionName (Or.inr rfl)
  have hOT := NameInfo.InitCollisionData_OwnType hB
    (NameInfo.new B (s2.MemberNames.indexOf w) ECollisionType.FunctionName) e
    ECollisionType.FunctionName false
  refine ⟨s3, _, h3, hpush3.at_tgt, hOT, hstep.2 rfl, ?_⟩
  have hM := hstep.2 rfl
  unfold CollisionManager.StringifyName
  rw [hOT]
  simp only [ECollisionType.toNat, show (2 : Nat) ≠ 0 from by decide, if_false, if_true]
  have hcond : ((NameInfo.new B (s2.MemberNames.indexOf w)
      ECollisionType.FunctionName).InitCollisionData B e ECollisionType.FunctionName
        false).MemberNameCollisionCount B > 0
      ∨ ((NameInfo.new B (s2.MemberNames.indexOf w)
      ECollisionType.FunctionName).InitCollisionData B e ECollisionType.FunctionName
        false).SuperMemberNameCollisionCount B > 0 := Or.inl (by omega)
  rw [if_pos hcond]
  split_ifs
  · exact ⟨_, String.append_assoc _ _ _⟩
  · exact ⟨_, rfl⟩

/-- C7, at concrete registrations: the member `Value` of `Base`, the member `Other`, then the
function `Value`, from the empty manager. -/
theorem C7_function_named_like_member_witness :
    ∃ s1 s2,
      AddToContainerAndTranslationMap B0 CollisionManager.empty exBase "Value" 100
        ECollisionType.MemberName true none = some s1
      ∧ registerAll B0 exBase s1
          [{ ValidName := "Other", Key := 101, CollisionType := ECollisionType.MemberName,
             chk := true, Func := none }] = some s2
      ∧ ((∀ x ∈ s2.NameInfos.at exBase.GetIndex, x.MemberNameCollisionCount B0 < B0.maxCount) →
          ∃ s3 r,
            AddToContainerAndTranslationMap B0 s2 exBase "Value" 102
              ECollisionType.FunctionName true none = some s3
            ∧ s3.NameInfos.at exBase.GetIndex = s2.NameInfos.at exBase.GetIndex ++ [r]
            ∧ r.OwnType B0 = ECollisionType.FunctionName.toNat
            ∧ 1 ≤ r.MemberNameCollisionCount B0
            ∧ ∃ rest, s3.StringifyName B0 exBase r = "Func_" ++ rest) :=
  C7_function_named_like_member B0 (by decide) CollisionManager.empty exBase "Value" 100 102
    true true
    [{ ValidName := "Other", Key := 101, CollisionType := ECollisionType.MemberName,
       chk := true, Func := none }]
    (by intro op hop; rw [List.mem_singleton.1 hop]; exact Or.inl ⟨rfl, Or.inl rfl⟩)

/-! ## The end-to-end example -/

theorem foldl_reserve_facts (B : BitLayout) (ws : List (String × Bool)) :
    ∀ (all : List (String × Bool)) (s : CollisionManager),
      (∀ p ∈ ws, p ∈ all) → s.NameInfos = CollisionManager.empty.NameInfos →
      (∀ w ∈ s.MemberNames, ∃ p ∈ all, p.1 = w) →
      (ws.foldl (fun s p => s.AddReservedName B p.1 p.2) s).NameInfos
          = CollisionManager.empty.NameInfos
        ∧ ∀ w ∈ (ws.foldl (fun s p => s.AddReservedName B p.1 p.2) s).MemberNames,
            ∃ p ∈ all, p.1 = w := by
  induction ws with
  | nil => intro all s _ h1 h2; exact ⟨h1, h2⟩
  | cons q rest ih =>
    intro all s hall h1 h2
    simp only [List.foldl_cons]
    refine ih all (s.AddReservedName B q.1 q.2)
      (fun p hp => hall p (List.mem_cons_of_mem _ hp)) h1 ?_
    intro w hw
    obtain ⟨ext, hext⟩ := FindOrAdd_extends s.MemberNames q.1
    have hw' : w ∈ (HashStringTable.FindOrAdd s.MemberNames q.1).1 := hw
    by_cases hq : q.1 ∈ s.MemberNames
    · rw [FindOrAdd_of_mem hq] at hw'
      exact h2 w hw'
    · rw [FindOrAdd_of_not_mem hq] at hw'
      rcases List.mem_append.1 hw' with hw' | hw'
      · exact h2 w hw'
      · exact ⟨q, hall q (List.mem_cons_self _ _), (List.mem_singleton.1 hw').symm⟩

theorem seedReserved_facts (B : BitLayout) (ws : List (String × Bool)) (w : String)
    (hw : ∀ p ∈ ws, p.1 ≠ w) :
    (seedReserved B ws).NameInfos = CollisionManager.empty.NameInfos
      ∧ w ∉ (seedReserved B ws).MemberNames := by
  obtain ⟨h1, h2⟩ := foldl_reserve_facts B ws ws CollisionManager.empty (fun _ hp => hp) rfl
    (fun w hw => by cases hw)
  refine ⟨h1, fun hmem => ?_⟩
  obtain ⟨p, hp, hpw⟩ := h2 w hmem
  exact hw p hp hpw

theorem GetStringEntry_FindOrAdd (t : List String) (s : String) :
    HashStringTable.GetStringEntry (HashStringTable.FindOrAdd t s).1
      (HashStringTable.FindOrAdd t s).2.1 = s := by
  rw [FindOrAdd_index]
  exact GetStringEntry_indexOf (FindOrAdd_mem t s)

/-- The loop over the parameters of a function returns; it changes no table but the table of
the function, and it only extends the name pool. -/
theorem paramLoop_frame {B : BitLayout} (hB : B.ok) (S : UEStruct) (chk : Bool) (F : UEFunction) :
    ∀ (props : List UEProperty) (s : CollisionManager),
      ∃ s', AddStructToNameContainer.paramLoop B S chk F s props = some s'
        ∧ (∀ k, k ≠ F.Index → s'.NameInfos.at k = s.NameInfos.at k)
        ∧ ∃ ext, s'.MemberNames = s.MemberNames ++ ext := by
  intro props
  induction props with
  | nil => intro s; exact ⟨s, rfl, fun _ _ => rfl, [], by simp⟩
  | cons p rest ih =>
    intro s
    obtain ⟨s1, r, h1, hpush, hpool, -⟩ := lambda_spec_param B hB s S p.ValidName
      (KeyFunctions.GetKeyForCollisionInfoProperty S p) chk F
    obtain ⟨s', h2, h3, ext', h4⟩ := ih s1
    obtain ⟨ext, hext⟩ := FindOrAdd_extends s.MemberNames p.ValidName
    refine ⟨s', by simp only [AddStructToNameContainer.paramLoop, h1, h2], fun k hk => ?_,
      ext ++ ext', ?_⟩
    · rw [h3 k hk, hpush.at_ne hk]
    · rw [h4, hpool, hext, List.append_assoc]

/-- C2 (as stated, refuted): the driver builds `Derived` (and with it `Base`) from the empty
manager.  The final name of the member `Value` of `Derived`, stringified with its owning
type `Derived`, is `Value_Derived`, not `Value_Base`: the suffix is the name of the owning
type, not of the ancestor. -/
theorem C2_suffix_is_owning_type :
    ((CollisionManager.empty.AddStructToNameContainer B0 exDerived true).map
        (fun s => ((s.NameInfos.at 1).map (fun r => s.StringifyName B0 exBase r),
                   (s.NameInfos.at 2).map (fun r => s.StringifyName B0 exDerived r))))
      = some (["Value"], ["Value_Derived", "Func_Value"]) := by
  decide

/-- C2 (amended): no reserved word of the seed list is `Value`; `Base` has the single data
member `Value`, `Derived` extends `Base` and has the data member `Value` and the function
`Value` (with any parameters; the three object indices are distinct).  The driver, called for
`Derived`, returns; the table of `Base` has one record and the table of `Derived` two; and
stringifying each with its owning type gives `Value` for the member of `Base`, `Value_`
followed by the name of `Derived` for the member of `Derived`, and `Func_Value` for the
function. -/
theorem C2_end_to_end (B : BitLayout) (hB : B.ok) (ws : List (String × Bool))
    (hws : ∀ p ∈ ws, p.1 ≠ "Value") (chk : Bool)
    (bi di fi aB aD c num : Nat) (bn dn : String) (params : List UEProperty)
    (hbd : bi ≠ di) (hfb : fi ≠ bi) (hfd : fi ≠ di) :
    ∃ s' rb rm rf,
      (seedReserved B ws).AddStructToNameContainer B
          (.derived { Index := di, ValidName := dn,
                      Properties := [{ ValidName := "Value", Address := aD }],
                      Functions := [{ Index := fi, ValidName := "Value", CompIdx := c,
                                      Number := num, Properties := params }] }
            (.root { Index := bi, ValidName := bn,
                     Properties := [{ ValidName := "Value", Address := aB }],
                     Functions := [] })) chk = some s'
      ∧ s'.NameInfos.at bi = [rb]
      ∧ s'.NameInfos.at di = [rm, rf]
      ∧ s'.StringifyName B
          (.root { Index := bi, ValidName := bn,
                   Properties := [{ ValidName := "Value", Address := aB }],
                   Functions := [] }) rb = "Value"
      ∧ s'.StringifyName B
          (.derived { Index := di, ValidName := dn,
                      Properties := [{ ValidName := "Value", Address := aD }],
                      Functions := [{ Index := fi, ValidName := "Value", CompIdx := c,
                                      Number := num, Properties := params }] }
            (.root { Index := bi, ValidName := bn,
                     Properties := [{ ValidName := "Value", Address := aB }],
                     Functions := [] })) rm = "Value_" ++ dn
      ∧ s'.StringifyName B
          (.derived { Index := di, ValidName := dn,
                      Properties := [{ ValidName := "Value", Address := aD }],
                      Functions := [{ Index := fi, ValidName := "Value", CompIdx := c,
                                      Number := num, Properties := params }] }
            (.root { Index := bi, ValidName := bn,
                     Properties := [{ ValidName := "Value", Address := aB }],
                     Functions := [] })) rf = "Func_Value" := by
  generalize hF : UEFunction.mk fi "Value" c num params = F
  generalize hSB : UEStruct.root (UEStructData.mk bi bn [UEProperty.mk "Value" aB] []) = SB
  generalize hSD :
    UEStruct.derived (UEStructData.mk di dn [UEProperty.mk "Value" aD] [F]) SB = SD
  have hSBi : SB.GetIndex = bi := by rw [← hSB]; rfl
  have hSDi : SD.GetIndex = di := by rw [← hSD]; rfl
  have hFi : F.Index = fi := by rw [← hF]
  have hSDn : SD.GetValidName = dn := by rw [← hSD]; rfl
  have hSDs : SD.GetSuper = some SB := by rw [← hSD]; rfl
  obtain ⟨h0N, h0V⟩ := seedReserved_facts B ws "Value" hws
  generalize seedReserved B ws = s0 at h0N h0V ⊢
  have h0at : ∀ k, s0.NameInfos.at k = [] := by
    intro k; rw [h0N]; rfl
  -- the member of `Base`
  obtain ⟨s1, rb, e1, hp1, hpool1, -, -, hn1, ho1, hins1, -⟩ := lambda_spec_type B hB
    ⟨s0.NameInfos.touch bi, s0.TranslationMap, s0.MemberNames, s0.ReservedNames⟩ SB "Value" aB
    ECollisionType.MemberName chk (by decide)
  simp only [FindOrAdd_of_not_mem h0V] at hpool1 hn1 hins1
  have hrb : rb = NameInfo.new B s0.MemberNames.length ECollisionType.MemberName :=
    (hins1 trivial).1
  have hw1 : "Value" ∈ s1.MemberNames := by rw [hpool1]; simp
  have hidx1 : s1.MemberNames.indexOf "Value" = s0.MemberNames.length := by
    rw [hpool1, List.indexOf_append_of_not_mem h0V]; simp
  have hat1 : ∀ k, s1.NameInfos.at k = if k = bi then [rb] else [] := by
    intro k
    rw [hp1 k, hSBi]
    simp only [NameInfoMap.at_touch, h0at, List.nil_append]
  -- the member of `Derived`
  obtain ⟨s2, rm, e2, hp2, hpool2, -, -, hn2, ho2, -, hold2⟩ := lambda_spec_type B hB
    ⟨s1.NameInfos.touch di, s1.TranslationMap, s1.MemberNames, s1.ReservedNames⟩ SD "Value" aD
    ECollisionType.MemberName chk (by decide)
  simp only [FindOrAdd_of_mem hw1, hidx1] at hpool2 hn2 hold2
  obtain ⟨mt, hps, hrm⟩ := hold2 trivial
  have hfindb : findExisting [rb] s0.MemberNames.length = some rb := by
    rw [show [rb] = [] ++ [rb] from rfl, findExisting_append_singleton, if_pos (by rw [hrb]; rfl)]
  have hmt : mt = some (rb, true) := by
    simp only [prioritySearch, reduceCtorEq, if_false, scopeSearch, NameInfoMap.at_touch, hat1,
      hSDi, Ne.symm hbd, if_true, findExisting_nil, hSDs, Option.some.injEq, Prod.mk.injEq,
      true_and] at hps
    rw [← hSB] at hps
    simp only [superSearch, NameInfoMap.at_touch, hat1, if_true, hfindb] at hps
    exact hps.symm
  subst hmt
  have hat2 : ∀ k, s2.NameInfos.at k = if k = di then [rm] else if k = bi then [rb] else [] := by
    intro k
    rw [hp2 k, hSDi]
    simp only [NameInfoMap.at_touch, hat1, if_neg (Ne.symm hbd), List.nil_append]
  have hw2 : "Value" ∈ s2.MemberNames := by rw [hpool2]; exact hw1
  have hidx2 : s2.MemberNames.indexOf "Value" = s0.MemberNames.length := by
    rw [hpool2]; exact hidx1
  have hrmN : rm.Name = s0.MemberNames.length := hn2
  have hfindm : findExisting (s2.NameInfos.at SD.GetIndex) (s2.MemberNames.indexOf "Value")
      = some rm := by
    rw [hSDi, hat2, if_pos rfl, hidx2, show [rm] = [] ++ [rm] from rfl,
      findExisting_append_singleton, if_pos hrmN]
  -- the function of `Derived`
  obtain ⟨s3, e3, hpool3, hp3⟩ := lambda_same_name B hB s2 SD "Value"
    (KeyFunctions.GetKeyForCollisionInfoFunction SD F) ECollisionType.FunctionName chk rm
    (by decide) hw2 hfindm
  rw [hidx2] at hp3
  -- its parameters
  obtain ⟨s4, e4, hat4, ext, hpool4⟩ := paramLoop_frame hB SD chk F params s3
  have hat4b : s4.NameInfos.at bi = [rb] := by
    rw [hat4 bi (by rw [hFi]; exact Ne.symm hfb), hp3.at_ne (by rw [hSDi]; exact hbd), hat2,
      if_neg hbd, if_pos rfl]
  have hat4d : s4.NameInfos.at di = [rm, (NameInfo.new B s0.MemberNames.length
      ECollisionType.FunctionName).InitCollisionData B rm ECollisionType.FunctionName false] := by
    rw [hat4 di (by rw [hFi]; exact Ne.symm hfd), ← hSDi, hp3.at_tgt, hSDi, hat2, if_pos rfl]
    rfl
  have hraw : HashStringTable.GetStringEntry s4.MemberNames s0.MemberNames.length = "Value" := by
    rw [hpool4, hpool3, hpool2, GetStringEntry_append ext (by rw [hpool1]; simp), ← hidx1]
    exact GetStringEntry_indexOf hw1
  -- the counts of the three records
  have hrbz : ∀ slot, slot ≤ 4 → rb.CollisionCount B slot = 0 := by
    intro slot _; rw [hrb]; exact NameInfo.new_CollisionCount B _ _ _
  have hrbk : rb.OwnType B = ECollisionType.MemberName.toNat := ho1
  have hrmc : ∀ t, t ≤ 4 → rm.CollisionCount B t = if t = 1 then 1 else 0 := by
    intro t ht
    have hslot : rb.slotFor B true = 1 := by simp [NameInfo.slotFor, hrbk, ECollisionType.toNat]
    rw [hrm]
    unfold recordFor
    rw [NameInfo.InitCollisionData_of_zero hB _ rb _ true hrbz (by rw [hslot]; decide) t ht, hslot]
  have hrmk : rm.OwnType B = ECollisionType.MemberName.toNat := ho2
  have hrfc : ∀ t, t ≤ 4 →
      ((NameInfo.new B s0.MemberNames.length
        ECollisionType.FunctionName).InitCollisionData B rm ECollisionType.FunctionName
          false).CollisionCount B t = if t = 0 then 1 else if t = 1 then 1 else 0 := by
    intro t ht
    have hslot : rm.slotFor B false = 0 := by simp [NameInfo.slotFor, hrmk, ECollisionType.toNat]
    rw [NameInfo.InitCollisionData_count hB _ rm _ false t ht (by rw [hslot]; decide)
      (by rw [hslot, hrmc 0 (by decide)]; simpa using hB.maxCount_pos), hslot, hrmc t ht]
    by_cases h0 : t = 0
    · simp [h0]
    · simp [h0]
  have hrfk := NameInfo.InitCollisionData_OwnType hB
    (NameInfo.new B s0.MemberNames.length ECollisionType.FunctionName) rm
    ECollisionType.FunctionName false
  refine ⟨s4, rb, rm, _, ?_, hat4b, hat4d, ?_, ?_, ?_⟩
  · -- the driver is this sequence of registrations
    have hnone : (s0.NameInfos SB.GetIndex).isNone = true := by rw [h0N]; rfl
    have hemptyB : ((s0.NameInfos.touch SB.GetIndex).at SB.GetIndex).isEmpty = true := by
      simp [h0at]
    have hemptyD : ((s1.NameInfos.touch SD.GetIndex).at SD.GetIndex).isEmpty = true := by
      simp [hat1, hSDi, Ne.symm hbd]
    have hbuildB : AddStructToNameContainer.build B s0 SB chk = some s1 := by
      unfold AddStructToNameContainer.build
      simp only [hemptyB, if_true]
      rw [← hSB] at e1 ⊢
      simp only [UEStruct.GetProperties, UEStruct.GetFunctions, UEStruct.data, UEStruct.GetIndex,
        AddStructToNameContainer.propLoop, AddStructToNameContainer.funcLoop,
        KeyFunctions.GetKeyForCollisionInfoProperty] at e1 ⊢
      rw [e1]
    have hbuildD : AddStructToNameContainer.build B s1 SD chk = some s4 := by
      unfold AddStructToNameContainer.build
      simp only [hemptyD, if_true]
      have hprops : SD.GetProperties = [UEProperty.mk "Value" aD] := by
        rw [← hSD]; rfl
      have hfuncs : SD.GetFunctions = [F] := by rw [← hSD]; rfl
      have hFn : F.ValidName = "Value" := by rw [← hF]
      have hFp : F.Properties = params := by rw [← hF]
      rw [hprops, hfuncs]
      simp only [AddStructToNameContainer.propLoop, AddStructToNameContainer.funcLoop,
        KeyFunctions.GetKeyForCollisionInfoProperty, hSDi, hFn, hFp] at e2 e3 e4 ⊢
      rw [e2]
      simp only [e3, e4]
    rw [← hSD]
    unfold CollisionManager.AddStructToNameContainer
    rw [hSD, if_pos hnone]
    have hrootB : CollisionManager.AddStructToNameContainer B s0 SB chk
        = AddStructToNameContainer.build B s0 SB chk := by
      rw [← hSB]; rfl
    rw [hrootB, hbuildB]
    exact hbuildD
  · unfold CollisionManager.StringifyName NameInfo.SuperMemberNameCollisionCount
      NameInfo.MemberNameCollisionCount
    have hN : rb.Name = s0.MemberNames.length := by rw [hrb]; rfl
    rw [hN, hraw, hrbk]
    simp [ECollisionType.toNat, hrbz]
  · unfold CollisionManager.StringifyName NameInfo.SuperMemberNameCollisionCount
      NameInfo.MemberNameCollisionCount
    rw [hrmN, hraw, hrmk, hSDn]
    simp [ECollisionType.toNat, hrmc]
    rw [← String.append_assoc, show "Value" ++ "_" = "Value_" from by decide]
  · unfold CollisionManager.StringifyName NameInfo.SuperMemberNameCollisionCount
      NameInfo.MemberNameCollisionCount NameInfo.FunctionNameCollisionCount
    rw [hrfk, NameInfo.InitCollisionData_Name, NameInfo.new_Name, hraw]
    simp [ECollisionType.toNat, hrfc]

/-- C2 (amended), at concrete types: `Base` and `Derived` with no reserved word. -/
theorem C2_end_to_end_witness :
    ∃ s' rb rm rf,
      (seedReserved B0 []).AddStructToNameContainer B0 exDerived true = some s'
      ∧ s'.NameInfos.at 1 = [rb]
      ∧ s'.NameInfos.at 2 = [rm, rf]
      ∧ s'.StringifyName B0 exBase rb = "Value"
      ∧ s'.StringifyName B0 exDerived rm = "Value_" ++ "Derived"
      ∧ s'.StringifyName B0 exDerived rf = "Func_Value" :=
  C2_end_to_end B0 (by decide) [] (by intro p hp; cases hp) true 1 2 3 100 200 7 0 "Base"
    "Derived" [] (by decide) (by decide) (by decide)

/-! ## The predicate and the stringifier -/

theorem String.append_ne_left (a b : String) (hb : 0 < b.length) : a ++ b ≠ a := by
  apply String.ne_of_length_ne
  rw [String.length_append]; omega

theorem String.append_ne_right (a b : String) (hb : 0 < b.length) : b ++ a ≠ a := by
  apply String.ne_of_length_ne
  rw [String.length_append]; omega

theorem underscore_length_pos (x : String) : 0 < ("_" ++ x).length := by
  rw [String.length_append]
  have : ("_" : String).length = 1 := rfl
  omega

/-- C11: for every record, every name pool and every owning type, `HasCollisions` is true
exactly when `StringifyName` returns a string different from the raw text of the record. -/
theorem C11_HasCollisions_iff_renamed (B : BitLayout) (self : CollisionManager) (Struct : UEStruct)
    (Info : NameInfo) :
    Info.HasCollisions B = true ↔
      self.StringifyName B Struct Info
        ≠ HashStringTable.GetStringEntry self.MemberNames Info.Name := by
  have hF : 0 < ("Func_" : String).length := by decide
  have hP : 0 < ("Param_" : String).length := by decide
  unfold NameInfo.HasCollisions CollisionManager.StringifyName
  generalize HashStringTable.GetStringEntry self.MemberNames Info.Name = raw
  by_cases h0 : Info.OwnType B = ECollisionType.MemberName.toNat
  · simp only [if_pos h0]
    by_cases hSM : Info.SuperMemberNameCollisionCount B > 0 <;>
      by_cases hM : Info.MemberNameCollisionCount B > 0 <;>
      simp only [hSM, hM, if_true, if_false, decide_True, decide_False, Bool.or_true,
        Bool.or_false, Bool.or_self, ne_eq, not_true_eq_false, iff_false, true_iff,
        Bool.false_eq_true, not_false_eq_true]
    · rw [String.append_assoc]
      apply String.append_ne_left
      rw [String.length_append]
      have := underscore_length_pos Struct.GetValidName
      omega
    · exact String.append_ne_left _ _ (underscore_length_pos _)
    · exact String.append_ne_left _ _ (underscore_length_pos _)
  · by_cases h2 : Info.OwnType B = ECollisionType.FunctionName.toNat
    · simp only [if_neg h0, if_pos h2]
      by_cases hM : Info.MemberNameCollisionCount B > 0 <;>
        by_cases hSM : Info.SuperMemberNameCollisionCount B > 0 <;>
        by_cases hFn : Info.FunctionNameCollisionCount B > 0 <;>
        simp only [hSM, hM, hFn, if_true, if_false, decide_True, decide_False, Bool.or_true,
          Bool.or_false, Bool.or_self, ne_eq, not_true_eq_false, iff_false, true_iff,
          Bool.false_eq_true, not_false_eq_true, or_true, true_or, or_self]
      all_goals first
        | exact String.append_ne_right _ _ hF
        | exact String.append_ne_left _ _ (underscore_length_pos _)
        | (apply String.ne_of_length_ne
           simp only [String.length_append]
           have := underscore_length_pos (to_wstring (Info.FunctionNameCollisionCount B - 1))
           simp only [String.length_append] at this
           omega)
    · by_cases h4 : Info.OwnType B = ECollisionType.ParameterName.toNat
      · simp only [if_neg h0, if_neg h2, if_pos h4]
        by_cases hM : Info.MemberNameCollisionCount B > 0 <;>
          by_cases hSM : Info.SuperMemberNameCollisionCount B > 0 <;>
          by_cases hFn : Info.FunctionNameCollisionCount B > 0 <;>
          by_cases hSF : Info.SuperFuncNameCollisionCount B > 0 <;>
          by_cases hPa : Info.ParamNameCollisionCount B > 0 <;>
          simp only [hSM, hM, hFn, hSF, hPa, if_true, if_false, decide_True, decide_False,
            Bool.or_true, Bool.or_false, Bool.or_self, ne_eq, not_true_eq_false, iff_false,
            true_iff, Bool.false_eq_true, not_false_eq_true, or_true, true_or, or_self]
        all_goals first
          | exact String.append_ne_right _ _ hP
          | exact String.append_ne_left _ _ (underscore_length_pos _)
          | (apply String.ne_of_length_ne
             simp only [String.length_append]
             have := underscore_length_pos (to_wstring (Info.ParamNameCollisionCount B - 1))
             simp only [String.length_append] at this
             omega)
      · simp only [if_neg h0, if_neg h2, if_neg h4, ne_eq, not_true_eq_false, iff_false,
          Bool.false_eq_true, not_false_eq_true]

/-! ## The translation map -/

theorem emplace_present {t : Nat → Option Nat} {Key p : Nat} (h : t Key = some p) (Index : Nat) :
    emplace t Key Index = t := by
  unfold emplace; rw [h]

/-- C12: when the lambda of the driver publishes a key that is already in the translation
map, the call completes and the translation map after it is the map before it: the key still
maps to the position published first, and no entry is added, removed or altered. -/
theorem C12_duplicate_key_leaves_index (B : BitLayout) (hB : B.ok) (self : CollisionManager)
    (Struct : UEStruct) (w : String) (key : Nat) (k : ECollisionType) (chk : Bool)
    (Func : Option UEFunction) (hF : k = ECollisionType.ParameterName → Func ≠ none)
    (p : Nat) (hdup : self.TranslationMap key = some p) :
    ∃ self', AddToContainerAndTranslationMap B self Struct w key k chk Func = some self'
      ∧ self'.TranslationMap = self.TranslationMap ∧ self'.TranslationMap key = some p := by
  obtain ⟨self', tgt, r, hrun, hstep⟩ := lambda_spec B hB self Struct w key k chk Func hF
  obtain ⟨_, _, _, hT, _⟩ := hstep
  rw [emplace_present hdup] at hT
  exact ⟨self', hrun, hT, by rw [hT]; exact hdup⟩

/-- C12, at a concrete call: `Y` of `Twin` is registered with the key already published for `X`. -/
theorem C12_duplicate_key_leaves_index_witness :
    ∃ self', AddToContainerAndTranslationMap B0 exAfterFirst exTwin "Y" 1200
        ECollisionType.MemberName true none = some self'
      ∧ self'.TranslationMap = exAfterFirst.TranslationMap
      ∧ self'.TranslationMap 1200 = some 0 :=
  C12_duplicate_key_leaves_index B0 (by decide) exAfterFirst exTwin "Y" 1200
    ECollisionType.MemberName true none (by intro h; exact absurd h (by decide)) 0 (by decide)

/-- C13, as stated, fails: `Twin` has the data members `X` and `Y` with the same key.  When
`Y` is registered the key is already published for `X` (position 0); after the call the
table of `Twin` has two records instead of one, the key still maps to position 0, and in the
table the driver builds the later data member `Y` has counted the record of the first `Y`. -/
theorem C13_duplicate_key_keeps_record :
    exAfterFirst.TranslationMap 1200 = some 0
    ∧ (exAfterFirst.NameInfos.at 12).length = 1
    ∧ (AddToContainerAndTranslationMap B0 exAfterFirst exTwin "Y" 1200
          ECollisionType.MemberName true none).map
        (fun s => ((s.NameInfos.at 12).length, s.TranslationMap 1200)) = some (2, some 0)
    ∧ (CollisionManager.empty.AddStructToNameContainer B0 exTwin true).map
        (fun s => (s.NameInfos.at 12).map (fun r => (r.Name, r.MemberNameCollisionCount B0)))
        = some [(0, 0), (1, 0), (1, 1)] := by
  decide

/-- C13, amended: when the lambda of the driver publishes a key that is already in the
translation map, the symbol is not skipped.  The call completes, the record of the symbol
(its interned name, its kind) is appended to its table and stays there, every other table is
as before, and only the translation map is left as it was. -/
theorem C13_duplicate_key_record_stays (B : BitLayout) (hB : B.ok) (self : CollisionManager)
    (Struct : UEStruct) (w : String) (key : Nat) (k : ECollisionType) (chk : Bool)
    (Func : Option UEFunction) (hF : k = ECollisionType.ParameterName → Func ≠ none)
    (p : Nat) (hdup : self.TranslationMap key = some p) :
    ∃ self' tgt r, AddToContainerAndTranslationMap B self Struct w key k chk Func = some self'
      ∧ self'.NameInfos.at tgt = self.NameInfos.at tgt ++ [r]
      ∧ (∀ k', k' ≠ tgt → self'.NameInfos.at k' = self.NameInfos.at k')
      ∧ r.Name = (HashStringTable.FindOrAdd self.MemberNames w).2.1
      ∧ HashStringTable.GetStringEntry self'.MemberNames r.Name = w
      ∧ r.OwnType B = k.toNat
      ∧ self'.TranslationMap = self.TranslationMap := by
  obtain ⟨self', tgt, r, hrun, hstep⟩ := lambda_spec B hB self Struct w key k chk Func hF
  obtain ⟨hpush, hpool, _, hT, hname, hkind, _⟩ := hstep
  rw [emplace_present hdup] at hT
  refine ⟨self', tgt, r, hrun, hpush.at_tgt, fun k' hk' => hpush.at_ne hk', hname, ?_, hkind, hT⟩
  rw [hpool, hname]
  exact GetStringEntry_FindOrAdd _ _

/-- C13 (amended), at a concrete call: `Y` of `Twin` is registered with the key already published
for `X`. -/
theorem C13_duplicate_key_record_stays_witness :
    ∃ self' tgt r, AddToContainerAndTranslationMap B0 exAfterFirst exTwin "Y" 1200
        ECollisionType.MemberName true none = some self'
      ∧ self'.NameInfos.at tgt = exAfterFirst.NameInfos.at tgt ++ [r]
      ∧ (∀ k', k' ≠ tgt → self'.NameInfos.at k' = exAfterFirst.NameInfos.at k')
      ∧ r.Name = (HashStringTable.FindOrAdd exAfterFirst.MemberNames "Y").2.1
      ∧ HashStringTable.GetStringEntry self'.MemberNames r.Name = "Y"
      ∧ r.OwnType B0 = ECollisionType.MemberName.toNat
      ∧ self'.TranslationMap = exAfterFirst.TranslationMap :=
  C13_duplicate_key_record_stays B0 (by decide) exAfterFirst exTwin "Y" 1200
    ECollisionType.MemberName true none (by intro h; exact absurd h (by decide)) 0 (by decide)

/-! ## The packed update and the five-counter update -/

theorem NameInfo.counts_eq (B : BitLayout) (i : NameInfo) :
    i.counts B = [i.CollisionCount B 0, i.CollisionCount B 1, i.CollisionCount B 2,
      i.CollisionCount B 3, i.CollisionCount B 4] := by
  rfl

/-- C15: for a match whose slot `matched.ownKind + (1 if ancestor hit)` is one of the five
counters and whose counter of that slot is below the capacity, the record that
`InitCollisionData` packs stands for the five-counter record of the specification: own kind
`kind`, the count of the slot one more than in the matched record, every other count that of
the matched record. -/
theorem C15_InitCollisionData_refines_record_update (B : BitLayout) (hB : B.ok)
    (self Existing : NameInfo) (CurrentType : ECollisionType) (bIsSuper : Bool)
    (hs : Existing.OwnType B + bIsSuper.toNat ≤ 4)
    (hc : Existing.CollisionCount B (Existing.OwnType B + bIsSuper.toNat) < B.maxCount) :
    (self.InitCollisionData B Existing CurrentType bIsSuper).toRecord B
      = CollisionRecord.matchUpdateSpec self.Name CurrentType (Existing.toRecord B) bIsSuper := by
  have hcount := fun t ht =>
    NameInfo.InitCollisionData_count hB self Existing CurrentType bIsSuper t ht hs hc
  have hslot : (Existing.OwnType B + if bIsSuper = true then 1 else 0)
      = Existing.slotFor B bIsSuper := by
    unfold NameInfo.slotFor; cases bIsSuper <;> rfl
  unfold NameInfo.toRecord CollisionRecord.matchUpdateSpec
  simp only [NameInfo.InitCollisionData_Name, NameInfo.InitCollisionData_OwnType hB, hslot,
    NameInfo.counts_eq, hcount 0 (by omega), hcount 1 (by omega), hcount 2 (by omega),
    hcount 3 (by omega), hcount 4 (by omega)]
  have hs' : Existing.slotFor B bIsSuper ≤ 4 := hs
  generalize Existing.slotFor B bIsSuper = slot at hs' ⊢
  interval_cases slot <;> simp

/-- C15, at a concrete match: a function matches, in an ancestor, a data member that has one
collision with a data member. -/
theorem C15_InitCollisionData_refines_record_update_witness :
    ((NameInfo.new B0 7 ECollisionType.FunctionName).InitCollisionData B0 (NameInfo.mk 7 128)
        ECollisionType.FunctionName true).toRecord B0
      = CollisionRecord.matchUpdateSpec (NameInfo.new B0 7 ECollisionType.FunctionName).Name
          ECollisionType.FunctionName ((NameInfo.mk 7 128).toRecord B0) true :=
  C15_InitCollisionData_refines_record_update B0 (by decide)
    (NameInfo.new B0 7 ECollisionType.FunctionName) (NameInfo.mk 7 128)
    ECollisionType.FunctionName true (by decide) (by decide)

/-! ## The priority search -/

theorem findExisting_eq_mostRecentSpec (T : NameContainer) (n : Nat) :
    findExisting T n = mostRecentSpec T n := by
  induction T using List.reverseRecOn with
  | nil => rfl
  | append_singleton T r ih =>
    rw [findExisting_append_singleton, ih]
    unfold mostRecentSpec
    rw [List.filter_append]
    by_cases h : r.Name = n
    · simp [h]
    · simp [h]

theorem superSearch_eq_firstMatchSpec (m : NameInfoMap) (n : Nat) (S : UEStruct) :
    (superSearch m n S).map (fun e => (e, true))
      = firstMatchSpec (S.chain.map (fun A => (m.at A.GetIndex, true))) n := by
  induction S with
  | root d =>
    simp only [superSearch, UEStruct.chain, List.map_cons, List.map_nil, firstMatchSpec,
      List.findSome?_cons, List.findSome?_nil, UEStruct.GetIndex, UEStruct.data,
      ← findExisting_eq_mostRecentSpec]
    cases findExisting (m.at d.Index) n <;> rfl
  | derived d Super ih =>
    have hidx : (UEStruct.derived d Super).GetIndex = d.Index := rfl
    simp only [superSearch, UEStruct.chain, List.map_cons, firstMatchSpec,
      List.findSome?_cons, hidx, ← findExisting_eq_mostRecentSpec]
    cases h : findExisting (m.at d.Index) n with
    | some e => rfl
    | none =>
      simp only [Option.map_none']
      rw [ih]
      simp only [firstMatchSpec, ← findExisting_eq_mostRecentSpec]

theorem scopeSearch_eq_firstMatchSpec (m : NameInfoMap) (R : NameContainer) (SN : Nat)
    (S : UEStruct) (n : Nat) (chk : Bool) :
    scopeSearch m R SN S n chk
      = firstMatchSpec ([(m.at SN, false)]
          ++ S.ancestors.map (fun A => (m.at A.GetIndex, true))
          ++ (if chk then [(R, false)] else [])) n := by
  have hres : (reservedSearch R chk n).map (fun e => (e, false))
      = firstMatchSpec (if chk then [(R, false)] else []) n := by
    unfold reservedSearch firstMatchSpec
    cases chk
    · rfl
    · simp only [if_true, List.findSome?_cons, List.findSome?_nil,
        ← findExisting_eq_mostRecentSpec]
      cases findExisting R n <;> rfl
  simp only [firstMatchSpec, ← findExisting_eq_mostRecentSpec] at hres
  cases hS : S.GetSuper with
  | none =>
    simp only [scopeSearch, hS, UEStruct.ancestors, firstMatchSpec, List.map_nil,
      List.append_nil, List.findSome?_append, ← findExisting_eq_mostRecentSpec]
    rw [← hres]
    simp only [List.findSome?_cons, List.findSome?_nil]
    cases findExisting (m.at SN) n with
    | some e => rfl
    | none => cases reservedSearch R chk n <;> rfl
  | some Super =>
    have hanc := superSearch_eq_firstMatchSpec m n Super
    simp only [firstMatchSpec, ← findExisting_eq_mostRecentSpec] at hanc
    simp only [scopeSearch, hS, UEStruct.ancestors, firstMatchSpec,
      List.findSome?_append, ← findExisting_eq_mostRecentSpec]
    rw [← hres, ← hanc]
    simp only [List.findSome?_cons, List.findSome?_nil]
    cases findExisting (m.at SN) n with
    | some e => rfl
    | none =>
      cases superSearch m n Super with
      | some e => cases reservedSearch R chk n <;> rfl
      | none => cases reservedSearch R chk n <;> rfl

theorem prioritySearch_eq_spec (self : CollisionManager) (SN : Nat) (S : UEStruct) (n : Nat)
    (k : ECollisionType) (chk : Bool) (Func : Option UEFunction)
    (hF : k = ECollisionType.ParameterName ↔ Func ≠ none) :
    prioritySearch self SN S n k chk Func
      = (targetSpec SN k Func).map
          (fun tgt => (tgt, firstMatchSpec (searchOrderSpec self SN S k chk Func) n)) := by
  cases Func with
  | none =>
    have hk : k ≠ ECollisionType.ParameterName := fun h => (hF.mp h) rfl
    simp only [prioritySearch, targetSpec, if_neg hk, Option.map_some', searchOrderSpec,
      List.nil_append, scopeSearch_eq_firstMatchSpec]
  | some F =>
    have hk : k = ECollisionType.ParameterName := hF.mpr (by simp)
    have hscope := scopeSearch_eq_firstMatchSpec self.NameInfos self.ReservedNames SN S n chk
    unfold firstMatchSpec at hscope
    simp only [prioritySearch, targetSpec, if_pos hk, Option.map_some', searchOrderSpec,
      firstMatchSpec, List.cons_append, List.findSome?_cons, List.append_assoc,
      List.findSome?_append, ← findExisting_eq_mostRecentSpec] at hscope ⊢
    cases findExisting (self.NameInfos.at F.Index) n with
    | some e => rfl
    | none =>
      cases chk with
      | false =>
        simp only [reservedSearch, Bool.false_eq_true, if_false, List.findSome?_nil,
          Option.map_none', Option.none_or] at hscope ⊢
        rw [hscope]
      | true =>
        simp only [reservedSearch, if_true, List.findSome?_cons, List.findSome?_nil,
          ← findExisting_eq_mostRecentSpec] at hscope ⊢
        cases hR : findExisting self.ReservedNames n with
        | some e => rfl
        | none =>
          simp only [hR, Option.map_none', Option.none_or] at hscope ⊢
          rw [hscope]

/-- C14: for a registration of an already interned name (a function scope is given exactly
for a parameter), `AddNameToContainer` completes, the record it appends is made from the
match of the specification (the most recent record of the name in the first table, in the
priority order, that contains it; a match in an ancestor's table, and only such a match, is a
super hit) or is a record without collisions when no table contains the name, the record is
appended to the table of the function for a parameter and of the scope's own type otherwise,
and the position returned is the size of that table minus one. -/
theorem C14_AddNameToContainer_refines_priority_order (B : BitLayout) (self : CollisionManager)
    (StructNames : Nat) (Struct : UEStruct) (n : Nat) (k : ECollisionType) (chk : Bool)
    (Func : Option UEFunction) (hF : k = ECollisionType.ParameterName ↔ Func ≠ none) :
    ∃ tgt self', targetSpec StructNames k Func = some tgt
      ∧ self.AddNameToContainer B StructNames Struct (n, false) k chk Func
          = some (self', (self'.NameInfos.at tgt).length - 1)
      ∧ self.Appended self' tgt
          (recordFor B n k (firstMatchSpec (searchOrderSpec self StructNames Struct k chk Func) n)) := by
  have hspec := AddNameToContainer_spec B self StructNames Struct n k chk Func
  rw [prioritySearch_eq_spec self StructNames Struct n k chk Func hF] at hspec
  have htgt : ∃ tgt, targetSpec StructNames k Func = some tgt := by
    unfold targetSpec
    cases Func with
    | none => exact ⟨StructNames, by rw [if_neg (fun h => (hF.mp h) rfl)]⟩
    | some F => exact ⟨F.Index, by rw [if_pos (hF.mpr (by simp))]; rfl⟩
  obtain ⟨tgt, htgt⟩ := htgt
  rw [htgt] at hspec
  obtain ⟨self', hrun, happ⟩ := hspec
  refine ⟨tgt, self', htgt, ?_, happ⟩
  rw [hrun, happ.1.at_tgt]
  simp

/-- C14, at a concrete call: the data member `Value` of `Leaf` is registered after `Middle` and
`Base` were built. -/
theorem C14_AddNameToContainer_refines_priority_order_witness :
    ∃ tgt self', targetSpec 5 ECollisionType.MemberName none = some tgt
      ∧ exAfterMiddle.AddNameToContainer B0 5 exLeaf (0, false) ECollisionType.MemberName true none
          = some (self', (self'.NameInfos.at tgt).length - 1)
      ∧ exAfterMiddle.Appended self' tgt
          (recordFor B0 0 ECollisionType.MemberName
            (firstMatchSpec
              (searchOrderSpec exAfterMiddle 5 exLeaf ECollisionType.MemberName true none) 0)) :=
  C14_AddNameToContainer_refines_priority_order B0 exAfterMiddle 5 exLeaf 0
    ECollisionType.MemberName true none (by decide)

/-! ## The driver as a sequence of registrations -/

theorem registerAll_append (B : BitLayout) (S : UEStruct) :
    ∀ (a b : List Registration) (s : CollisionManager),
      registerAll B S s (a ++ b) =
        match registerAll B S s a with
        | none => none
        | some s1 => registerAll B S s1 b := by
  intro a
  induction a with
  | nil => intro b s; rfl
  | cons op rest ih =>
    intro b s
    simp only [List.cons_append, registerAll_cons]
    cases AddToContainerAndTranslationMap B s S op.ValidName op.Key op.CollisionType op.chk
        op.Func with
    | none => rfl
    | some s1 => exact ih b s1

theorem propLoop_eq_registerAll (B : BitLayout) (S : UEStruct) (chk : Bool) :
    ∀ (props : List UEProperty) (s : CollisionManager),
      AddStructToNameContainer.propLoop B S chk s props
        = registerAll B S s (props.map (Registration.ofMember S chk)) := by
  intro props
  induction props with
  | nil => intro s; rfl
  | cons P rest ih =>
    intro s
    simp only [AddStructToNameContainer.propLoop, List.map_cons, registerAll_cons,
      Registration.ofMember]
    cases AddToContainerAndTranslationMap B s S P.ValidName
        (KeyFunctions.GetKeyForCollisionInfoProperty S P) ECollisionType.MemberName chk none with
    | none => rfl
    | some s1 => exact ih s1

theorem paramLoop_eq_registerAll (B : BitLayout) (S : UEStruct) (chk : Bool) (F : UEFunction) :
    ∀ (props : List UEProperty) (s : CollisionManager),
      AddStructToNameContainer.paramLoop B S chk F s props
        = registerAll B S s (props.map (Registration.ofParameter S chk F)) := by
  intro props
  induction props with
  | nil => intro s; rfl
  | cons P rest ih =>
    intro s
    simp only [AddStructToNameContainer.paramLoop, List.map_cons, registerAll_cons,
      Registration.ofParameter]
    cases AddToContainerAndTranslationMap B s S P.ValidName
        (KeyFunctions.GetKeyForCollisionInfoProperty S P) ECollisionType.ParameterName chk
        (some F) with
    | none => rfl
    | some s1 => exact ih s1

theorem funcLoop_eq_registerAll (B : BitLayout) (S : UEStruct) (chk : Bool) :
    ∀ (funcs : List UEFunction) (s : CollisionManager),
      AddStructToNameContainer.funcLoop B S chk s funcs
        = registerAll B S s (funcRegistrations S chk funcs) := by
  intro funcs
  induction funcs with
  | nil => intro s; rfl
  | cons F rest ih =>
    intro s
    simp only [AddStructToNameContainer.funcLoop, funcRegistrations, registerAll_cons,
      Registration.ofFunction]
    cases AddToContainerAndTranslationMap B s S F.ValidName
        (KeyFunctions.GetKeyForCollisionInfoFunction S F) ECollisionType.FunctionName chk none with
    | none => rfl
    | some s1 =>
      simp only [registerAll_append, paramLoop_eq_registerAll]
      cases registerAll B S s1 (F.Properties.map (Registration.ofParameter S chk F)) with
      | none => rfl
      | some s2 => exact ih s2

/-- The loops of the driver make the registrations of `registrationsOf`, in order. -/
theorem build_eq_registerAll (B : BitLayout) (s : CollisionManager) (S : UEStruct) (chk : Bool) :
    AddStructToNameContainer.build B s S chk =
      if (s.NameInfos.at S.GetIndex).isEmpty then
        registerAll B S { s with NameInfos := s.NameInfos.touch S.GetIndex } (registrationsOf S chk)
      else some { s with NameInfos := s.NameInfos.touch S.GetIndex } := by
  unfold AddStructToNameContainer.build registrationsOf
  simp only [NameInfoMap.at_touch, registerAll_append, propLoop_eq_registerAll,
    funcLoop_eq_registerAll]

/-- A registration of the driver has a function exactly when it is a parameter. -/
theorem registrationsOf_shape {S : UEStruct} {chk : Bool} {op : Registration}
    (h : op ∈ registrationsOf S chk) :
    (op.Func = none ∧ op.chk = chk ∧ (op.CollisionType = ECollisionType.MemberName
        ∨ op.CollisionType = ECollisionType.FunctionName))
    ∨ (op.CollisionType = ECollisionType.ParameterName ∧ op.chk = chk
        ∧ ∃ F ∈ S.GetFunctions, op.Func = some F) := by
  unfold registrationsOf at h
  rw [List.mem_append] at h
  rcases h with h | h
  · obtain ⟨P, _, rfl⟩ := List.mem_map.1 h
    exact Or.inl ⟨rfl, rfl, Or.inl rfl⟩
  · generalize S.GetFunctions = funcs at h ⊢
    induction funcs with
    | nil => simp [funcRegistrations] at h
    | cons F rest ih =>
      simp only [funcRegistrations, List.mem_cons, List.mem_append, List.mem_map] at h
      rcases h with rfl | ⟨P, _, rfl⟩ | h
      · exact Or.inl ⟨rfl, rfl, Or.inr rfl⟩
      · exact Or.inr ⟨rfl, rfl, F, List.mem_cons_self _ _, rfl⟩
      · rcases ih h with h' | ⟨h1, h2, F', hF', h3⟩
        · exact Or.inl h'
        · exact Or.inr ⟨h1, h2, F', List.mem_cons_of_mem _ hF', h3⟩

theorem registrationsOf_func_ok {S : UEStruct} {chk : Bool} {op : Registration}
    (h : op ∈ registrationsOf S chk) :
    op.CollisionType = ECollisionType.ParameterName → op.Func ≠ none := by
  intro hk
  rcases registrationsOf_shape h with ⟨_, _, h1 | h1⟩ | ⟨_, _, F, _, hF⟩
  · rw [hk] at h1; exact absurd h1 (by decide)
  · rw [hk] at h1; exact absurd h1 (by decide)
  · rw [hF]; simp

/-! ## The keys of the scope store -/

theorem NameInfoMap.set_isSome (m : NameInfoMap) (k : Nat) (c : NameContainer) (k' : Nat) :
    ((m.set k c) k').isSome = true ↔ k' = k ∨ (m k').isSome = true := by
  unfold NameInfoMap.set
  by_cases h : k' = k
  · simp [h]
  · simp [h]

theorem NameInfoMap.KeysWithin.refl (m : NameInfoMap) (allowed : Nat → Prop) :
    m.KeysWithin m allowed :=
  fun _ => ⟨id, Or.inl⟩

theorem NameInfoMap.KeysWithin.followed {m m' m'' : NameInfoMap} {allowed : Nat → Prop}
    (h1 : m.KeysWithin m' allowed) (h2 : m'.KeysWithin m'' allowed) :
    m.KeysWithin m'' allowed := by
  intro k
  refine ⟨fun h => (h2 k).1 ((h1 k).1 h), fun h => ?_⟩
  rcases (h2 k).2 h with h' | h'
  · exact (h1 k).2 h'
  · exact Or.inr h'

theorem NameInfoMap.KeysWithin.mono {m m' : NameInfoMap} {allowed allowed' : Nat → Prop}
    (h : m.KeysWithin m' allowed) (hsub : ∀ k, allowed k → allowed' k) :
    m.KeysWithin m' allowed' :=
  fun k => ⟨(h k).1, fun hk => ((h k).2 hk).imp id (hsub k)⟩

theorem NameInfoMap.KeysWithin.of_set (m : NameInfoMap) (k : Nat) (c : NameContainer) :
    m.KeysWithin (m.set k c) (fun x => x = k) := by
  intro k'
  rw [NameInfoMap.set_isSome]
  exact ⟨Or.inr, fun h => h.symm⟩

theorem NameInfoMap.KeysWithin.of_touch (m : NameInfoMap) (k : Nat) :
    m.KeysWithin (m.touch k) (fun x => x = k) :=
  NameInfoMap.KeysWithin.of_set m k _

theorem NameInfoMap.KeysWithin.of_push_back (m : NameInfoMap) (k : Nat) (r : NameInfo) :
    m.KeysWithin (m.push_back k r) (fun x => x = k) :=
  NameInfoMap.KeysWithin.of_set m k _

theorem NameInfoMap.touch_isSome (m : NameInfoMap) (k : Nat) : ((m.touch k) k).isSome = true := by
  unfold NameInfoMap.touch
  rw [NameInfoMap.set_isSome]
  exact Or.inl rfl

/-- The call `NameInfos[k]` changes nothing when the key is present. -/
theorem NameInfoMap.touch_of_isSome {m : NameInfoMap} {k : Nat} (h : (m k).isSome = true) :
    m.touch k = m := by
  funext k'
  unfold NameInfoMap.touch NameInfoMap.set NameInfoMap.at
  by_cases hk : k' = k
  · subst hk
    cases hm : m k' with
    | none => rw [hm] at h; simp at h
    | some c => simp
  · simp [hk]

theorem AddCollidingName_keys {B : BitLayout} {m m' : NameInfoMap} {S : NameContainer}
    {tgt n : Nat} {k : ECollisionType} {b f : Bool}
    (h : AddCollidingName B m S (some tgt) n k b = some (m', f)) :
    m.KeysWithin m' (fun x => x = tgt) := by
  rw [AddCollidingName_some] at h
  cases hfind : findExisting S n with
  | none =>
    rw [hfind] at h
    simp only [Option.some.injEq, Prod.mk.injEq] at h
    rw [← h.1]
    exact NameInfoMap.KeysWithin.refl _ _
  | some e =>
    rw [hfind] at h
    simp only [Option.some.injEq, Prod.mk.injEq] at h
    rw [← h.1]
    exact NameInfoMap.KeysWithin.of_push_back _ _ _

theorem superLoop_keys {B : BitLayout} {tgt n : Nat} {k : ECollisionType} (Current : UEStruct) :
    ∀ (m m' : NameInfoMap) (f : Bool),
      AddNameToContainer.superLoop B (some tgt) n k m Current = some (m', f) →
      m.KeysWithin m' (fun x => x = tgt ∨ ∃ A ∈ Current.chain, x = A.GetIndex) := by
  induction Current with
  | root d =>
    intro m m' f h
    simp only [AddNameToContainer.superLoop] at h
    refine NameInfoMap.KeysWithin.followed
      ((NameInfoMap.KeysWithin.of_touch m d.Index).mono ?_) ((AddCollidingName_keys h).mono ?_)
    · intro x hx; exact Or.inr ⟨.root d, by simp [UEStruct.chain], hx⟩
    · intro x hx; exact Or.inl hx
  | derived d Super ih =>
    intro m m' f h
    simp only [AddNameToContainer.superLoop] at h
    have htouch : m.KeysWithin (m.touch d.Index)
        (fun x => x = tgt ∨ ∃ A ∈ (UEStruct.derived d Super).chain, x = A.GetIndex) :=
      (NameInfoMap.KeysWithin.of_touch m d.Index).mono
        (fun x hx => Or.inr ⟨.derived d Super, by simp [UEStruct.chain], hx⟩)
    cases hc : AddCollidingName B (m.touch d.Index) ((m.touch d.Index).at d.Index) (some tgt) n k
        true with
    | none => rw [hc] at h; simp at h
    | some res =>
      obtain ⟨m2, f2⟩ := res
      rw [hc] at h
      have hk2 := (AddCollidingName_keys hc).mono
        (fun x (hx : x = tgt) => (Or.inl hx : x = tgt ∨ ∃ A ∈ (UEStruct.derived d Super).chain,
          x = A.GetIndex))
      cases f2 with
      | true =>
        simp only [Option.some.injEq, Prod.mk.injEq] at h
        rw [← h.1]
        exact htouch.followed hk2
      | false =>
        simp only at h
        refine (htouch.followed hk2).followed ((ih m2 m' f h).mono ?_)
        rintro x (hx | ⟨A, hA, hx⟩)
        · exact Or.inl hx
        · exact Or.inr ⟨A, by simp [UEStruct.chain, hA], hx⟩

theorem searchScopes_keys {B : BitLayout} {R : NameContainer} {m m' : NameInfoMap} {SN : Nat}
    {S : UEStruct} {n : Nat} {k : ECollisionType} {chk : Bool} {FuncParamNames : Option Nat}
    {i : Nat}
    (h : AddNameToContainer.searchScopes B R m SN S n k chk FuncParamNames = some (m', i)) :
    m.KeysWithin m'
      (fun x => x = SN ∨ FuncParamNames = some x ∨ ∃ A ∈ S.ancestors, x = A.GetIndex) := by
  unfold AddNameToContainer.searchScopes at h
  simp only at h
  cases htgt : (if decide (k = ECollisionType.ParameterName) = true then FuncParamNames
      else some SN) with
  | none =>
    rw [htgt] at h
    simp [AddCollidingName] at h
  | some tgt =>
    rw [htgt] at h
    have hallowed : ∀ x, x = tgt →
        (x = SN ∨ FuncParamNames = some x ∨ ∃ A ∈ S.ancestors, x = A.GetIndex) := by
      intro x hx
      subst hx
      by_cases hk : decide (k = ECollisionType.ParameterName) = true
      · rw [if_pos hk] at htgt; exact Or.inr (Or.inl htgt)
      · rw [if_neg hk] at htgt
        simp only [Option.some.injEq] at htgt
        exact Or.inl htgt.symm
    cases hc1 : AddCollidingName B m (m.at SN) (some tgt) n k false with
    | none => rw [hc1] at h; simp at h
    | some res1 =>
      obtain ⟨m1, f1⟩ := res1
      rw [hc1] at h
      have hk1 := (AddCollidingName_keys hc1).mono hallowed
      cases f1 with
      | true =>
        simp only [Option.map_some', Option.some.injEq, Prod.mk.injEq] at h
        rw [← h.1]; exact hk1
      | false =>
        simp only at h
        have hsup : ∀ m2 f2, (match S.GetSuper with
            | none => some (m1, false)
            | some Current => AddNameToContainer.superLoop B (some tgt) n k m1 Current)
            = some (m2, f2) →
            m1.KeysWithin m2
              (fun x => x = SN ∨ FuncParamNames = some x ∨ ∃ A ∈ S.ancestors, x = A.GetIndex) := by
          intro m2 f2 h2
          cases hS : S.GetSuper with
          | none =>
            rw [hS] at h2
            simp only [Option.some.injEq, Prod.mk.injEq] at h2
            rw [← h2.1]; exact NameInfoMap.KeysWithin.refl _ _
          | some Current =>
            rw [hS] at h2
            refine (superLoop_keys Current m1 m2 f2 h2).mono ?_
            rintro x (hx | ⟨A, hA, hx⟩)
            · exact hallowed x hx
            · exact Or.inr (Or.inr ⟨A, by simp [UEStruct.ancestors, hS, hA], hx⟩)
        split at h
        · simp at h
        · next m2 hc2 =>
          have hk2 := hk1.followed (hsup m2 true hc2)
          simp only [Option.map_some', Option.some.injEq, Prod.mk.injEq] at h
          rw [← h.1]; exact hk2
        · next m2 hc2 =>
          have hk2 := hk1.followed (hsup m2 false hc2)
          cases hc3 : (if chk = true then
              AddCollidingName B m2 R (some tgt) n k false else some (m2, false)) with
          | none => rw [hc3] at h; simp at h
          | some res3 =>
            obtain ⟨m3, f3⟩ := res3
            rw [hc3] at h
            have hk3 : m.KeysWithin m3
                (fun x => x = SN ∨ FuncParamNames = some x
                  ∨ ∃ A ∈ S.ancestors, x = A.GetIndex) := by
              cases chk with
              | true =>
                simp only [if_true] at hc3
                exact hk2.followed ((AddCollidingName_keys hc3).mono hallowed)
              | false =>
                simp only [Bool.false_eq_true, if_false, Option.some.injEq,
                  Prod.mk.injEq] at hc3
                rw [← hc3.1]; exact hk2
            cases f3 with
            | true =>
              simp only [Option.map_some', Option.some.injEq, Prod.mk.injEq] at h
              rw [← h.1]; exact hk3
            | false =>
              simp only at h
              split at h
              · next x1 x2 x3 f hf =>
                simp only [Option.some.injEq, Prod.mk.injEq] at h
                rw [← h.1]
                exact hk3.followed ((NameInfoMap.KeysWithin.of_push_back m3 f _).mono
                  (fun x hx => Or.inr (Or.inl (by rw [hx]))))
              · simp only [Option.some.injEq, Prod.mk.injEq] at h
                rw [← h.1]
                exact hk3.followed ((NameInfoMap.KeysWithin.of_push_back m3 SN _).mono
                  (fun x hx => Or.inl hx))

theorem searchFunc_keys {B : BitLayout} {R : NameContainer} {m : NameInfoMap} {F : UEFunction}
    {n : Nat} {ins : Bool} {k : ECollisionType} {chk : Bool}
    {res : Sum (NameInfoMap × Nat) NameInfoMap}
    (h : AddNameToContainer.searchFunc B R m F n ins k chk = some res) :
    m.KeysWithin (Sum.elim (fun r => r.1) (fun m' => m') res) (fun x => x = F.Index) := by
  unfold AddNameToContainer.searchFunc at h
  simp only at h
  have ht := NameInfoMap.KeysWithin.of_touch m F.Index
  split at h
  · simp only [Option.some.injEq] at h
    rw [← h]
    exact ht.followed (NameInfoMap.KeysWithin.of_push_back _ _ _)
  · split at h
    · simp at h
    · next m2 hc =>
      simp only [Option.some.injEq] at h
      rw [← h]
      exact ht.followed (AddCollidingName_keys hc)
    · next m2 hc =>
      have h2 := ht.followed (AddCollidingName_keys hc)
      split at h
      · split at h
        · simp at h
        · next m3 hc3 =>
          simp only [Option.some.injEq] at h
          rw [← h]
          exact h2.followed (AddCollidingName_keys hc3)
        · next m3 hc3 =>
          simp only [Option.some.injEq] at h
          rw [← h]
          exact h2.followed (AddCollidingName_keys hc3)
      · simp only [Option.some.injEq] at h
        rw [← h]
        exact h2

/-- The keys of the scope store after `AddNameToContainer`: no key is removed, and a new key
is the key of the struct's table, of the function's table or of an ancestor's table. -/
theorem AddNameToContainer_keys {B : BitLayout} {self self' : CollisionManager} {SN : Nat}
    {S : UEStruct} {NamePair : Nat × Bool} {k : ECollisionType} {chk : Bool}
    {Func : Option UEFunction} {i : Nat}
    (h : self.AddNameToContainer B SN S NamePair k chk Func = some (self', i)) :
    self.NameInfos.KeysWithin self'.NameInfos
      (fun x => x = SN ∨ (∃ F, Func = some F ∧ x = F.Index)
        ∨ ∃ A ∈ S.ancestors, x = A.GetIndex) := by
  unfold CollisionManager.AddNameToContainer at h
  simp only at h
  split at h
  · simp only [Option.some.injEq, Prod.mk.injEq] at h
    rw [← h.1]
    exact (NameInfoMap.KeysWithin.of_push_back _ _ _).mono (fun x hx => Or.inl hx)
  · cases Func with
    | none =>
      simp only [Option.map_eq_some'] at h
      obtain ⟨⟨m', j⟩, hs, heq⟩ := h
      simp only [Prod.mk.injEq] at heq
      rw [← heq.1]
      refine (searchScopes_keys hs).mono ?_
      rintro x (hx | hx | hx)
      · exact Or.inl hx
      · simp at hx
      · exact Or.inr (Or.inr hx)
    | some F =>
      simp only [Option.map_eq_some'] at h
      obtain ⟨⟨m', j⟩, hs, heq⟩ := h
      simp only [Prod.mk.injEq] at heq
      rw [← heq.1]
      split at hs
      · simp at hs
      · next r hf =>
        simp only [Option.some.injEq] at hs
        have := searchFunc_keys hf
        simp only [Sum.elim_inl] at this
        rw [hs] at this
        exact this.mono (fun x hx => Or.inr (Or.inl ⟨F, rfl, hx⟩))
      · next m1 hf =>
        have h1 := searchFunc_keys hf
        simp only [Sum.elim_inr] at h1
        refine (h1.mono (fun x hx => Or.inr (Or.inl ⟨F, rfl, hx⟩))).followed
          ((searchScopes_keys hs).mono ?_)
        rintro x (hx | hx | hx)
        · exact Or.inl hx
        · simp only [Option.some.injEq] at hx
          exact Or.inr (Or.inl ⟨F, rfl, hx.symm⟩)
        · exact Or.inr (Or.inr hx)

/-- The keys of the scope store after a call of the lambda of the driver. -/
theorem lambda_keys {B : BitLayout} {self self' : CollisionManager} {S : UEStruct} {w : String}
    {key : Nat} {k : ECollisionType} {chk : Bool} {Func : Option UEFunction}
    (h : AddToContainerAndTranslationMap B self S w key k chk Func = some self') :
    self.NameInfos.KeysWithin self'.NameInfos
      (fun x => x = S.GetIndex ∨ (∃ F, Func = some F ∧ x = F.Index)
        ∨ ∃ A ∈ S.ancestors, x = A.GetIndex) := by
  unfold AddToContainerAndTranslationMap at h
  simp only at h
  split at h
  · simp at h
  · next self2 Index hc =>
    simp only [Option.some.injEq] at h
    rw [← h]
    have hk := AddNameToContainer_keys hc
    exact hk

/-! ## Runs of the driver -/

theorem lambda_step_of_eq {B : BitLayout} (hB : B.ok) {s s' : CollisionManager} {S : UEStruct}
    {w : String} {key : Nat} {k : ECollisionType} {chk : Bool} {Func : Option UEFunction}
    (hF : k = ECollisionType.ParameterName → Func ≠ none)
    (h : AddToContainerAndTranslationMap B s S w key k chk Func = some s') :
    ∃ tgt r, LambdaStep B s s' S w key k chk Func tgt r := by
  obtain ⟨s1, tgt, r, h1, hstep⟩ := lambda_spec B hB s S w key k chk Func hF
  rw [h] at h1
  simp only [Option.some.injEq] at h1
  subst h1
  exact ⟨tgt, r, hstep⟩

theorem registerAll_total_of_func (B : BitLayout) (hB : B.ok) (S : UEStruct) :
    ∀ (ops : List Registration) (s : CollisionManager),
      (∀ op ∈ ops, op.CollisionType = ECollisionType.ParameterName → op.Func ≠ none) →
      ∃ s', registerAll B S s ops = some s' := by
  intro ops
  induction ops with
  | nil => intro s _; exact ⟨s, rfl⟩
  | cons op rest ih =>
    intro s hops
    obtain ⟨s1, tgt, r, h1, -⟩ := lambda_spec B hB s S op.ValidName op.Key op.CollisionType
      op.chk op.Func (hops op (List.mem_cons_self _ _))
    rw [registerAll_cons, h1]
    exact ih s1 (fun op' h' => hops op' (List.mem_cons_of_mem _ h'))

theorem registerAll_keys (B : BitLayout) (S : UEStruct) :
    ∀ (ops : List Registration) (s s' : CollisionManager), registerAll B S s ops = some s' →
      s.NameInfos.KeysWithin s'.NameInfos
        (fun x => x = S.GetIndex ∨ (∃ op ∈ ops, ∃ F, op.Func = some F ∧ x = F.Index)
          ∨ ∃ A ∈ S.ancestors, x = A.GetIndex) := by
  intro ops
  induction ops with
  | nil =>
    intro s s' h
    simp only [registerAll, Option.some.injEq] at h
    rw [← h]; exact NameInfoMap.KeysWithin.refl _ _
  | cons op rest ih =>
    intro s s' h
    rw [registerAll_cons] at h
    split at h
    · simp at h
    · next s1 h1 =>
      refine ((lambda_keys h1).mono ?_).followed ((ih s1 s' h).mono ?_)
      · rintro x (hx | ⟨F, hF, hx⟩ | hx)
        · exact Or.inl hx
        · exact Or.inr (Or.inl ⟨op, List.mem_cons_self _ _, F, hF, hx⟩)
        · exact Or.inr (Or.inr hx)
      · rintro x (hx | ⟨op', hop', F, hF, hx⟩ | hx)
        · exact Or.inl hx
        · exact Or.inr (Or.inl ⟨op', List.mem_cons_of_mem _ hop', F, hF, hx⟩)
        · exact Or.inr (Or.inr hx)

theorem registerAll_mem_mono_of_func (B : BitLayout) (hB : B.ok) (S : UEStruct) :
    ∀ (ops : List Registration) (s s' : CollisionManager),
      (∀ op ∈ ops, op.CollisionType = ECollisionType.ParameterName → op.Func ≠ none) →
      registerAll B S s ops = some s' →
      ∀ key x, x ∈ s.NameInfos.at key → x ∈ s'.NameInfos.at key := by
  intro ops
  induction ops with
  | nil =>
    intro s s' _ h key x hx
    simp only [registerAll, Option.some.injEq] at h
    rw [← h]; exact hx
  | cons op rest ih =>
    intro s s' hops h key x hx
    rw [registerAll_cons] at h
    split at h
    · simp at h
    · next s1 h1 =>
      obtain ⟨tgt, r, hstep⟩ := lambda_step_of_eq hB (hops op (List.mem_cons_self _ _)) h1
      exact ih s1 s' (fun op' h' => hops op' (List.mem_cons_of_mem _ h')) h key x
        (hstep.mem_mono key x hx)

theorem build_total (B : BitLayout) (hB : B.ok) (s : CollisionManager) (S : UEStruct)
    (chk : Bool) : ∃ s', AddStructToNameContainer.build B s S chk = some s' := by
  rw [build_eq_registerAll]
  split
  · exact registerAll_total_of_func B hB S _ _ (fun op hop => registrationsOf_func_ok hop)
  · exact ⟨_, rfl⟩

/-- The per-type driver returns, whatever the manager and the struct. -/
theorem AddStructToNameContainer_total (B : BitLayout) (hB : B.ok) (chk : Bool) :
    ∀ (S : UEStruct) (s : CollisionManager), ∃ s', s.AddStructToNameContainer B S chk = some s' := by
  intro S
  induction S with
  | root d =>
    intro s
    simp only [CollisionManager.AddStructToNameContainer]
    exact build_total B hB s _ chk
  | derived d Super ih =>
    intro s
    simp only [CollisionManager.AddStructToNameContainer]
    split
    · obtain ⟨s1, h1⟩ := ih s
      rw [h1]
      exact build_total B hB s1 _ chk
    · exact build_total B hB s _ chk

theorem build_keys {B : BitLayout} {s s' : CollisionManager} {S : UEStruct} {chk : Bool}
    (h : AddStructToNameContainer.build B s S chk = some s') :
    s.NameInfos.KeysWithin s'.NameInfos
      (fun x => x = S.GetIndex ∨ (∃ F ∈ S.GetFunctions, x = F.Index)
        ∨ ∃ A ∈ S.ancestors, x = A.GetIndex) := by
  rw [build_eq_registerAll] at h
  have ht : s.NameInfos.KeysWithin (s.NameInfos.touch S.GetIndex)
      (fun x => x = S.GetIndex ∨ (∃ F ∈ S.GetFunctions, x = F.Index)
        ∨ ∃ A ∈ S.ancestors, x = A.GetIndex) :=
    (NameInfoMap.KeysWithin.of_touch _ _).mono (fun x hx => Or.inl hx)
  split at h
  · refine ht.followed ((registerAll_keys B S _ _ _ h).mono ?_)
    rintro x (hx | ⟨op, hop, F, hF, hx⟩ | hx)
    · exact Or.inl hx
    · rcases registrationsOf_shape hop with ⟨hnone, -⟩ | ⟨-, -, F', hF', hsome⟩
      · rw [hnone] at hF; simp at hF
      · rw [hsome] at hF
        simp only [Option.some.injEq] at hF
        subst hF
        exact Or.inr (Or.inl ⟨F', hF', hx⟩)
    · exact Or.inr (Or.inr hx)
  · simp only [Option.some.injEq] at h
    rw [← h]; exact ht

theorem build_present {B : BitLayout} {s s' : CollisionManager} {S : UEStruct} {chk : Bool}
    (h : AddStructToNameContainer.build B s S chk = some s') :
    (s'.NameInfos S.GetIndex).isSome = true := by
  have hk := build_keys h
  rw [build_eq_registerAll] at h
  split at h
  · exact (registerAll_keys B S _ _ _ h S.GetIndex).1 (NameInfoMap.touch_isSome _ _)
  · simp only [Option.some.injEq] at h
    rw [← h]; exact NameInfoMap.touch_isSome _ _

theorem AddStructToNameContainer_keys_mono {B : BitLayout} {chk : Bool} :
    ∀ (S : UEStruct) (s s' : CollisionManager), s.AddStructToNameContainer B S chk = some s' →
      (s'.NameInfos S.GetIndex).isSome = true
        ∧ ∀ k, (s.NameInfos k).isSome = true → (s'.NameInfos k).isSome = true := by
  intro S
  induction S with
  | root d =>
    intro s s' h
    simp only [CollisionManager.AddStructToNameContainer] at h
    exact ⟨build_present h, fun k hk => (build_keys h k).1 hk⟩
  | derived d Super ih =>
    intro s s' h
    simp only [CollisionManager.AddStructToNameContainer] at h
    split at h
    · split at h
      · simp at h
      · next s1 h1 =>
        exact ⟨build_present h, fun k hk => (build_keys h k).1 ((ih s s1 h1).2 k hk)⟩
    · exact ⟨build_present h, fun k hk => (build_keys h k).1 hk⟩

theorem registrationsOf_head {S : UEStruct} {chk : Bool} {op : Registration}
    {rest : List Registration} (h : registrationsOf S chk = op :: rest) :
    op.Func = none ∧ op.CollisionType ≠ ECollisionType.ParameterName := by
  unfold registrationsOf at h
  cases hp : S.GetProperties with
  | cons P props =>
    rw [hp] at h
    simp only [List.map_cons, List.cons_append, List.cons.injEq] at h
    rw [← h.1]
    exact ⟨rfl, by simp [Registration.ofMember]⟩
  | nil =>
    rw [hp] at h
    cases hf : S.GetFunctions with
    | nil => rw [hf] at h; simp [funcRegistrations] at h
    | cons F funcs =>
      rw [hf] at h
      simp only [List.map_nil, List.nil_append, funcRegistrations, List.cons.injEq] at h
      rw [← h.1]
      exact ⟨rfl, by simp [Registration.ofFunction]⟩

/-- After the loops of the driver the table of the struct has a record, unless the struct has
neither data members nor functions. -/
theorem build_nonempty {B : BitLayout} (hB : B.ok) {s s' : CollisionManager} {S : UEStruct}
    {chk : Bool} (h : AddStructToNameContainer.build B s S chk = some s') :
    s'.NameInfos.at S.GetIndex ≠ [] ∨ (registrationsOf S chk = []
      ∧ s' = { s with NameInfos := s.NameInfos.touch S.GetIndex }) := by
  rw [build_eq_registerAll] at h
  split at h
  · cases hregs : registrationsOf S chk with
    | nil =>
      rw [hregs] at h
      simp only [registerAll, Option.some.injEq] at h
      exact Or.inr ⟨rfl, h.symm⟩
    | cons op rest =>
      left
      have hops : ∀ op' ∈ registrationsOf S chk,
          op'.CollisionType = ECollisionType.ParameterName → op'.Func ≠ none :=
        fun op' hop' => registrationsOf_func_ok hop'
      rw [hregs] at h hops
      obtain ⟨hnone, hk⟩ := registrationsOf_head hregs
      rw [registerAll_cons] at h
      split at h
      · simp at h
      · next s1 h1 =>
        rw [hnone] at h1
        obtain ⟨s1', r, h1', hstep⟩ := lambda_spec_type B hB
          { s with NameInfos := s.NameInfos.touch S.GetIndex } S op.ValidName op.Key
          op.CollisionType op.chk hk
        rw [h1] at h1'
        simp only [Option.some.injEq] at h1'
        subst h1'
        have hr : r ∈ s1.NameInfos.at S.GetIndex := by
          rw [hstep.1.at_tgt]; simp
        have hr' := registerAll_mem_mono_of_func B hB S rest s1 s'
          (fun op' h' => hops op' (List.mem_cons_of_mem _ h')) h S.GetIndex r hr
        exact List.ne_nil_of_mem hr'
  · next hne =>
    left
    simp only [Option.some.injEq] at h
    rw [← h]
    simp only [NameInfoMap.at_touch]
    intro hnil
    rw [hnil] at hne
    simp at hne

/-- The loops of the driver, run a second time, change nothing. -/
theorem build_idem {B : BitLayout} (hB : B.ok) {s s' : CollisionManager} {S : UEStruct}
    {chk : Bool} (h : AddStructToNameContainer.build B s S chk = some s') :
    AddStructToNameContainer.build B s' S chk = some s' := by
  have hpres := build_present h
  have htouch : ({ s' with NameInfos := s'.NameInfos.touch S.GetIndex } : CollisionManager) = s' := by
    rw [NameInfoMap.touch_of_isSome hpres]
  rw [build_eq_registerAll, htouch]
  rcases build_nonempty hB h with hne | ⟨hregs, -⟩
  · rw [if_neg]
    intro hemp
    exact hne (List.isEmpty_iff.1 hemp)
  · rw [hregs]
    split <;> rfl

/-- C17: the per-type driver returns for every manager and every struct, and a second call
with the same struct returns the manager the first call returned: every table, the keys of
the scope store, the translation map, the name pool and the reserved names are as the first
call left them. -/
theorem C17_driver_idempotent (B : BitLayout) (hB : B.ok) (s : CollisionManager)
    (Struct : UEStruct) (bShouldCheckReservedNames : Bool) :
    ∃ s', s.AddStructToNameContainer B Struct bShouldCheckReservedNames = some s'
      ∧ s'.AddStructToNameContainer B Struct bShouldCheckReservedNames = some s' := by
  obtain ⟨s', h⟩ := AddStructToNameContainer_total B hB bShouldCheckReservedNames Struct s
  refine ⟨s', h, ?_⟩
  cases Struct with
  | root d =>
    simp only [CollisionManager.AddStructToNameContainer] at h ⊢
    exact build_idem hB h
  | derived d Super =>
    simp only [CollisionManager.AddStructToNameContainer] at h ⊢
    have hsuper : (s'.NameInfos Super.GetIndex).isSome = true := by
      split at h
      · split at h
        · simp at h
        · next s1 h1 =>
          exact (build_keys h Super.GetIndex).1
            (AddStructToNameContainer_keys_mono Super s s1 h1).1
      · next hpres =>
        refine (build_keys h Super.GetIndex).1 ?_
        cases hS : s.NameInfos Super.GetIndex with
        | none => rw [hS] at hpres; simp at hpres
        | some c => rfl
    have hb : AddStructToNameContainer.build B s' (.derived d Super) bShouldCheckReservedNames
        = some s' := by
      split at h
      · split at h
        · simp at h
        · exact build_idem hB h
      · exact build_idem hB h
    rw [if_neg (by rw [Option.isNone_iff_eq_none]; intro hn; rw [hn] at hsuper; simp at hsuper)]
    exact hb

/-- C17, at a concrete call: the driver builds `Derived` (and `Base`) from the empty manager,
twice. -/
theorem C17_driver_idempotent_witness :
    ∃ s', CollisionManager.empty.AddStructToNameContainer B0 exDerived true = some s'
      ∧ s'.AddStructToNameContainer B0 exDerived true = some s' :=
  C17_driver_idempotent B0 (by decide) CollisionManager.empty exDerived true

/-! ## The managers at any moment of a run -/

theorem CollisionManager.ReservedInterned.after_reserve {B : BitLayout} {s : CollisionManager}
    (h : s.ReservedInterned) (w : String) (p : Bool) : (s.AddReservedName B w p).ReservedInterned := by
  intro r hr
  simp only [CollisionManager.AddReservedName, List.mem_append, List.mem_singleton] at hr ⊢
  rcases hr with hr | hr
  · exact Nat.lt_of_lt_of_le (h r hr) (FindOrAdd_length_le _ _)
  · rw [hr]
    exact FindOrAdd_index_lt _ _

theorem CollisionManager.ReservedInterned.after_lambda_step {B : BitLayout} {s s' : CollisionManager}
    {S : UEStruct} {w : String} {key : Nat} {k : ECollisionType} {chk : Bool}
    {Func : Option UEFunction} {tgt : Nat} {r : NameInfo} (h : s.ReservedInterned)
    (hstep : LambdaStep B s s' S w key k chk Func tgt r) : s'.ReservedInterned := by
  obtain ⟨-, hpool, hres, -⟩ := hstep
  intro x hx
  rw [hres] at hx
  rw [hpool]
  exact Nat.lt_of_lt_of_le (h x hx) (FindOrAdd_length_le _ _)

theorem registrationsOf_kind {S : UEStruct} {chk : Bool} {op : Registration}
    (h : op ∈ registrationsOf S chk) :
    op.CollisionType = ECollisionType.MemberName ∨ op.CollisionType = ECollisionType.FunctionName
      ∨ op.CollisionType = ECollisionType.ParameterName := by
  rcases registrationsOf_shape h with ⟨-, -, h1 | h1⟩ | ⟨h1, -⟩
  · exact Or.inl h1
  · exact Or.inr (Or.inl h1)
  · exact Or.inr (Or.inr h1)

/-- At any moment of a run the tables are chained, and every name of a table and every
reserved word is interned. -/
theorem Registering.invariant {B : BitLayout} (hB : B.ok) {U : List UEStruct} {s : CollisionManager}
    (h : Registering B U s) : s.Inv B ∧ s.ReservedInterned := by
  induction h with
  | empty => exact ⟨CollisionManager.Inv.empty B, fun r hr => by simp [CollisionManager.empty] at hr⟩
  | reserve s w p _ ih => exact ⟨ih.1.reserve w p, ih.2.after_reserve w p⟩
  | enter s S _ _ ih => exact ⟨ih.1.touch S.GetIndex, ih.2⟩
  | register s s' S chk op _ _ hop hrun ih =>
    obtain ⟨tgt, r, hstep⟩ := lambda_step_of_eq hB (registrationsOf_func_ok hop) hrun
    exact ⟨ih.1.lambda (registrationsOf_kind hop) hstep, ih.2.after_lambda_step hstep⟩

theorem registerAll_registering {B : BitLayout} {U : List UEStruct} {S : UEStruct} (hS : S ∈ U)
    (chk : Bool) :
    ∀ (ops : List Registration) (s s' : CollisionManager),
      (∀ op ∈ ops, op ∈ registrationsOf S chk) → Registering B U s →
      registerAll B S s ops = some s' → Registering B U s' := by
  intro ops
  induction ops with
  | nil =>
    intro s s' _ hs h
    simp only [registerAll, Option.some.injEq] at h
    rw [← h]; exact hs
  | cons op rest ih =>
    intro s s' hops hs h
    rw [registerAll_cons] at h
    split at h
    · simp at h
    · next s1 h1 =>
      exact ih s1 s' (fun op' h' => hops op' (List.mem_cons_of_mem _ h'))
        (Registering.register s s1 S chk op hs hS (hops op (List.mem_cons_self _ _)) h1) h

theorem build_registering {B : BitLayout} {U : List UEStruct} {S : UEStruct} (hS : S ∈ U)
    {chk : Bool} {s s' : CollisionManager} (hs : Registering B U s)
    (h : AddStructToNameContainer.build B s S chk = some s') : Registering B U s' := by
  rw [build_eq_registerAll] at h
  have hent := Registering.enter s S hs hS
  split at h
  · exact registerAll_registering hS chk _ _ s' (fun _ h' => h') hent h
  · simp only [Option.some.injEq] at h
    rw [← h]; exact hent

theorem UEStruct.ancestors_derived (d : UEStructData) (Super : UEStruct) :
    (UEStruct.derived d Super).ancestors = Super :: Super.ancestors := by
  cases Super with
  | root d' => rfl
  | derived d' S' => rfl

/-- The managers between the calls of the driver are managers of a run. -/
theorem AddStructToNameContainer_registering {B : BitLayout} {U : List UEStruct}
    (hU : ScopesClosed U) {chk : Bool} :
    ∀ (S : UEStruct) (s s' : CollisionManager), S ∈ U → Registering B U s →
      s.AddStructToNameContainer B S chk = some s' → Registering B U s' := by
  intro S
  induction S with
  | root d =>
    intro s s' hS hs h
    simp only [CollisionManager.AddStructToNameContainer] at h
    exact build_registering hS hs h
  | derived d Super ih =>
    intro s s' hS hs h
    simp only [CollisionManager.AddStructToNameContainer] at h
    have hSuper : Super ∈ U :=
      hU _ hS Super (by rw [UEStruct.ancestors_derived]; exact List.mem_cons_self _ _)
    split at h
    · split at h
      · simp at h
      · next s1 h1 => exact build_registering hS (ih s s1 hSuper hs h1) h
    · exact build_registering hS hs h

theorem ReachableIn.registering {B : BitLayout} {U : List UEStruct} (hU : ScopesClosed U)
    {s : CollisionManager} (h : ReachableIn B U s) : Registering B U s := by
  induction h with
  | empty => exact Registering.empty
  | reserve s w p _ ih => exact Registering.reserve s w p ih
  | build s s' S chk _ hS hrun ih => exact AddStructToNameContainer_registering hU S s s' hS ih hrun

/-! ## Records of one name and one kind in a table -/

/-- C18: in a table of a manager reachable by `AddReservedName` and the per-type driver, in
which no record has the counter of its own kind at capacity, of two records with the same raw
name and the same own kind the later one has the strictly larger count of that kind, and the
two have different stringified names. -/
theorem C18_later_record_counts_more (B : BitLayout) (hB : B.ok) (s : CollisionManager)
    (hs : Reachable B s) (k : Nat) (Struct : UEStruct)
    (hcap : ∀ r ∈ s.NameInfos.at k, r.BelowCapacity B)
    (i j : Nat) (x y : NameInfo) (hij : i < j)
    (hx : (s.NameInfos.at k)[i]? = some x) (hy : (s.NameInfos.at k)[j]? = some y)
    (hname : x.Name = y.Name) (hkind : x.OwnType B = y.OwnType B) :
    x.CollisionCount B (x.OwnType B) < y.CollisionCount B (y.OwnType B)
      ∧ s.StringifyName B Struct x ≠ s.StringifyName B Struct y := by
  obtain ⟨hchain, -, hkinds⟩ := hs.inv hB
  have hpw := (hchain k).pairwise hB (hkinds k) hcap
  rw [List.pairwise_iff_getElem] at hpw
  obtain ⟨hi, hxi⟩ := List.getElem?_eq_some.1 hx
  obtain ⟨hj, hyj⟩ := List.getElem?_eq_some.1 hy
  have hprec := hpw i j hi hj hij (by rw [hxi, hyj]; exact hname)
  rw [hxi, hyj] at hprec
  refine ⟨?_, StringifyName_ne_of_precedes B s Struct x y hname hkind
    (hkinds k x (hxi ▸ List.getElem_mem hi)) hprec⟩
  have h := hprec.2.2.2
  rw [hkind] at h ⊢
  exact h

/-- C18, at a concrete table: the two data members `A` of `Clash`. -/
theorem C18_later_record_counts_more_witness :
    (NameInfo.mk 0 0).CollisionCount B0 ((NameInfo.mk 0 0).OwnType B0)
        < (NameInfo.mk 0 128).CollisionCount B0 ((NameInfo.mk 0 128).OwnType B0)
      ∧ exAfterClash.StringifyName B0 exClash (NameInfo.mk 0 0)
          ≠ exAfterClash.StringifyName B0 exClash (NameInfo.mk 0 128) :=
  C18_later_record_counts_more B0 (by decide) exAfterClash
    (Reachable.build CollisionManager.empty exAfterClash exClash true Reachable.empty (by rfl))
    8 exClash (by decide) 0 1 (NameInfo.mk 0 0) (NameInfo.mk 0 128) (by decide) (by decide)
    (by decide) (by decide) (by decide)

/-! ## The fast path for a newly interned name -/

theorem searchOrderSpec_mem {self : CollisionManager} {SN : Nat} {S : UEStruct}
    {k : ECollisionType} {chk : Bool} {Func : Option UEFunction} {p : NameContainer × Bool}
    (hp : p ∈ searchOrderSpec self SN S k chk Func) :
    (∃ F, Func = some F ∧ k = ECollisionType.ParameterName ∧ p = (self.NameInfos.at F.Index, false))
    ∨ p = (self.ReservedNames, false)
    ∨ p = (self.NameInfos.at SN, false)
    ∨ ∃ A ∈ S.ancestors, p = (self.NameInfos.at A.GetIndex, true) := by
  unfold searchOrderSpec at hp
  simp only [List.mem_append, List.mem_singleton, List.mem_map] at hp
  have hres : p ∈ (if chk = true then [(self.ReservedNames, false)] else []) →
      p = (self.ReservedNames, false) := by
    intro h
    cases chk with
    | true => simp only [if_true, List.mem_singleton] at h; exact h
    | false => simp at h
  rcases hp with ((hp | hp) | ⟨A, hA, hp⟩) | hp
  · cases Func with
    | none => simp at hp
    | some F =>
      simp only at hp
      split at hp
      · next hk =>
        rw [List.mem_cons] at hp
        rcases hp with hp | hp
        · exact Or.inl ⟨F, rfl, hk, hp⟩
        · exact Or.inr (Or.inl (hres hp))
      · simp at hp
  · exact Or.inr (Or.inr (Or.inl hp))
  · exact Or.inr (Or.inr (Or.inr ⟨A, hA, hp.symm⟩))
  · exact Or.inr (Or.inl (hres hp))

theorem searchOrderSpec_tables (self : CollisionManager) (SN : Nat) (S : UEStruct)
    (k : ECollisionType) (chk : Bool) (Func : Option UEFunction) :
    ∀ p ∈ searchOrderSpec self SN S k chk Func,
      (∃ key, p.1 = self.NameInfos.at key) ∨ p.1 = self.ReservedNames := by
  intro p hp
  rcases searchOrderSpec_mem hp with ⟨F, -, -, h⟩ | h | h | ⟨A, -, h⟩
  · exact Or.inl ⟨F.Index, by rw [h]⟩
  · exact Or.inr (by rw [h])
  · exact Or.inl ⟨SN, by rw [h]⟩
  · exact Or.inl ⟨A.GetIndex, by rw [h]⟩

/-- C19: at any moment of a run, when the name pool reports the raw name of a registration as
newly inserted, no record of any table and no reserved word carries the new name, so the
priority search of the specification finds no match; the fast path and the full search of
`AddNameToContainer` both complete, return the same position, and append the same record
without collisions to the same table: the table of the function for a parameter, the table of
the struct otherwise. -/
theorem C19_fast_path_refines_full_search (B : BitLayout) (hB : B.ok) (U : List UEStruct)
    (s : CollisionManager) (hs : Registering B U s) (Struct : UEStruct) (w : String)
    (k : ECollisionType) (chk : Bool) (Func : Option UEFunction)
    (hF : k = ECollisionType.ParameterName → Func ≠ none)
    (hnew : (HashStringTable.FindOrAdd s.MemberNames w).2.2 = true) :
    (∀ key, ∀ r ∈ s.NameInfos.at key, r.Name ≠ (HashStringTable.FindOrAdd s.MemberNames w).2.1)
    ∧ (∀ r ∈ s.ReservedNames, r.Name ≠ (HashStringTable.FindOrAdd s.MemberNames w).2.1)
    ∧ firstMatchSpec
        (searchOrderSpec { s with MemberNames := (HashStringTable.FindOrAdd s.MemberNames w).1 }
          Struct.GetIndex Struct k chk Func)
        (HashStringTable.FindOrAdd s.MemberNames w).2.1 = none
    ∧ ∃ tgt fast full, targetSpec Struct.GetIndex k Func = some tgt
      ∧ CollisionManager.AddNameToContainer B
          { s with MemberNames := (HashStringTable.FindOrAdd s.MemberNames w).1 }
          Struct.GetIndex Struct ((HashStringTable.FindOrAdd s.MemberNames w).2.1, true) k chk Func
          = some (fast, (s.NameInfos.at tgt).length)
      ∧ CollisionManager.AddNameToContainer B
          { s with MemberNames := (HashStringTable.FindOrAdd s.MemberNames w).1 }
          Struct.GetIndex Struct ((HashStringTable.FindOrAdd s.MemberNames w).2.1, false) k chk Func
          = some (full, (s.NameInfos.at tgt).length)
      ∧ CollisionManager.Appended
          { s with MemberNames := (HashStringTable.FindOrAdd s.MemberNames w).1 } fast tgt
          (NameInfo.new B (HashStringTable.FindOrAdd s.MemberNames w).2.1 k)
      ∧ CollisionManager.Appended
          { s with MemberNames := (HashStringTable.FindOrAdd s.MemberNames w).1 } full tgt
          (NameInfo.new B (HashStringTable.FindOrAdd s.MemberNames w).2.1 k) := by
  obtain ⟨⟨-, hnames, -⟩, hres⟩ := hs.invariant hB
  have hn := FindOrAdd_inserted hnew
  generalize (HashStringTable.FindOrAdd s.MemberNames w).2.1 = n at hn ⊢
  generalize (HashStringTable.FindOrAdd s.MemberNames w).1 = pool
  have hno : ∀ key, ∀ r ∈ s.NameInfos.at key, r.Name ≠ n := by
    intro key r hr heq
    have := hnames key r hr
    omega
  have hnoR : ∀ r ∈ s.ReservedNames, r.Name ≠ n := by
    intro r hr heq
    have := hres r hr
    omega
  have hfind : ∀ key, findExisting (s.NameInfos.at key) n = none :=
    fun key => findExisting_eq_none.2 (hno key)
  have hfindR : findExisting s.ReservedNames n = none := findExisting_eq_none.2 hnoR
  have htgt : ∃ tgt, targetSpec Struct.GetIndex k Func = some tgt := by
    unfold targetSpec
    by_cases hk : k = ECollisionType.ParameterName
    · cases Func with
      | none => exact absurd rfl (hF hk)
      | some F => exact ⟨F.Index, by rw [if_pos hk]; rfl⟩
    · exact ⟨Struct.GetIndex, by rw [if_neg hk]⟩
  obtain ⟨tgt, htgt⟩ := htgt
  refine ⟨hno, hnoR, ?_, ?_⟩
  · unfold firstMatchSpec
    rw [List.findSome?_eq_none_iff]
    intro p hp
    rw [Option.map_eq_none', ← findExisting_eq_mostRecentSpec]
    rcases searchOrderSpec_tables _ _ _ _ _ _ p hp with ⟨key, hkey⟩ | hR
    · rw [hkey]; exact hfind key
    · rw [hR]; exact hfindR
  · have hscope : scopeSearch s.NameInfos s.ReservedNames Struct.GetIndex Struct n chk = none :=
      scopeSearch_eq_none (hfind _) (fun A _ => hfind _) (fun _ => hfindR)
    have hprio : prioritySearch
        ({ s with MemberNames := pool } : CollisionManager) Struct.GetIndex Struct n k chk Func
        = some (tgt, none) := by
      unfold targetSpec at htgt
      unfold prioritySearch
      cases Func with
      | none =>
        have hk : k ≠ ECollisionType.ParameterName := fun hk => (hF hk) rfl
        rw [if_neg hk] at htgt
        simp only [Option.some.injEq] at htgt
        subst htgt
        simp only [if_neg hk, hscope]
      | some F =>
        have hR : reservedSearch s.ReservedNames chk n = none := by
          unfold reservedSearch; cases chk <;> simp [hfindR]
        simp only [hfind, hR, hscope]
        by_cases hk : k = ECollisionType.ParameterName
        · rw [if_pos hk] at htgt
          simp only [Option.map_some', Option.some.injEq] at htgt
          subst htgt
          simp only [if_pos hk]
        · rw [if_neg hk] at htgt
          simp only [Option.some.injEq] at htgt
          subst htgt
          simp only [if_neg hk]
    have hfull := AddNameToContainer_spec B ({ s with MemberNames := pool } : CollisionManager)
      Struct.GetIndex Struct n k chk Func
    rw [hprio] at hfull
    obtain ⟨full, hfullrun, hfullapp⟩ := hfull
    obtain ⟨fast, hfastrun, hfastapp⟩ := AddNameToContainer_inserted B
      ({ s with MemberNames := pool } : CollisionManager) Struct.GetIndex Struct n k chk Func tgt
      htgt
    exact ⟨tgt, fast, full, htgt, hfastrun, hfullrun, hfastapp, hfullapp⟩

/-- C19, at a concrete call: the new name `Other` is registered for `Leaf` after `Middle` and
`Base` were built. -/
theorem C19_fast_path_refines_full_search_witness :
    (∀ key, ∀ r ∈ exAfterMiddle.NameInfos.at key,
        r.Name ≠ (HashStringTable.FindOrAdd exAfterMiddle.MemberNames "Other").2.1)
    ∧ (∀ r ∈ exAfterMiddle.ReservedNames,
        r.Name ≠ (HashStringTable.FindOrAdd exAfterMiddle.MemberNames "Other").2.1)
    ∧ firstMatchSpec
        (searchOrderSpec
          { exAfterMiddle with
            MemberNames := (HashStringTable.FindOrAdd exAfterMiddle.MemberNames "Other").1 }
          exLeaf.GetIndex exLeaf ECollisionType.MemberName true none)
        (HashStringTable.FindOrAdd exAfterMiddle.MemberNames "Other").2.1 = none
    ∧ ∃ tgt fast full, targetSpec exLeaf.GetIndex ECollisionType.MemberName none = some tgt
      ∧ CollisionManager.AddNameToContainer B0
          { exAfterMiddle with
            MemberNames := (HashStringTable.FindOrAdd exAfterMiddle.MemberNames "Other").1 }
          exLeaf.GetIndex exLeaf
          ((HashStringTable.FindOrAdd exAfterMiddle.MemberNames "Other").2.1, true)
          ECollisionType.MemberName true none
          = some (fast, (exAfterMiddle.NameInfos.at tgt).length)
      ∧ CollisionManager.AddNameToContainer B0
          { exAfterMiddle with
            MemberNames := (HashStringTable.FindOrAdd exAfterMiddle.MemberNames "Other").1 }
          exLeaf.GetIndex exLeaf
          ((HashStringTable.FindOrAdd exAfterMiddle.MemberNames "Other").2.1, false)
          ECollisionType.MemberName true none
          = some (full, (exAfterMiddle.NameInfos.at tgt).length)
      ∧ CollisionManager.Appended
          { exAfterMiddle with
            MemberNames := (HashStringTable.FindOrAdd exAfterMiddle.MemberNames "Other").1 }
          fast tgt
          (NameInfo.new B0 (HashStringTable.FindOrAdd exAfterMiddle.MemberNames "Other").2.1
            ECollisionType.MemberName)
      ∧ CollisionManager.Appended
          { exAfterMiddle with
            MemberNames := (HashStringTable.FindOrAdd exAfterMiddle.MemberNames "Other").1 }
          full tgt
          (NameInfo.new B0 (HashStringTable.FindOrAdd exAfterMiddle.MemberNames "Other").2.1
            ECollisionType.MemberName) :=
  C19_fast_path_refines_full_search B0 (by decide) [exLeaf, exMiddle, exBase] exAfterMiddle
    (ReachableIn.registering (by decide)
      (ReachableIn.build CollisionManager.empty exAfterMiddle exMiddle true ReachableIn.empty
        (by decide) (by rfl)))
    exLeaf "Other" ECollisionType.MemberName true none
    (by intro h; exact absurd h (by decide)) (by decide)

/-! ## The own kinds of the records, by scope -/

theorem CollisionManager.KindsByScope.after_registration {B : BitLayout} (hB : B.ok) {U : List UEStruct}
    (hapart : FunctionScopesApart U) {s s' : CollisionManager} {S : UEStruct} (hS : S ∈ U)
    {chk : Bool} {op : Registration} (hop : op ∈ registrationsOf S chk)
    (hrun : AddToContainerAndTranslationMap B s S op.ValidName op.Key op.CollisionType op.chk
      op.Func = some s')
    (h : s.KindsByScope B U) : s'.KindsByScope B U := by
  obtain ⟨h1, h2, h3⟩ := h
  rcases registrationsOf_shape hop with ⟨hnone, -, hk⟩ | ⟨hk, -, F, hF, hsome⟩
  · have hk' : op.CollisionType ≠ ECollisionType.ParameterName := by
      rcases hk with hk | hk <;> rw [hk] <;> decide
    obtain ⟨s1, r, hrun1, hstep⟩ := lambda_spec_type B hB s S op.ValidName op.Key
      op.CollisionType op.chk hk'
    rw [hnone] at hrun
    rw [hrun] at hrun1
    simp only [Option.some.injEq] at hrun1
    subst hrun1
    obtain ⟨hpush, -, hres, -, -, hkind, -⟩ := hstep
    refine ⟨fun X hX x hx => ?_, fun X hX F' hF' x hx => ?_, fun x hx => ?_⟩
    · rw [hpush X.GetIndex] at hx
      split at hx
      · next heq =>
        rw [List.mem_append, List.mem_singleton] at hx
        rcases hx with hx | hx
        · exact h1 S hS x hx
        · rw [hx, hkind]
          rcases hk with hk | hk <;> rw [hk]
          · exact Or.inl rfl
          · exact Or.inr rfl
      · exact h1 X hX x hx
    · rw [hpush F'.Index, if_neg (hapart X hX F' hF' S hS)] at hx
      exact h2 X hX F' hF' x hx
    · rw [hres] at hx; exact h3 x hx
  · obtain ⟨s1, r, hrun1, hstep⟩ := lambda_spec_param B hB s S op.ValidName op.Key op.chk F
    rw [hsome, hk] at hrun
    rw [hrun] at hrun1
    simp only [Option.some.injEq] at hrun1
    subst hrun1
    obtain ⟨hpush, -, hres, -, -, hkind, -⟩ := hstep
    refine ⟨fun X hX x hx => ?_, fun X hX F' hF' x hx => ?_, fun x hx => ?_⟩
    · rw [hpush X.GetIndex, if_neg (fun heq => hapart S hS F hF X hX heq.symm)] at hx
      exact h1 X hX x hx
    · rw [hpush F'.Index] at hx
      split at hx
      · next heq =>
        rw [List.mem_append, List.mem_singleton] at hx
        rcases hx with hx | hx
        · rw [← heq] at hx
          exact h2 X hX F' hF' x hx
        · rw [hx, hkind]
      · exact h2 X hX F' hF' x hx
    · rw [hres] at hx; exact h3 x hx

/-- At any moment of a run in which the functions have scope identities of their own, the
records of the tables have the own kinds of their scopes. -/
theorem Registering.kinds {B : BitLayout} (hB : B.ok) {U : List UEStruct}
    (hapart : FunctionScopesApart U) {s : CollisionManager} (h : Registering B U s) :
    s.KindsByScope B U := by
  induction h with
  | empty =>
    refine ⟨fun X _ x hx => ?_, fun X _ F _ x hx => ?_, fun x hx => ?_⟩ <;>
      simp [CollisionManager.empty, NameInfoMap.at] at hx
  | reserve s w p _ ih =>
    obtain ⟨h1, h2, h3⟩ := ih
    obtain ⟨e, hR, ⟨hkind, -⟩, -⟩ := AddReservedName_entry hB s w p
    refine ⟨h1, h2, fun x hx => ?_⟩
    rw [hR, List.mem_append, List.mem_singleton] at hx
    rcases hx with hx | hx
    · exact h3 x hx
    · rw [hx, hkind]
      cases p
      · exact Or.inl rfl
      · exact Or.inr rfl
  | enter s S _ _ ih =>
    obtain ⟨h1, h2, h3⟩ := ih
    refine ⟨fun X hX x hx => ?_, fun X hX F hF x hx => ?_, h3⟩
    · simp only [NameInfoMap.at_touch] at hx; exact h1 X hX x hx
    · simp only [NameInfoMap.at_touch] at hx; exact h2 X hX F hF x hx
  | register s s' S chk op _ hS hop hrun ih => exact ih.after_registration hB hapart hS hop hrun

/-- C20: at any moment of a run by `AddReservedName` and the per-type driver in which the
structs come with their ancestors and the functions have scope identities of their own, every
record of the table of a struct is a data member or a function and every record of the table
of a function is a parameter; hence for every registration of the driver and every match of
its priority search, the slot `matched.ownKind + (1 if ancestor hit)` is at most 4, and the
bit the increment adds lies inside the five counter fields. -/
theorem C20_own_kinds_and_slots (B : BitLayout) (hB : B.ok) (U : List UEStruct)
    (hclosed : ScopesClosed U) (hapart : FunctionScopesApart U) (s : CollisionManager)
    (hs : Registering B U s) :
    (∀ X ∈ U, ∀ r ∈ s.NameInfos.at X.GetIndex,
        r.OwnType B = ECollisionType.MemberName.toNat
          ∨ r.OwnType B = ECollisionType.FunctionName.toNat)
    ∧ (∀ X ∈ U, ∀ F ∈ X.GetFunctions, ∀ r ∈ s.NameInfos.at F.Index,
        r.OwnType B = ECollisionType.ParameterName.toNat)
    ∧ (∀ T ∈ U, ∀ chk, ∀ op ∈ registrationsOf T chk, ∀ n e b,
        firstMatchSpec (searchOrderSpec s T.GetIndex T op.CollisionType op.chk op.Func) n
          = some (e, b) →
        e.OwnType B + b.toNat ≤ 4
          ∧ B.OwnTypeBitCount + (e.OwnType B + b.toNat) * B.PerCountBitCount
              < B.OwnTypeBitCount + 5 * B.PerCountBitCount) := by
  obtain ⟨h1, h2, h3⟩ := hs.kinds hB hapart
  refine ⟨h1, h2, ?_⟩
  intro T hT chk op hop n e b hmatch
  have hslot : e.OwnType B + b.toNat ≤ 4 := by
    unfold firstMatchSpec at hmatch
    obtain ⟨p, hp, hpe⟩ := List.exists_of_findSome?_eq_some hmatch
    rw [Option.map_eq_some', ← findExisting_eq_mostRecentSpec] at hpe
    obtain ⟨e', hfind, heq⟩ := hpe
    simp only [Prod.mk.injEq] at heq
    obtain ⟨he, hb⟩ := heq
    subst he
    have hmem := findExisting_mem hfind
    rcases searchOrderSpec_mem hp with ⟨F, hFunc, -, hpF⟩ | hpR | hpS | ⟨A, hA, hpA⟩
    · rcases registrationsOf_shape hop with ⟨hnone, -⟩ | ⟨-, -, F', hF', hsome⟩
      · rw [hnone] at hFunc; simp at hFunc
      · rw [hsome] at hFunc
        simp only [Option.some.injEq] at hFunc
        subst hFunc
        rw [hpF] at hmem hb
        have := h2 T hT F' hF' e' hmem
        simp only at hb
        rw [← hb, this]
        decide
    · rw [hpR] at hmem hb
      simp only at hb
      rw [← hb]
      rcases h3 e' hmem with h | h <;> rw [h] <;> decide
    · rw [hpS] at hmem hb
      simp only at hb
      rw [← hb]
      rcases h1 T hT e' hmem with h | h <;> rw [h] <;> decide
    · rw [hpA] at hmem hb
      simp only at hb
      rw [← hb]
      rcases h1 A (hclosed T hT A hA) e' hmem with h | h <;> rw [h] <;> decide
  refine ⟨hslot, ?_⟩
  have hpc : 1 ≤ B.PerCountBitCount := hB.2.1
  have : (e.OwnType B + b.toNat) * B.PerCountBitCount ≤ 4 * B.PerCountBitCount :=
    Nat.mul_le_mul_right _ hslot
  omega

/-- C20, at a concrete manager: `int` is reserved as a word of parameter context and `Runner` is
built. -/
theorem C20_own_kinds_and_slots_witness :
    (∀ X ∈ [exRunner], ∀ r ∈ exAfterRunner.NameInfos.at X.GetIndex,
        r.OwnType B0 = ECollisionType.MemberName.toNat
          ∨ r.OwnType B0 = ECollisionType.FunctionName.toNat)
    ∧ (∀ X ∈ [exRunner], ∀ F ∈ X.GetFunctions, ∀ r ∈ exAfterRunner.NameInfos.at F.Index,
        r.OwnType B0 = ECollisionType.ParameterName.toNat)
    ∧ (∀ T ∈ [exRunner], ∀ chk, ∀ op ∈ registrationsOf T chk, ∀ n e b,
        firstMatchSpec
            (searchOrderSpec exAfterRunner T.GetIndex T op.CollisionType op.chk op.Func) n
          = some (e, b) →
        e.OwnType B0 + b.toNat ≤ 4
          ∧ B0.OwnTypeBitCount + (e.OwnType B0 + b.toNat) * B0.PerCountBitCount
              < B0.OwnTypeBitCount + 5 * B0.PerCountBitCount) :=
  C20_own_kinds_and_slots B0 (by decide) [exRunner] (by decide) (by decide) exAfterRunner
    (ReachableIn.registering (by decide)
      (ReachableIn.build exReservedParam exAfterRunner exRunner true
        (ReachableIn.reserve CollisionManager.empty "int" true ReachableIn.empty)
        (by decide) (by rfl)))

/-! ## Ancestors are built first -/

theorem UEStruct.chain_length_le (S : UEStruct) : ∀ A ∈ S.chain, A.chain.length ≤ S.chain.length := by
  induction S with
  | root d =>
    intro A hA
    simp only [UEStruct.chain, List.mem_singleton] at hA
    rw [hA]
  | derived d Super ih =>
    intro A hA
    simp only [UEStruct.chain, List.mem_cons] at hA
    rcases hA with hA | hA
    · rw [hA]
    · have := ih A hA
      simp only [UEStruct.chain, List.length_cons]
      omega

theorem UEStruct.ancestors_chain_length_lt (S : UEStruct) :
    ∀ A ∈ S.ancestors, A.chain.length < S.chain.length := by
  cases S with
  | root d => intro A hA; simp [UEStruct.ancestors, UEStruct.GetSuper] at hA
  | derived d Super =>
    intro A hA
    simp only [UEStruct.ancestors, UEStruct.GetSuper] at hA
    have := Super.chain_length_le A hA
    simp only [UEStruct.chain, List.length_cons]
    omega

/-- The scope identity of an ancestor is not the scope identity of the struct. -/
theorem ancestor_index_ne {U : List UEStruct} (hclosed : ScopesClosed U)
    (hident : IndexIdentifies U) {S : UEStruct} (hS : S ∈ U) {A : UEStruct}
    (hA : A ∈ S.ancestors) : A.GetIndex ≠ S.GetIndex := by
  intro heq
  have := hident A (hclosed S hS A hA) S hS heq
  have hlt := S.ancestors_chain_length_lt A hA
  rw [this] at hlt
  exact Nat.lt_irrefl _ hlt

theorem ownTableNames_append (a b : List Registration) :
    ownTableNames (a ++ b) = ownTableNames a ++ ownTableNames b := by
  simp [ownTableNames]

theorem ownTableNames_members (S : UEStruct) (chk : Bool) (props : List UEProperty) :
    ownTableNames (props.map (Registration.ofMember S chk)) = props.map (fun P => P.ValidName) := by
  induction props with
  | nil => rfl
  | cons P rest ih =>
    simp only [List.map_cons]
    rw [← ih]
    simp [ownTableNames, Registration.ofMember]

theorem ownTableNames_parameters (S : UEStruct) (chk : Bool) (F : UEFunction)
    (props : List UEProperty) :
    ownTableNames (props.map (Registration.ofParameter S chk F)) = [] := by
  induction props with
  | nil => rfl
  | cons P rest ih =>
    simp only [ownTableNames, List.map_cons] at ih ⊢
    simp [Registration.ofParameter, ih]

theorem ownTableNames_functions (S : UEStruct) (chk : Bool) (funcs : List UEFunction) :
    ownTableNames (funcRegistrations S chk funcs) = funcs.map (fun F => F.ValidName) := by
  induction funcs with
  | nil => rfl
  | cons F rest ih =>
    simp only [funcRegistrations, List.map_cons]
    rw [← ih]
    have hp := ownTableNames_parameters S chk F F.Properties
    have happ := ownTableNames_append
      (F.Properties.map (Registration.ofParameter S chk F)) (funcRegistrations S chk rest)
    rw [hp, List.nil_append] at happ
    rw [← happ]
    simp [ownTableNames, Registration.ofFunction]

/-- The names that the registrations of the driver put into the table of the struct are the
names of its data members and of its functions. -/
theorem ownTableNames_registrationsOf (S : UEStruct) (chk : Bool) :
    ownTableNames (registrationsOf S chk) = S.symbolNames := by
  unfold registrationsOf UEStruct.symbolNames
  rw [ownTableNames_append, ownTableNames_members, ownTableNames_functions]

/-- The raw texts of the tables after a call of the lambda: the name of the symbol is added
to the texts of the target table, and the other texts are those before the call. -/
theorem LambdaStep.tableTexts {B : BitLayout} {s s' : CollisionManager} {S : UEStruct}
    {w : String} {key : Nat} {k : ECollisionType} {chk : Bool} {Func : Option UEFunction}
    {tgt : Nat} {r : NameInfo} (h : LambdaStep B s s' S w key k chk Func tgt r)
    (hnames : ∀ k', ∀ x ∈ s.NameInfos.at k', x.Name < s.MemberNames.length) (k' : Nat) :
    s'.tableTexts k' = if k' = tgt then s.tableTexts k' ++ [w] else s.tableTexts k' := by
  obtain ⟨hpush, hpool, -, -, hname, -⟩ := h
  obtain ⟨ext, hext⟩ := FindOrAdd_extends s.MemberNames w
  have hold : ∀ T : NameContainer, (∀ x ∈ T, x.Name < s.MemberNames.length) →
      T.map (fun x => HashStringTable.GetStringEntry s'.MemberNames x.Name)
        = T.map (fun x => HashStringTable.GetStringEntry s.MemberNames x.Name) := by
    intro T hT
    apply List.map_congr_left
    intro x hx
    rw [hpool, hext]
    exact GetStringEntry_append ext (hT x hx)
  unfold CollisionManager.tableTexts
  rw [hpush k']
  split
  · next heq =>
    rw [List.map_append, hold _ (hnames tgt), heq]
    simp only [List.map_cons, List.map_nil]
    rw [hpool, hname, GetStringEntry_FindOrAdd]
  · exact hold _ (hnames k')

/-- The table a registration of the driver appends to: the table of the struct for a data
member or a function, the table of the function for a parameter. -/
theorem registration_target {B : BitLayout} (hB : B.ok) {s s' : CollisionManager} {S : UEStruct}
    {chk : Bool} {op : Registration} (hop : op ∈ registrationsOf S chk)
    (hrun : AddToContainerAndTranslationMap B s S op.ValidName op.Key op.CollisionType op.chk
      op.Func = some s') :
    ∃ tgt r, LambdaStep B s s' S op.ValidName op.Key op.CollisionType op.chk op.Func tgt r
      ∧ ((op.CollisionType ≠ ECollisionType.ParameterName ∧ tgt = S.GetIndex)
        ∨ (op.CollisionType = ECollisionType.ParameterName
            ∧ ∃ F ∈ S.GetFunctions, tgt = F.Index)) := by
  rcases registrationsOf_shape hop with ⟨hnone, -, hk⟩ | ⟨hk, -, F, hF, hsome⟩
  · have hk' : op.CollisionType ≠ ECollisionType.ParameterName := by
      rcases hk with hk | hk <;> rw [hk] <;> decide
    obtain ⟨s1, r, hrun1, hstep⟩ := lambda_spec_type B hB s S op.ValidName op.Key
      op.CollisionType op.chk hk'
    rw [hnone] at hrun ⊢
    rw [hrun] at hrun1
    simp only [Option.some.injEq] at hrun1
    subst hrun1
    exact ⟨S.GetIndex, r, hstep, Or.inl ⟨hk', rfl⟩⟩
  · obtain ⟨s1, r, hrun1, hstep⟩ := lambda_spec_param B hB s S op.ValidName op.Key op.chk F
    rw [hsome, hk] at hrun ⊢
    rw [hrun] at hrun1
    simp only [Option.some.injEq] at hrun1
    subst hrun1
    exact ⟨F.Index, r, hstep, Or.inr ⟨rfl, F, hF, rfl⟩⟩

/-- A registration for a struct leaves the other structs complete. -/
theorem lambda_complete_frame {B : BitLayout} (hB : B.ok) {U : List UEStruct}
    (hapart : FunctionScopesApart U) {s s' : CollisionManager} {S : UEStruct} (hS : S ∈ U)
    {chk : Bool} {op : Registration} (hop : op ∈ registrationsOf S chk)
    (hreg : Registering B U s)
    (hrun : AddToContainerAndTranslationMap B s S op.ValidName op.Key op.CollisionType op.chk
      op.Func = some s')
    {Y : UEStruct} (hY : Y ∈ U) (hne : Y.GetIndex ≠ S.GetIndex) (hc : s.Complete Y) :
    s'.Complete Y := by
  obtain ⟨tgt, r, hstep, htgt⟩ := registration_target hB hop hrun
  refine ⟨(lambda_keys hrun Y.GetIndex).1 hc.1, ?_⟩
  rw [hstep.tableTexts (hreg.invariant hB).1.2.1 Y.GetIndex, if_neg]
  · exact hc.2
  · rcases htgt with ⟨-, htgt⟩ | ⟨-, F, hF, htgt⟩
    · rw [htgt]; exact hne
    · rw [htgt]; exact fun heq => hapart S hS F hF Y hY heq.symm

theorem registerStates_complete {B : BitLayout} (hB : B.ok) {U : List UEStruct}
    (hapart : FunctionScopesApart U) {S : UEStruct} (hS : S ∈ U) (chk : Bool)
    {Y : UEStruct} (hY : Y ∈ U) (hne : Y.GetIndex ≠ S.GetIndex) :
    ∀ (ops : List Registration) (s : CollisionManager),
      (∀ op ∈ ops, op ∈ registrationsOf S chk) → Registering B U s → s.Complete Y →
      ∀ s2 ∈ registerStates B S s ops, s2.Complete Y := by
  intro ops
  induction ops with
  | nil => intro s _ _ _ s2 h2; simp [registerStates] at h2
  | cons op rest ih =>
    intro s hops hreg hc s2 h2
    simp only [registerStates, List.mem_cons] at h2
    rcases h2 with h2 | h2
    · rw [h2]; exact hc
    · split at h2
      · simp at h2
      · next s1 h1 =>
        have hop := hops op (List.mem_cons_self _ _)
        exact ih s1 (fun op' h' => hops op' (List.mem_cons_of_mem _ h'))
          (Registering.register s s1 S chk op hreg hS hop h1)
          (lambda_complete_frame hB hapart hS hop hreg h1 hY hne hc) s2 h2

theorem registerAll_complete {B : BitLayout} (hB : B.ok) {U : List UEStruct}
    (hapart : FunctionScopesApart U) {S : UEStruct} (hS : S ∈ U) (chk : Bool)
    {Y : UEStruct} (hY : Y ∈ U) (hne : Y.GetIndex ≠ S.GetIndex) :
    ∀ (ops : List Registration) (s s' : CollisionManager),
      (∀ op ∈ ops, op ∈ registrationsOf S chk) → Registering B U s → s.Complete Y →
      registerAll B S s ops = some s' → s'.Complete Y := by
  intro ops
  induction ops with
  | nil =>
    intro s s' _ _ hc h
    simp only [registerAll, Option.some.injEq] at h
    rw [← h]; exact hc
  | cons op rest ih =>
    intro s s' hops hreg hc h
    rw [registerAll_cons] at h
    split at h
    · simp at h
    · next s1 h1 =>
      have hop := hops op (List.mem_cons_self _ _)
      exact ih s1 s' (fun op' h' => hops op' (List.mem_cons_of_mem _ h'))
        (Registering.register s s1 S chk op hreg hS hop h1)
        (lambda_complete_frame hB hapart hS hop hreg h1 hY hne hc) h

/-- The raw texts of the table of the struct after a sequence of registrations of the driver:
the names of the data members and functions of the sequence are added, in order. -/
theorem registerAll_own_texts {B : BitLayout} (hB : B.ok) {U : List UEStruct}
    (hapart : FunctionScopesApart U) {S : UEStruct} (hS : S ∈ U) (chk : Bool) :
    ∀ (ops : List Registration) (s s' : CollisionManager),
      (∀ op ∈ ops, op ∈ registrationsOf S chk) → Registering B U s →
      registerAll B S s ops = some s' →
      s'.tableTexts S.GetIndex = s.tableTexts S.GetIndex ++ ownTableNames ops := by
  intro ops
  induction ops with
  | nil =>
    intro s s' _ _ h
    simp only [registerAll, Option.some.injEq] at h
    rw [← h]; simp [ownTableNames]
  | cons op rest ih =>
    intro s s' hops hreg h
    rw [registerAll_cons] at h
    split at h
    · simp at h
    · next s1 h1 =>
      have hop := hops op (List.mem_cons_self _ _)
      have ih' := ih s1 s' (fun op' h' => hops op' (List.mem_cons_of_mem _ h'))
        (Registering.register s s1 S chk op hreg hS hop h1) h
      obtain ⟨tgt, r, hstep, htgt⟩ := registration_target hB hop h1
      rw [ih', hstep.tableTexts (hreg.invariant hB).1.2.1 S.GetIndex]
      rcases htgt with ⟨hk, htgt⟩ | ⟨hk, F, hF, htgt⟩
      · rw [if_pos htgt.symm, List.append_assoc]
        congr 1
        simp [ownTableNames, hk]
      · rw [if_neg (by rw [htgt]; exact fun heq => hapart S hS F hF S hS heq.symm)]
        congr 1
        simp [ownTableNames, hk]

theorem CollisionManager.Complete.after_touch {s : CollisionManager} {Y : UEStruct} (h : s.Complete Y)
    (k : Nat) :
    CollisionManager.Complete
      { NameInfos := s.NameInfos.touch k, TranslationMap := s.TranslationMap,
        MemberNames := s.MemberNames, ReservedNames := s.ReservedNames } Y := by
  refine ⟨(NameInfoMap.KeysWithin.of_touch s.NameInfos k Y.GetIndex).1 h.1, ?_⟩
  have := h.2
  unfold CollisionManager.tableTexts at this ⊢
  simp only [NameInfoMap.at_touch]
  exact this

/-- While the symbols of a struct are registered, its ancestors stay complete. -/
theorem buildMoments_complete {B : BitLayout} (hB : B.ok) {U : List UEStruct}
    (hclosed : ScopesClosed U) (hident : IndexIdentifies U) (hapart : FunctionScopesApart U)
    {S : UEStruct} (hS : S ∈ U) {chk : Bool} {s : CollisionManager} (hreg : Registering B U s)
    (hanc : ∀ A ∈ S.ancestors, s.Complete A) :
    ∀ p ∈ AddStructToNameContainer.buildMoments B s S chk, ∀ A ∈ p.1.ancestors, p.2.Complete A := by
  intro p hp A hA
  unfold AddStructToNameContainer.buildMoments at hp
  simp only at hp
  split at hp
  · rw [List.mem_map] at hp
    obtain ⟨s2, hs2, rfl⟩ := hp
    simp only at hA ⊢
    exact registerStates_complete hB hapart hS chk (hclosed S hS A hA)
      (ancestor_index_ne hclosed hident hS hA) _ _ (fun _ h => h)
      (Registering.enter s S hreg hS) ((hanc A hA).after_touch S.GetIndex) s2 hs2
  · simp at hp

theorem symbolNames_eq_nil {S : UEStruct} (h : S.symbolNames = []) (chk : Bool) :
    registrationsOf S chk = [] := by
  unfold UEStruct.symbolNames at h
  rw [List.append_eq_nil] at h
  obtain ⟨h1, h2⟩ := h
  rw [List.map_eq_nil_iff] at h1 h2
  unfold registrationsOf
  rw [h1, h2]
  rfl

/-- The loops of the driver, entered with the ancestors of the struct in the scope store,
leave a scope store of built structs. -/
theorem build_built {B : BitLayout} (hB : B.ok) {U : List UEStruct}
    (hclosed : ScopesClosed U) (hident : IndexIdentifies U) (hapart : FunctionScopesApart U)
    {S : UEStruct} (hS : S ∈ U) {chk : Bool} {s s' : CollisionManager}
    (hreg : Registering B U s) (hbuilt : s.Built U)
    (hanc : ∀ A ∈ S.ancestors, (s.NameInfos A.GetIndex).isSome = true)
    (h : AddStructToNameContainer.build B s S chk = some s') : s'.Built U := by
  have hkeys := build_keys h
  have hpres := build_present h
  by_cases hSp : (s.NameInfos S.GetIndex).isSome = true
  · -- the struct is built already: nothing changes
    have hcomp := (hbuilt S hS hSp).1
    have htouch : ({ s with NameInfos := s.NameInfos.touch S.GetIndex } : CollisionManager) = s := by
      rw [NameInfoMap.touch_of_isSome hSp]
    rw [build_eq_registerAll, htouch] at h
    split at h
    · next hemp =>
      have hnil : S.symbolNames = [] := by
        rw [← hcomp.2]
        unfold CollisionManager.tableTexts
        rw [List.isEmpty_iff.1 hemp]
        rfl
      rw [symbolNames_eq_nil hnil chk] at h
      simp only [registerAll, Option.some.injEq] at h
      rw [← h]; exact hbuilt
    · simp only [Option.some.injEq] at h
      rw [← h]; exact hbuilt
  · -- the struct is built now
    have hnone : s.NameInfos S.GetIndex = none := by
      cases hv : s.NameInfos S.GetIndex with
      | none => rfl
      | some c => rw [hv] at hSp; simp at hSp
    have hatnil : s.NameInfos.at S.GetIndex = [] := by
      unfold NameInfoMap.at; rw [hnone]; rfl
    rw [build_eq_registerAll, hatnil] at h
    simp only [List.isEmpty_nil, if_true] at h
    have hent := Registering.enter s S hreg hS
    have hold : ∀ Y ∈ U, (s.NameInfos Y.GetIndex).isSome = true →
        s'.Complete Y ∧ ∀ A ∈ Y.ancestors, (s'.NameInfos A.GetIndex).isSome = true := by
      intro Y hY hYp
      have hne : Y.GetIndex ≠ S.GetIndex := by
        intro heq; rw [heq] at hYp; exact hSp hYp
      obtain ⟨hc, ha⟩ := hbuilt Y hY hYp
      exact ⟨registerAll_complete hB hapart hS chk hY hne _ _ s' (fun _ h' => h') hent
        (hc.after_touch S.GetIndex) h, fun A hA => (hkeys A.GetIndex).1 (ha A hA)⟩
    intro Y hY hYp'
    rcases (hkeys Y.GetIndex).2 hYp' with hYp | heq | ⟨F, hF, heq⟩ | ⟨A, hA, heq⟩
    · exact hold Y hY hYp
    · have hYS := hident Y hY S hS heq
      subst hYS
      refine ⟨⟨hpres, ?_⟩, fun A hA => (hkeys A.GetIndex).1 (hanc A hA)⟩
      rw [registerAll_own_texts hB hapart hY chk _ _ s' (fun _ h' => h') hent h,
        ownTableNames_registrationsOf]
      unfold CollisionManager.tableTexts
      simp only [NameInfoMap.at_touch, hatnil, List.map_nil, List.nil_append]
    · exact absurd heq.symm (hapart S hS F hF Y hY)
    · have hYA := hident Y hY A (hclosed S hS A hA) heq
      subst hYA
      exact hold Y hY (hanc Y hA)

/-- A call of the driver from a scope store of built structs: it returns, the store it leaves
is again one of built structs, the struct and its ancestors have entries, and at every moment
of the call at which a symbol is registered the ancestors of the struct of that symbol are
complete. -/
theorem AddStructToNameContainer_built {B : BitLayout} (hB : B.ok) {U : List UEStruct}
    (hclosed : ScopesClosed U) (hident : IndexIdentifies U) (hapart : FunctionScopesApart U)
    (chk : Bool) :
    ∀ (S : UEStruct) (s : CollisionManager), S ∈ U → Registering B U s → s.Built U →
      ∃ s', s.AddStructToNameContainer B S chk = some s' ∧ s'.Built U
        ∧ (s'.NameInfos S.GetIndex).isSome = true
        ∧ ∀ p ∈ s.registrationMoments B S chk, ∀ A ∈ p.1.ancestors, p.2.Complete A := by
  intro S
  induction S with
  | root d =>
    intro s hS hreg hbuilt
    obtain ⟨s', h⟩ := build_total B hB s (.root d) chk
    have hanc : ∀ A ∈ (UEStruct.root d).ancestors, (s.NameInfos A.GetIndex).isSome = true := by
      intro A hA; simp [UEStruct.ancestors, UEStruct.GetSuper] at hA
    refine ⟨s', by simp only [CollisionManager.AddStructToNameContainer]; exact h,
      build_built hB hclosed hident hapart hS hreg hbuilt hanc h, build_present h, ?_⟩
    simp only [CollisionManager.registrationMoments]
    exact buildMoments_complete hB hclosed hident hapart hS hreg
      (fun A hA => by simp [UEStruct.ancestors, UEStruct.GetSuper] at hA)
  | derived d Super ih =>
    intro s hS hreg hbuilt
    have hSuper : Super ∈ U :=
      hclosed _ hS Super (by rw [UEStruct.ancestors_derived]; exact List.mem_cons_self _ _)
    -- the step of lines 197-221, from a manager in which the ancestor has an entry
    have hstep : ∀ s1 : CollisionManager, Registering B U s1 → s1.Built U →
        (s1.NameInfos Super.GetIndex).isSome = true →
        ∃ s', AddStructToNameContainer.build B s1 (.derived d Super) chk = some s' ∧ s'.Built U
          ∧ (s'.NameInfos (UEStruct.derived d Super).GetIndex).isSome = true
          ∧ ∀ p ∈ AddStructToNameContainer.buildMoments B s1 (.derived d Super) chk,
              ∀ A ∈ p.1.ancestors, p.2.Complete A := by
      intro s1 hreg1 hbuilt1 hp1
      obtain ⟨s', h⟩ := build_total B hB s1 (.derived d Super) chk
      obtain ⟨hc, ha⟩ := hbuilt1 Super hSuper hp1
      have hanc : ∀ A ∈ (UEStruct.derived d Super).ancestors,
          (s1.NameInfos A.GetIndex).isSome = true ∧ s1.Complete A := by
        intro A hA
        rw [UEStruct.ancestors_derived, List.mem_cons] at hA
        rcases hA with hA | hA
        · rw [hA]; exact ⟨hp1, hc⟩
        · have hAU : A ∈ U := hclosed Super hSuper A hA
          exact ⟨ha A hA, (hbuilt1 A hAU (ha A hA)).1⟩
      exact ⟨s', h, build_built hB hclosed hident hapart hS hreg1 hbuilt1
        (fun A hA => (hanc A hA).1) h, build_present h,
        buildMoments_complete hB hclosed hident hapart hS hreg1 (fun A hA => (hanc A hA).2)⟩
    by_cases habs : (s.NameInfos Super.GetIndex).isNone = true
    · obtain ⟨s1, h1, hbuilt1, hp1, hm1⟩ := ih s hSuper hreg hbuilt
      have hreg1 := AddStructToNameContainer_registering hclosed Super s s1 hSuper hreg h1
      obtain ⟨s', h, hbuilt', hp', hm'⟩ := hstep s1 hreg1 hbuilt1 hp1
      refine ⟨s', ?_, hbuilt', hp', ?_⟩
      · simp only [CollisionManager.AddStructToNameContainer, habs, if_true, h1]
        exact h
      · intro p hp
        simp only [CollisionManager.registrationMoments, habs, if_true, h1,
          List.mem_append] at hp
        rcases hp with hp | hp
        · exact hm1 p hp
        · exact hm' p hp
    · have hp1 : (s.NameInfos Super.GetIndex).isSome = true := by
        cases hv : s.NameInfos Super.GetIndex with
        | none => rw [hv] at habs; simp at habs
        | some c => rfl
      obtain ⟨s', h, hbuilt', hp', hm'⟩ := hstep s hreg hbuilt hp1
      refine ⟨s', ?_, hbuilt', hp', ?_⟩
      · simp only [CollisionManager.AddStructToNameContainer, habs, if_false,
          Bool.false_eq_true]
        exact h
      · intro p hp
        simp only [CollisionManager.registrationMoments, habs, if_false,
          Bool.false_eq_true] at hp
        exact hm' p hp

theorem CollisionManager.Built.after_reserved_name {B : BitLayout} {U : List UEStruct} {s : CollisionManager}
    (h : s.Built U) (hnames : ∀ k, ∀ x ∈ s.NameInfos.at k, x.Name < s.MemberNames.length)
    (w : String) (p : Bool) : (s.AddReservedName B w p).Built U := by
  intro X hX hXp
  obtain ⟨hc, ha⟩ := h X hX hXp
  refine ⟨⟨hXp, ?_⟩, ha⟩
  rw [← hc.2]
  obtain ⟨ext, hext⟩ := FindOrAdd_extends s.MemberNames w
  unfold CollisionManager.tableTexts
  simp only [CollisionManager.AddReservedName]
  apply List.map_congr_left
  intro x hx
  rw [hext]
  exact GetStringEntry_append ext (hnames _ x hx)

/-- Between the calls of the driver the scope store is one of built structs. -/
theorem ReachableIn.built {B : BitLayout} (hB : B.ok) {U : List UEStruct}
    (hclosed : ScopesClosed U) (hident : IndexIdentifies U) (hapart : FunctionScopesApart U)
    {s : CollisionManager} (h : ReachableIn B U s) : s.Built U := by
  induction h with
  | empty => intro X _ hXp; simp [CollisionManager.empty] at hXp
  | reserve s w p hs ih =>
    exact ih.after_reserved_name ((hs.registering hclosed).invariant hB).1.2.1 w p
  | build s s' S chk hs hS hrun ih =>
    obtain ⟨s1, h1, hbuilt1, -⟩ := AddStructToNameContainer_built hB hclosed hident hapart chk
      S s hS (hs.registering hclosed) ih
    rw [hrun] at h1
    simp only [Option.some.injEq] at h1
    rw [h1]; exact hbuilt1

/-- C16: in a run by `AddReservedName` and the per-type driver from the empty scope store, in
which the structs come with their ancestors, a scope identity identifies its struct and the
functions have scope identities of their own, every call of the driver returns, and at every
moment of the call at which a symbol of a struct is registered, every ancestor of that struct
has an entry in the scope store whose records are, in order, the data members and the
functions of the ancestor. -/
theorem C16_ancestors_built_first (B : BitLayout) (hB : B.ok) (U : List UEStruct)
    (hclosed : ScopesClosed U) (hident : IndexIdentifies U) (hapart : FunctionScopesApart U)
    (s : CollisionManager) (hs : ReachableIn B U s) (Struct : UEStruct) (hS : Struct ∈ U)
    (bShouldCheckReservedNames : Bool) :
    (∃ s', s.AddStructToNameContainer B Struct bShouldCheckReservedNames = some s')
    ∧ ∀ p ∈ s.registrationMoments B Struct bShouldCheckReservedNames,
        ∀ A ∈ p.1.ancestors, p.2.Complete A := by
  obtain ⟨s', h, -, -, hm⟩ := AddStructToNameContainer_built hB hclosed hident hapart
    bShouldCheckReservedNames Struct s hS (hs.registering hclosed)
    (hs.built hB hclosed hident hapart)
  exact ⟨⟨s', h⟩, hm⟩

/-- C16, at a concrete call: the driver builds `Leaf` from the empty manager, and with it `Middle`
and `Base`. -/
theorem C16_ancestors_built_first_witness :
    (∃ s', CollisionManager.empty.AddStructToNameContainer B0 exLeaf true = some s')
    ∧ ∀ p ∈ CollisionManager.empty.registrationMoments B0 exLeaf true,
        ∀ A ∈ p.1.ancestors, p.2.Complete A :=
  C16_ancestors_built_first B0 (by decide) [exLeaf, exMiddle, exBase] (by decide) (by decide)
    (by decide) CollisionManager.empty ReachableIn.empty exLeaf (by decide) true

/-! ## The moments of a call of the driver -/

theorem registerStates_length (B : BitLayout) (hB : B.ok) (S : UEStruct) :
    ∀ (ops : List Registration) (s : CollisionManager),
      (∀ op ∈ ops, op.CollisionType = ECollisionType.ParameterName → op.Func ≠ none) →
      (registerStates B S s ops).length = ops.length := by
  intro ops
  induction ops with
  | nil => intro s _; rfl
  | cons op rest ih =>
    intro s hops
    obtain ⟨s1, tgt, r, h1, -⟩ := lambda_spec B hB s S op.ValidName op.Key op.CollisionType
      op.chk op.Func (hops op (List.mem_cons_self _ _))
    simp only [registerStates, h1, List.length_cons]
    rw [ih s1 (fun op' h' => hops op' (List.mem_cons_of_mem _ h'))]

/-- When the table of the struct is empty, every registration of the driver for the struct has
its moment. -/
theorem buildMoments_length (B : BitLayout) (hB : B.ok) (s : CollisionManager) (S : UEStruct)
    (chk : Bool) (hemp : s.NameInfos.at S.GetIndex = []) :
    (AddStructToNameContainer.buildMoments B s S chk).length = (registrationsOf S chk).length := by
  unfold AddStructToNameContainer.buildMoments
  simp only [NameInfoMap.at_touch, hemp, List.isEmpty_nil, if_true, List.length_map]
  exact registerStates_length B hB S _ _ (fun op hop => registrationsOf_func_ok hop)

theorem registerStates_registering {B : BitLayout} {U : List UEStruct} {S : UEStruct}
    (hS : S ∈ U) (chk : Bool) :
    ∀ (ops : List Registration) (s : CollisionManager),
      (∀ op ∈ ops, op ∈ registrationsOf S chk) → Registering B U s →
      ∀ s2 ∈ registerStates B S s ops, Registering B U s2 := by
  intro ops
  induction ops with
  | nil => intro s _ _ s2 h2; simp [registerStates] at h2
  | cons op rest ih =>
    intro s hops hreg s2 h2
    simp only [registerStates, List.mem_cons] at h2
    rcases h2 with h2 | h2
    · rw [h2]; exact hreg
    · split at h2
      · simp at h2
      · next s1 h1 =>
        exact ih s1 (fun op' h' => hops op' (List.mem_cons_of_mem _ h'))
          (Registering.register s s1 S chk op hreg hS (hops op (List.mem_cons_self _ _)) h1)
          s2 h2

theorem buildMoments_registering {B : BitLayout} {U : List UEStruct} {S : UEStruct}
    (hS : S ∈ U) {chk : Bool} {s : CollisionManager} (hreg : Registering B U s) :
    ∀ p ∈ AddStructToNameContainer.buildMoments B s S chk, p.1 ∈ U ∧ Registering B U p.2 := by
  intro p hp
  unfold AddStructToNameContainer.buildMoments at hp
  simp only at hp
  split at hp
  · rw [List.mem_map] at hp
    obtain ⟨s2, hs2, rfl⟩ := hp
    exact ⟨hS, registerStates_registering hS chk _ _ (fun _ h => h)
      (Registering.enter s S hreg hS) s2 hs2⟩
  · simp at hp

/-- The managers in which the driver registers a symbol are managers of a run. -/
theorem registrationMoments_registering {B : BitLayout} {U : List UEStruct}
    (hU : ScopesClosed U) {chk : Bool} :
    ∀ (S : UEStruct) (s : CollisionManager), S ∈ U → Registering B U s →
      ∀ p ∈ s.registrationMoments B S chk, p.1 ∈ U ∧ Registering B U p.2 := by
  intro S
  induction S with
  | root d =>
    intro s hS hreg p hp
    simp only [CollisionManager.registrationMoments] at hp
    exact buildMoments_registering hS hreg p hp
  | derived d Super ih =>
    intro s hS hreg p hp
    have hSuper : Super ∈ U :=
      hU _ hS Super (by rw [UEStruct.ancestors_derived]; exact List.mem_cons_self _ _)
    simp only [CollisionManager.registrationMoments] at hp
    split at hp
    · rw [List.mem_append] at hp
      rcases hp with hp | hp
      · exact ih s hSuper hreg p hp
      · split at hp
        · simp at hp
        · next s1 h1 =>
          exact buildMoments_registering hS
            (AddStructToNameContainer_registering hU Super s s1 hSuper hreg h1) p hp
    · exact buildMoments_registering hS hreg p hp

/-- The driver, called for `Leaf` on the empty manager, registers a symbol of `Base`, then one
of `Middle`, then one of `Leaf`. -/
theorem registrationMoments_of_Leaf :
    (CollisionManager.empty.registrationMoments B0 exLeaf true).map
        (fun p => (p.1.GetValidName, p.2.tableTexts 1, p.2.tableTexts 4))
      = [("Base", [], []), ("Middle", ["Value"], []), ("Leaf", ["Value"], ["Value"])] := by
  decide

end Dumper
